import Mathlib

/-!
# Lobby: a shallow embedding of the load balancer control plane

The Go sources (`lb.go`, `nftables.go`, `upstream.go`, `common.go`, `target.go`,
`config_types.go`) are embedded as pure Lean functions.

* Go machine integers are `Nat` with an explicit modulus where the source can wrap.
* A Go `error` is `Option Error`; an `Error` is the chain of sentinel errors that
  `fmt.Errorf("%w: %w", ...)` wraps, so `errors.Is err s` is `s ∈ chain`.
* Pointers into the target / upstream tree are positions in the lists of that tree.
* The kernel side (netlink) is an explicit input: the listings the code reads and the
  outcome of the calls that can fail are arguments of the embedded function.
* Functions of the Go library (`net.ParseIP`, `net.IP.String`, the DNS exchange) are
  arguments as well; the pattern `fqdnRegexStringRFC1123` is embedded as a regular
  expression together with a matcher that decides its language.
-/

namespace Lobby

/-! ## Errors -/

/-- Sentinel errors declared with `errors.New` in the sources. -/
inductive Sentinel where
  | errHcp | errUgFM
  | errCheckIpFwd | errReadIpv4Sett | errReadIpv6Sett | errCheckCap | errHostType
  | errDnsHostRecordFail | errDnsHostFqdnCheckFail
  | errCheckDep | errCheckPerm | errConfFileOpen | errConfFileUnmarshal
  | errConfRepEngine | errConfRepTargetName | errConfRepUGName | errConfRepPortProto
  | errConfRepUName | errConfUHost | errConfDnsAddr | errConfDistMode | errConfTargetProto
  | errConfHcProtocol | errConfProbePort | errConfProbeCI | errConfProbeSC
  | errConfProbeTimeout | errDistMode | errLbEngineType | errLbInit | errLbEngineStart
  | errLbEngineStop | errLbReconfig | errLbEngineReconfig | errLbCheckConf | errLbConf
  | errLbProto | errLbEngineUpstreamUpdate | errReplUpstreamIp
  | errNftPrep | errNftInit | errNftReconfig | errNftAssert | errNftNetlinkConn
  | errNftFlush | errNftListTables | errNftAddLbTable | errNftAddMasquerade
  | errNftCleanMasquerade | errNftUpdateUpstreamChain | errNftUpdateUpstream | errNftStop
  | errNftPerm | errNftPermCap | errNftUpdateTarget
  | external
  deriving DecidableEq, Repr

/-- The chain of sentinels an error value wraps (outermost first). -/
abbrev Error := List Sentinel

/-- Go `errors.Is` on the result of a call (`none` is the nil error). -/
def errorsIs (err : Option Error) (s : Sentinel) : Bool :=
  match err with
  | none => false
  | some chain => decide (s ∈ chain)

/-! ## Enumerations of `upstream.go` and `lb.go` -/

/-- Go `type ugFoMode byte`: the upstream group failover mode. -/
abbrev ugFoMode := Nat

def ugFoModeUnknown : ugFoMode := 0
def ugFoModeInactive : ugFoMode := 1
def ugFoModeActive1 : ugFoMode := 2
def ugFoModeActive2 : ugFoMode := 3
def ugFoModeDown : ugFoMode := 4

/-- Amount of failover modes (`numUgFoModes`). -/
def numUgFoModes : Nat := 5

/-- Suffix used on nftables for upstream group chain names. -/
def ugFoModeNftNameSuffix : String := "-"

/-- Go `func (ugFM ugFoMode) getId() string`. -/
def getId (ugFM : ugFoMode) : String :=
  match ugFM with
  | 0 => "0"
  | 1 => "1"
  | 2 => "2"
  | 3 => "3"
  | 4 => "4"
  | _ => "0"

/-- Go `func (ugFM ugFoMode) nextMode() (ugFoMode, error)`. -/
def nextMode (ugFM : ugFoMode) : ugFoMode × Option Error :=
  match ugFM with
  | 1 => (ugFoModeActive1, none)
  | 2 => (ugFoModeActive2, none)
  | 3 => (ugFoModeActive1, none)
  | 4 => (ugFoModeActive1, none)
  | _ => (ugFoModeUnknown, some [Sentinel.errUgFM])

/-- Go `type hcProto byte`. -/
abbrev hcProto := Nat

def hcProtoUnknown : hcProto := 0
def hcProtoTcp : hcProto := 1
def hcProtoUdp : hcProto := 2
def hcProtoSctp : hcProto := 3
def hcProtoHttp : hcProto := 4
def hcProtoGrpc : hcProto := 5

/-- Go `type lbProto uint8`. -/
abbrev lbProto := Nat

def lbProtoUnknown : lbProto := 0
def lbProtoTcp : lbProto := 1
def lbProtoUdp : lbProto := 2
def lbProtoSctp : lbProto := 3
def lbProtoHttp : lbProto := 4

/-- Go `type distMode byte`. -/
abbrev distMode := Nat

def distModeUnknown : distMode := 0
def distModeRR : distMode := 1
def distModeWeighted : distMode := 2

/-- Go `type lbEngineType uint8`. -/
abbrev lbEngineType := Nat

def lbEngineUnknown : lbEngineType := 0
def lbEngineTest : lbEngineType := 1
def lbEngineNft : lbEngineType := 2

/-! ## IP addresses -/

/-- Go `net.IP` (a byte slice): `none` is the nil slice, an absent address. -/
abbrev IP := Option (List Nat)

/-- The bytes of an address; the nil slice has none. -/
def IP.bytes (ip : IP) : List Nat := ip.getD []

/-- The 12-byte prefix of an IPv4 address in its 16-byte form. -/
def v4InV6Prefix : List Nat := [0, 0, 0, 0, 0, 0, 0, 0, 0, 0, 255, 255]

/-- Go standard library `func (ip IP) Equal(x IP) bool`: an IPv4 address and the same
address in 16-byte form are equal. -/
def IP.Equal (ip x : IP) : Bool :=
  let a := IP.bytes ip
  let b := IP.bytes x
  if a.length = b.length then decide (a = b)
  else if a.length = 4 ∧ b.length = 16 then
    decide (b.take 12 = v4InV6Prefix) && decide (a = b.drop 12)
  else if a.length = 16 ∧ b.length = 4 then
    decide (a.take 12 = v4InV6Prefix) && decide (a.drop 12 = b)
  else false

/-- The 16-byte form of an address (4-byte addresses get the IPv4-in-IPv6 prefix); two
addresses are `IP.Equal` exactly when their canonical forms coincide. -/
def IP.canon (ip : IP) : List Nat :=
  if (IP.bytes ip).length = 4 then v4InV6Prefix ++ IP.bytes ip else IP.bytes ip

/-! ## Data model (`upstream.go`, `target.go`, `lb.go`) -/

/-- Go `type upstreamDns struct` (ticker and stop channel are not data). -/
structure upstreamDns where
  addresses : List String
  confTtl : Nat
  ttl : Nat
  deriving DecidableEq, Repr

/-- Go `type healthCheck struct` (ticker and stop channel are not data). -/
structure healthCheck where
  active : Bool
  protocol : hcProto
  port : Nat
  checkInterval : Nat
  timeout : Nat
  countConfig : Nat
  count : Nat
  deriving DecidableEq, Repr

/-- Go `type upstream struct`. -/
structure upstream where
  name : String
  protocol : lbProto
  host : String
  port : Nat
  dns : upstreamDns
  address : IP
  available : Bool
  healthCheck : healthCheck
  deriving DecidableEq, Repr

/-- Go `type upstreamGroup struct` (the nftables handles are engine private). -/
structure upstreamGroup where
  name : String
  distMode : distMode
  upstreams : List upstream
  failoverMode : ugFoMode
  previousFailoverMode : ugFoMode
  deriving DecidableEq, Repr

/-- Go `type target struct`. -/
structure target where
  name : String
  protocol : lbProto
  ip : String
  port : Nat
  upstreamGroup : upstreamGroup
  nftRuleInit : Bool
  deriving DecidableEq, Repr

/-! ## nftables objects (`github.com/google/nftables`) -/

/-- Byte order of `binaryutil`; `NativeEndian` is the order of the host. -/
inductive ByteOrder where
  | littleEndian
  | bigEndian
  deriving DecidableEq, Repr

/-- Library `PutUint16`: the two bytes of a 16-bit value in the given order. -/
def ByteOrder.PutUint16 (o : ByteOrder) (v : Nat) : List Nat :=
  match o with
  | .littleEndian => [v % 256, v / 256 % 256]
  | .bigEndian => [v / 256 % 256, v % 256]

/-- Kernel constant `unix.NFT_JUMP`. -/
def NFT_JUMP : Int := -3

/-- Kernel constant `unix.NFT_NG_INCREMENTAL`. -/
def NFT_NG_INCREMENTAL : Nat := 0

/-- Library `nftables.SetElement` of a verdict map: key bytes and the verdict data. -/
structure SetElement where
  Key : List Nat
  VerdictKind : Int
  VerdictChain : String
  deriving DecidableEq, Repr

/-- The rule expressions (`expr.Any`) the failover chains and the prerouting chain use.
The set id of a lookup is a handle of the library and is not data of the model. -/
inductive Expr where
  | Reject
  | Numgen (register ngType modulus offset : Nat)
  | Lookup (sourceRegister destRegister : Nat) (setName : String) (isDestRegSet : Bool)
  | MetaL4Proto (register : Nat)
  | Cmp (register : Nat) (data : List Nat)
  | Payload (destRegister offset len : Nat)
  | Objref (objType : Nat) (name : String)
  | Verdict (kind : Int) (chain : String)
  deriving DecidableEq, Repr

/-- A masquerade rule of the `postrouting` chain as the engine reads it back: its
kernel handle and the data of its fourth expression, the compared destination address. -/
structure masqRule where
  Handle : Nat
  Data : IP
  deriving DecidableEq, Repr

/-! ## `nftables.go`: target update -/

/-- Loop of `numActiveUpstreams`; the counter is a `uint16`. -/
def numActiveUpstreamsLoop : List upstream → Nat → Nat
  | [], nActiveUpstreams => nActiveUpstreams
  | u :: us, nActiveUpstreams =>
    numActiveUpstreamsLoop us
      (if u.available then (nActiveUpstreams + 1) % 65536 else nActiveUpstreams)

/-- Go `func numActiveUpstreams(t *target) uint16`. -/
def numActiveUpstreams (t : target) : Nat :=
  numActiveUpstreamsLoop t.upstreamGroup.upstreams 0

/-- Loop of `getVmapElements`: the slice built so far and `activeCount`. -/
def getVmapElementsLoop (o : ByteOrder) :
    List upstream → List SetElement → Nat → List SetElement
  | [], vmapElements, _ => vmapElements
  | u :: us, vmapElements, activeCount =>
    if u.available then
      getVmapElementsLoop o us
        (vmapElements ++
          [{ Key := o.PutUint16 (activeCount % 65536),
             VerdictKind := NFT_JUMP,
             VerdictChain := u.name }])
        (activeCount + 1)
    else getVmapElementsLoop o us vmapElements activeCount

/-- Go `func getVmapElements(t *target) *[]nftables.SetElement`, for a host of byte
order `o` (the keys are written with `binaryutil.NativeEndian`). -/
def getVmapElements (o : ByteOrder) (t : target) : List SetElement :=
  getVmapElementsLoop o t.upstreamGroup.upstreams [] 0

/-- The failover-mode step of `updateTarget` (the `if / else if / else` on the number
of active upstreams): the upstream group with its two mode fields rewritten. -/
def failoverStep (t : target) : upstreamGroup :=
  let nActiveUpstreams := numActiveUpstreams t
  let numUpstreams := t.upstreamGroup.upstreams.length % 65536
  if nActiveUpstreams = 0 then
    { t.upstreamGroup with
      previousFailoverMode := t.upstreamGroup.failoverMode
      failoverMode := ugFoModeDown }
  else if nActiveUpstreams = numUpstreams then
    { t.upstreamGroup with
      previousFailoverMode := t.upstreamGroup.failoverMode
      failoverMode := ugFoModeInactive }
  else
    { t.upstreamGroup with
      previousFailoverMode := t.upstreamGroup.failoverMode
      failoverMode := (nextMode t.upstreamGroup.failoverMode).1 }

/-- The name `<ugName>-<getId(mode)>` of the chain and set of a failover mode. -/
def ugChainName (ug : upstreamGroup) (m : ugFoMode) : String :=
  ug.name ++ ugFoModeNftNameSuffix ++ getId m

/-- The expressions of the single rule `updateTarget` adds to the new failover chain. -/
def ugChainRuleExprs (nActiveUpstreams : Nat) (vmapElements : List SetElement)
    (setName : String) : List Expr :=
  if nActiveUpstreams = 0 then [Expr.Reject]
  else
    [Expr.Numgen 1 NFT_NG_INCREMENTAL (vmapElements.length % 4294967296) 0,
     Expr.Lookup 1 0 setName true]

/-- The expressions of the prerouting rule of a target jumping to chain `chain`. -/
def prerRuleExprs (t : target) (chain : String) : List Expr :=
  [Expr.MetaL4Proto 1,
   Expr.Cmp 1 [6],
   Expr.Payload 1 2 2,
   Expr.Cmp 1 (ByteOrder.bigEndian.PutUint16 t.port),
   Expr.Objref 1 t.name,
   Expr.Verdict NFT_JUMP chain]

/-- Outcome of the two netlink calls of one `updateTarget` that can fail. -/
structure netlink where
  newOk : Bool
  flushOk : Bool
  deriving DecidableEq, Repr

/-- The objects one `updateTarget` call queues for the kernel that are computed from
the target alone: the new failover chain and verdict map (both named `ugName`), the
elements of the map, the rule of the chain, the chain the prerouting rule of the
target jumps to, and the name of the previous mode whose chain and set are retired. -/
structure targetBatch where
  ugName : String
  vmapElements : List SetElement
  ugChainRule : List Expr
  prerRule : List Expr
  previousName : String
  deriving DecidableEq, Repr

/-- Go `func (n *nft) updateTarget(t *target) error`: the target after the call, the
batch it queued (none when no netlink connection could be made) and the error. The
listings read back from the kernel only select which upstream chains are created
and whether the previous objects are deleted; they do not enter the fields below. -/
def updateTarget (o : ByteOrder) (k : netlink) (t : target) :
    target × Option targetBatch × Option Error :=
  if k.newOk = false then
    (t, none, some [Sentinel.errNftUpdateTarget, Sentinel.errNftNetlinkConn])
  else
    let nActiveUpstreams := numActiveUpstreams t
    let ug := failoverStep t
    let t1 : target := { t with upstreamGroup := ug }
    let ugFM := ug.failoverMode
    let ugName := ugChainName ug ugFM
    let vmapElements := getVmapElements o t1
    let batch : targetBatch :=
      { ugName := ugName
        vmapElements := vmapElements
        ugChainRule := ugChainRuleExprs nActiveUpstreams vmapElements ugName
        prerRule := prerRuleExprs t1 ugName
        previousName := ugChainName ug ug.previousFailoverMode }
    let t2 : target := { t1 with nftRuleInit := true }
    if k.flushOk = false then
      (t2, some batch, some [Sentinel.errNftUpdateTarget, Sentinel.errNftFlush])
    else (t2, some batch, none)

/-! ## Sample values -/

/-- A sample upstream with a literal address, no DNS and no health check. -/
def sampleUpstream (name : String) (address : IP) (available : Bool) : upstream :=
  { name := name
    protocol := lbProtoTcp
    host := name
    port := 8080
    dns := { addresses := [], confTtl := 0, ttl := 0 }
    address := address
    available := available
    healthCheck :=
      { active := false, protocol := hcProtoUnknown, port := 0, checkInterval := 0,
        timeout := 0, countConfig := 0, count := 0 } }

/-- A sample target on tcp/8080 over the given upstreams, in the given failover mode. -/
def sampleTarget (upstreams : List upstream) (mode : ugFoMode) : target :=
  { name := "t"
    protocol := lbProtoTcp
    ip := ""
    port := 8080
    upstreamGroup :=
      { name := "ug"
        distMode := distModeRR
        upstreams := upstreams
        failoverMode := mode
        previousFailoverMode := ugFoModeUnknown }
    nftRuleInit := false }

/-- The address 10.0.0.1 in 4-byte form. -/
def ip1 : IP := some [10, 0, 0, 1]

/-- The address 10.0.0.2 in 4-byte form. -/
def ip2 : IP := some [10, 0, 0, 2]

/-- The address 10.0.0.3 in 4-byte form. -/
def ip3 : IP := some [10, 0, 0, 3]

/-- A group of two upstreams of which only the second is available. -/
def sampleHalfUp : List upstream :=
  [sampleUpstream "a" ip1 false, sampleUpstream "b" ip2 true]

/-- The verdict map element `getVmapElements` builds for the upstream it meets when
`activeCount` upstreams were found available before it. -/
def vmapElement (o : ByteOrder) (activeCount : Nat) (u : upstream) : SetElement :=
  { Key := o.PutUint16 (activeCount % 65536)
    VerdictKind := NFT_JUMP
    VerdictChain := u.name }

/-- The available upstreams of a target, in group order. -/
def availableUpstreams (t : target) : List upstream :=
  t.upstreamGroup.upstreams.filter (fun u => u.available)

/-! ## Configuration tree (`config_types.go`) -/

/-- Go `type ProbeConfig struct`. -/
structure ProbeConfig where
  CheckInterval : Nat
  Timeout : Nat
  Count : Nat
  deriving DecidableEq, Repr

/-- Go `type HealthCheckConfig struct`. -/
structure HealthCheckConfig where
  Protocol : String
  Port : Nat
  StartAvailable : Bool
  Probe : ProbeConfig
  deriving DecidableEq, Repr

/-- Go `type UpstreamDnsConfig struct`. -/
structure UpstreamDnsConfig where
  Servers : List String
  Ttl : Nat
  deriving DecidableEq, Repr

/-- Go `type UpstreamsConfig struct`. -/
structure UpstreamsConfig where
  Name : String
  Host : String
  Port : Nat
  Dns : UpstreamDnsConfig
  HealthCheck : HealthCheckConfig
  deriving DecidableEq, Repr

/-- Go `type UpstreamGroupConfig struct`. -/
structure UpstreamGroupConfig where
  Name : String
  Distribution : String
  Upstreams : List UpstreamsConfig
  deriving DecidableEq, Repr

/-- Go `type TargetsConfig struct`. -/
structure TargetsConfig where
  Name : String
  Protocol : String
  Ip : String
  Port : Nat
  UpstreamGroup : UpstreamGroupConfig
  deriving DecidableEq, Repr

/-- Go `type LbConfig struct`. -/
structure LbConfig where
  Engine : String
  TargetsConfig : List TargetsConfig
  deriving DecidableEq, Repr

/-- Go `type ConfigYaml struct`. -/
structure ConfigYaml where
  LbConfig : List LbConfig
  deriving DecidableEq, Repr

/-- The zero value `HealthCheckConfig{}`: an omitted or emptied health check block. -/
def HealthCheckConfig.zero : HealthCheckConfig :=
  { Protocol := "", Port := 0, StartAvailable := false,
    Probe := { CheckInterval := 0, Timeout := 0, Count := 0 } }

/-! ## String codecs (`lb.go`, `upstream.go`) -/

/-- Go `func getHcProto(hcp string) (hcProto, error)`. -/
def getHcProto (hcp : String) : hcProto × Option Error :=
  if hcp = "tcp" then (hcProtoTcp, none)
  else if hcp = "udp" then (hcProtoUdp, none)
  else if hcp = "sctp" then (hcProtoSctp, none)
  else if hcp = "http" then (hcProtoHttp, none)
  else if hcp = "grpc" then (hcProtoGrpc, none)
  else (hcProtoUnknown, some [Sentinel.errHcp])

/-- Go `func getDistMode(dm string) (distMode, error)`. -/
def getDistMode (dm : String) : distMode × Option Error :=
  if dm = "round-robin" then (distModeRR, none)
  else if dm = "weighted" then (distModeWeighted, none)
  else (distModeUnknown, some [Sentinel.errDistMode])

/-- Go `func getLbEngineType(lbet string) (lbEngineType, error)`. -/
def getLbEngineType (lbet : String) : lbEngineType × Option Error :=
  if lbet = "testEngine" then (lbEngineTest, none)
  else if lbet = "nftables" then (lbEngineNft, none)
  else (lbEngineUnknown, some [Sentinel.errLbEngineType])

/-- Go `func (lbet lbEngineType) String() string`. -/
def lbEngineType.String (lbet : lbEngineType) : String :=
  match lbet with
  | 1 => "testEngine"
  | 2 => "nftables"
  | _ => "unknown"

/-- Go `func getLbProtocol(lbp string) (lbProto, error)`. -/
def getLbProtocol (lbp : String) : lbProto × Option Error :=
  if lbp = "tcp" then (lbProtoTcp, none)
  else if lbp = "udp" then (lbProtoUdp, none)
  else if lbp = "sctp" then (lbProtoSctp, none)
  else if lbp = "http" then (lbProtoHttp, none)
  else (lbProtoUnknown, some [Sentinel.errLbProto])

/-- Go `func (lbp lbProto) String() string`. -/
def lbProto.String (lbp : lbProto) : String :=
  match lbp with
  | 1 => "tcp"
  | 2 => "udp"
  | 3 => "sctp"
  | _ => "unknown"

/-- Go `func (hcp hcProto) String() string`. -/
def hcProto.String (hcp : hcProto) : String :=
  match hcp with
  | 1 => "tcp"
  | 2 => "udp"
  | 3 => "sctp"
  | 4 => "http"
  | 5 => "grpc"
  | _ => "unknown"

/-- Go `func (dm distMode) String() string`. -/
def distMode.String (dm : distMode) : String :=
  match dm with
  | 1 => "round-robin"
  | 2 => "weighted"
  | _ => "unknown"

/-! ## Host classification (`common.go`) -/

/-- Go `type hostType byte`. -/
abbrev hostType := Nat

def hostTypeUnknown : hostType := 0
def hostTypeIPv4 : hostType := 1
def hostTypeIPv6 : hostType := 2
def hostTypeFqdn : hostType := 3

/-- Go standard library `func (ip IP) To4() IP`. -/
def IP.To4 (ip : IP) : IP :=
  let b := IP.bytes ip
  if b.length = 4 then ip
  else if b.length = 16 ∧ b.take 12 = v4InV6Prefix then some (b.drop 12)
  else none

/-- Go standard library `func (ip IP) To16() IP`. -/
def IP.To16 (ip : IP) : IP :=
  let b := IP.bytes ip
  if b.length = 4 then some (v4InV6Prefix ++ b)
  else if b.length = 16 then ip
  else none

/-- The collaborators outside the repository that the orchestrator calls: the literal
parser `net.ParseIP`, the match of the RFC 1123 pattern `fqdnRegexRFC1123`, the
resolver behind `resolveFqdn` (address, TTL, error) and the setting `defaultDnsTtl`. -/
structure Externals where
  ParseIP : String → IP
  fqdnMatch : String → Bool
  resolver : String → List String → IP × Nat × Option Error
  defaultDnsTtl : Nat

/-- Go `func isFqdn(s string) bool`. -/
def isFqdn (x : Externals) (s : String) : Bool := x.fqdnMatch s

/-- Go `func getHostType(host string) (hostType, error)`. -/
def getHostType (x : Externals) (host : String) : hostType × Option Error :=
  let ip := x.ParseIP host
  if ip ≠ none ∧ IP.To4 ip ≠ none then (hostTypeIPv4, none)
  else if ip ≠ none ∧ IP.To16 ip ≠ none then (hostTypeIPv6, none)
  else if isFqdn x host then (hostTypeFqdn, none)
  else (hostTypeUnknown, some [Sentinel.errHostType])

/-- Go `func resolveFqdn(f string, dnsa []string, r resolver)` with the default
resolver. -/
def resolveFqdn (x : Externals) (f : String) (dnsa : List String) : IP × Nat × Option Error :=
  x.resolver f dnsa

/-! ## IP list helpers (`common.go`) -/

/-- Loop of `findUniqueNetIp`: the input still to read and `unipl`. -/
def findUniqueNetIpLoop : List IP → List IP → List IP
  | [], unipl => unipl
  | nip :: rest, unipl =>
    if unipl.any (fun uip => IP.Equal uip nip) then findUniqueNetIpLoop rest unipl
    else findUniqueNetIpLoop rest (unipl ++ [nip])

/-- Go `func findUniqueNetIp(nipl *[]net.IP) []net.IP`. -/
def findUniqueNetIp (nipl : List IP) : List IP :=
  findUniqueNetIpLoop nipl []

/-- Loop of `findDuplicateNetIp`: the input still to read, `dnipl` and the map
`occurrenceCount`, keyed by the text `str` of the address (`net.IP.String`). -/
def findDuplicateNetIpLoop (str : IP → String) :
    List IP → List IP → (String → Nat) → List IP
  | [], dnipl, _ => dnipl
  | nip :: rest, dnipl, occurrenceCount =>
    let occurrenceCount1 : String → Nat :=
      fun key => if key = str nip then occurrenceCount key + 1 else occurrenceCount key
    if occurrenceCount1 (str nip) = 2 then
      findDuplicateNetIpLoop str rest (dnipl ++ [nip]) occurrenceCount1
    else findDuplicateNetIpLoop str rest dnipl occurrenceCount1

/-- Go `func findDuplicateNetIp(nipl *[]net.IP) []net.IP`; `str` is the standard
library `net.IP.String`. -/
def findDuplicateNetIp (str : IP → String) (nipl : List IP) : List IP :=
  findDuplicateNetIpLoop str nipl [] (fun _ => 0)

/-! ## The load balancer instance (`lb.go`) -/

/-- Go `type lb struct`: targets, engine type, the upstream-IP ledger `upstreamIps`
and the terminate flag `state.t` (mutex and wait group are not data). -/
structure lb where
  targets : List target
  et : lbEngineType
  upstreamIps : List IP
  terminate : Bool
  deriving DecidableEq, Repr

/-- The instance `lbInit` creates before `getConfig`: no target, empty ledger. -/
def lb.fresh : lb :=
  { targets := [], et := lbEngineUnknown, upstreamIps := [], terminate := false }

/-- Go `func (l *lb) addUpstreamIps(nip net.IP)`. -/
def lb.addUpstreamIps (l : lb) (nip : IP) : lb :=
  if nip = none then l else { l with upstreamIps := l.upstreamIps ++ [nip] }

/-- Loop of `replaceUpstreamIps`: the ledger with the first entry equal to `oip`
replaced by `nip`, or nothing when no entry is equal. -/
def replaceUpstreamIpsLoop (oip nip : IP) : List IP → Option (List IP)
  | [] => none
  | ip :: rest =>
    if IP.Equal ip oip then some (nip :: rest)
    else (replaceUpstreamIpsLoop oip nip rest).map (fun r => ip :: r)

/-- Go `func (l *lb) replaceUpstreamIps(oip *net.IP, nip *net.IP) error`. -/
def lb.replaceUpstreamIps (l : lb) (oip nip : IP) : lb × Option Error :=
  match replaceUpstreamIpsLoop oip nip l.upstreamIps with
  | some uip => ({ l with upstreamIps := uip }, none)
  | none => (l, some [Sentinel.errReplUpstreamIp])

/-- The upstream a pointer `u` designates: upstream `ui` of the group of target `ti`. -/
def lb.getUpstream (l : lb) (ti ui : Nat) : Option upstream :=
  (l.targets[ti]?).bind (fun t => t.upstreamGroup.upstreams[ui]?)

/-- A write through the pointer: upstream `ui` of target `ti` becomes `u`. -/
def lb.setUpstream (l : lb) (ti ui : Nat) (u : upstream) : lb :=
  match l.targets[ti]? with
  | none => l
  | some t =>
    { l with
      targets := l.targets.set ti
        { t with
          upstreamGroup :=
            { t.upstreamGroup with upstreams := t.upstreamGroup.upstreams.set ui u } } }

/-- Go `func (l *lb) updateUpstream(u *upstream, nua *net.IP) error` for the upstream
`ui` of target `ti`; `engine` is the call `l.e.updateUpstream`. A position that
designates no upstream of the instance leaves the instance as it is. -/
def lb.updateUpstream (l : lb) (ti ui : Nat) (nua : IP)
    (engine : upstream → List IP → Option Error) : lb × Option Error :=
  match l.getUpstream ti ui with
  | none => (l, none)
  | some u =>
    let oua := u.address
    let u1 : upstream := { u with address := nua }
    let l1 := l.setUpstream ti ui u1
    let l2 :=
      if oua ≠ none then
        match l1.replaceUpstreamIps oua nua with
        | (l', none) => l'
        | (l', some _) => l'.addUpstreamIps nua
      else l1.addUpstreamIps nua
    let unipl := findUniqueNetIp l2.upstreamIps
    match engine u1 unipl with
    | some err => (l2, some (Sentinel.errLbEngineUpstreamUpdate :: err))
    | none => (l2, none)

/-- Go `strings.HasSuffix`. -/
def HasSuffix (s suffix : String) : Bool := suffix.data.isSuffixOf s.data

/-- The body of the upstream loop of `getConfig`: the upstream built from its
configuration entry (its address is what the loop adds to the ledger). -/
def getConfigUpstream (x : Externals) (lbp : lbProto) (u : UpstreamsConfig) : upstream :=
  let hcActive : Bool := decide (u.HealthCheck ≠ HealthCheckConfig.zero)
  let uStartAvailable : Bool := if hcActive then u.HealthCheck.StartAvailable else true
  let hcp : hcProto := if hcActive then (getHcProto u.HealthCheck.Protocol).1 else hcProtoUnknown
  let ht := (getHostType x u.Host).1
  let host : String :=
    if ht = hostTypeFqdn ∧ HasSuffix u.Host "." = false then u.Host ++ "." else u.Host
  let r := resolveFqdn x host u.Dns.Servers
  let ipa : IP :=
    if ht = hostTypeFqdn then (if r.2.2 ≠ none then none else r.1)
    else if ht = hostTypeIPv4 ∨ ht = hostTypeIPv6 then x.ParseIP u.Host
    else none
  let lttl : Nat :=
    if ht = hostTypeFqdn then
      (if r.2.2 ≠ none then (if u.Dns.Ttl ≠ 0 then u.Dns.Ttl else x.defaultDnsTtl) else r.2.1)
    else 0
  let available : Bool :=
    if ht = hostTypeFqdn then (if r.2.2 ≠ none then false else uStartAvailable)
    else if ht = hostTypeIPv4 ∨ ht = hostTypeIPv6 then uStartAvailable
    else false
  { name := u.Name
    protocol := lbp
    host := host
    port := u.Port
    dns := { addresses := u.Dns.Servers, confTtl := u.Dns.Ttl, ttl := lttl }
    address := ipa
    available := available
    healthCheck :=
      { active := hcActive
        protocol := hcp
        port := u.HealthCheck.Port
        checkInterval := u.HealthCheck.Probe.CheckInterval
        timeout := u.HealthCheck.Probe.Timeout
        countConfig := u.HealthCheck.Probe.Count
        count := 0 } }

/-- The upstream loop of `getConfig`: each upstream is built, its address is added
to the ledger and it is appended to the group. -/
def getConfigUpstreams (x : Externals) (lbp : lbProto) :
    List UpstreamsConfig → lb → List upstream → lb × List upstream
  | [], l, upstreams => (l, upstreams)
  | u :: us, l, upstreams =>
    let newUpstream := getConfigUpstream x lbp u
    getConfigUpstreams x lbp us (l.addUpstreamIps newUpstream.address)
      (upstreams ++ [newUpstream])

/-- The target loop of `getConfig`. -/
def getConfigTargets (x : Externals) : List TargetsConfig → lb → lb × Option Error
  | [], l => (l, none)
  | t :: ts, l =>
    match getDistMode t.UpstreamGroup.Distribution with
    | (_, some err) => (l, some (Sentinel.errLbConf :: err))
    | (dMode, none) =>
      let lbp := (getLbProtocol t.Protocol).1
      let r := getConfigUpstreams x lbp t.UpstreamGroup.Upstreams l []
      let ug : upstreamGroup :=
        { name := t.UpstreamGroup.Name
          distMode := dMode
          upstreams := r.2
          failoverMode := ugFoModeInactive
          previousFailoverMode := ugFoModeUnknown }
      let newTarget : target :=
        { name := t.Name
          protocol := lbp
          ip := t.Ip
          port := t.Port
          upstreamGroup := ug
          nftRuleInit := false }
      getConfigTargets x ts { r.1 with targets := r.1.targets ++ [newTarget] }

/-- Go `func (l *lb) getConfig(lbc *LbConfig) error`. -/
def lb.getConfig (x : Externals) (l : lb) (lbc : LbConfig) : lb × Option Error :=
  match getLbEngineType lbc.Engine with
  | (_, some err) => (l, some (Sentinel.errLbConf :: err))
  | (et, none) => getConfigTargets x lbc.TargetsConfig { l with et := et }

/-! ## The upstream-IP ledger as a reference count -/

/-- All upstreams of an instance, target by target in group order. -/
def lb.allUpstreams (l : lb) : List upstream :=
  l.targets.flatMap (fun t => t.upstreamGroup.upstreams)

/-- The addresses of the upstreams of an instance that are not absent. -/
def lb.addresses (l : lb) : List IP :=
  (l.allUpstreams.map (fun u => u.address)).filter (fun a => decide (a ≠ none))

/-- The ledger invariant: as multisets of addresses (an address in 4-byte and in
16-byte form being the same address, as for `net.IP.Equal`), the ledger and the
non-absent upstream addresses coincide. -/
def lb.ledgerInvariant (l : lb) : Prop :=
  (l.upstreamIps.map IP.canon).Perm (l.addresses.map IP.canon)

instance (l : lb) : Decidable l.ledgerInvariant := by
  unfold lb.ledgerInvariant
  infer_instance

/-- The non-absent addresses of a list of upstreams. -/
def upstreamAddresses (us : List upstream) : List IP :=
  (us.map (fun u => u.address)).filter (fun a => decide (a ≠ none))

/-- A sample instance: one target over upstream a at 10.0.0.1 and upstream b whose
address is absent; the ledger holds 10.0.0.1. -/
def sampleLb : lb :=
  { targets :=
      [sampleTarget [sampleUpstream "a" ip1 true, sampleUpstream "b" none false]
        ugFoModeInactive]
    et := lbEngineTest
    upstreamIps := [ip1]
    terminate := false }

/-! ## `nftables.go`: masquerade clean up -/

/-- First loop of `cleanMasquerade`: the rules passed to `DelRule` because their
address equals no address of `lip`, in chain order. -/
def delUnnecessaryLoop (lip : List IP) : List masqRule → List masqRule
  | [] => []
  | rule :: rest =>
    if lip.any (fun ip => IP.Equal rule.Data ip) then delUnnecessaryLoop lip rest
    else rule :: delUnnecessaryLoop lip rest

/-- Second loop of `cleanMasquerade`: for each address of `dnipl`, every rule of the
chain with an equal address is passed to `DelRule`. -/
def delDuplicateLoop (pr : List masqRule) : List IP → List masqRule
  | [] => []
  | dip :: rest =>
    pr.filter (fun rule => IP.Equal dip rule.Data) ++ delDuplicateLoop pr rest

/-- The closure `cleanMasqueradeFunc`: all rules it passes to `DelRule`; `pr` is the
content of the `postrouting` chain as read with `GetRules`. -/
def cleanMasqueradeFunc (str : IP → String) (pr : List masqRule) (lip : List IP) :
    List masqRule :=
  delUnnecessaryLoop lip pr ++ delDuplicateLoop pr (findDuplicateNetIp str lip)

/-- Kernel effect of a flushed batch of `DelRule` calls: the rules whose handle was
passed are gone from the chain. -/
def applyDelRules (pr dels : List masqRule) : List masqRule :=
  pr.filter (fun rule => !(dels.any (fun d => decide (d.Handle = rule.Handle))))

/-- Go `func (n *nft) cleanMasquerade(lip *[]net.IP) error` through `pushNft`: the
`postrouting` chain after the call and the error. Without a netlink connection or when
the flush fails nothing is applied. -/
def cleanMasquerade (str : IP → String) (k : netlink) (pr : List masqRule) (lip : List IP) :
    List masqRule × Option Error :=
  if k.newOk = false then
    (pr, some [Sentinel.errNftCleanMasquerade, Sentinel.errNftNetlinkConn, Sentinel.external])
  else if k.flushOk = false then
    (pr, some [Sentinel.errNftCleanMasquerade, Sentinel.errNftFlush, Sentinel.external])
  else (applyDelRules pr (cleanMasqueradeFunc str pr lip), none)

/-! ## `lb.go`: the health check tick -/

/-- What a health check tick does outside the upstream: a `net.DialTimeout` with its
network, address and timeout, and a call of `engine.updateTarget`. -/
inductive hcEvent where
  | dial (network address : String) (timeout : Nat)
  | updateTarget
  deriving DecidableEq, Repr

/-- The ticker case of the task of `initHealthCheck`: the upstream after the tick and
what the tick did. `terminate` is the flag `l.state.t`, `str` is `net.IP.String` and
`dial` tells whether `net.DialTimeout` succeeds. The counter is a `uint8`. -/
def healthCheckTick (str : IP → String) (dial : String → String → Nat → Bool)
    (terminate : Bool) (u : upstream) : upstream × List hcEvent :=
  if terminate then (u, [])
  else
    let addr : String :=
      if u.address ≠ none then str u.address ++ ":" ++ toString u.healthCheck.port else ""
    let network := hcProto.String u.healthCheck.protocol
    let probe := hcEvent.dial network addr u.healthCheck.timeout
    if dial network addr u.healthCheck.timeout = false then
      let u1 : upstream := { u with healthCheck := { u.healthCheck with count := 0 } }
      if u1.available then ({ u1 with available := false }, [probe, hcEvent.updateTarget])
      else (u1, [probe])
    else if u.available = false then
      let u1 : upstream :=
        { u with healthCheck := { u.healthCheck with count := (u.healthCheck.count + 1) % 256 } }
      if u1.healthCheck.count ≥ u1.healthCheck.countConfig then
        ({ u1 with available := true }, [probe, hcEvent.updateTarget])
      else (u1, [probe])
    else (u, [probe])

/-- Consecutive ticks of one health check task with the given probe outcomes. -/
def healthCheckRun (str : IP → String) : List Bool → upstream → upstream × List hcEvent
  | [], u => (u, [])
  | ok :: rest, u =>
    let r := healthCheckTick str (fun _ _ _ => ok) false u
    let r2 := healthCheckRun str rest r.1
    (r2.1, r.2 ++ r2.2)

/-- Number of `engine.updateTarget` calls among the events. -/
def updateTargetCalls (events : List hcEvent) : Nat :=
  events.count hcEvent.updateTarget

/-- A sample upstream under health check: tcp probe of port 80, three successes
required. -/
def sampleChecked (address : IP) (available : Bool) (count : Nat) : upstream :=
  { name := "a"
    protocol := lbProtoTcp
    host := "a.example.org."
    port := 8080
    dns := { addresses := [], confTtl := 0, ttl := 25 }
    address := address
    available := available
    healthCheck :=
      { active := true, protocol := hcProtoTcp, port := 80, checkInterval := 1,
        timeout := 2, countConfig := 3, count := count } }

/-! ## `nftables.go`: start and reconfiguration of the engine -/

/-- Go `type nft struct`: the name of the table once it was added and the priorities
of the two hooked chains (`nftables.ChainPriority` is an `int32`). -/
structure nft where
  table : Option String
  postrChainPrio : Int
  prerChainPrio : Int
  deriving DecidableEq, Repr

/-- The library constants behind `defaultPostrChainPrio` (`*nftables.ChainPriorityFilter`)
and `defaultPrerChainPrio` (`*nftables.ChainPriorityNATDest`). -/
structure chainDefaults where
  defaultPostrChainPrio : Int
  defaultPrerChainPrio : Int
  deriving DecidableEq, Repr

/-- Go `++` on an `int32`. -/
def incrInt32 (p : Int) : Int := (p + 1 + 2147483648) % 4294967296 - 2147483648

/-- The priority toggle of `startOrReconfig` when `refresh` is set: a priority equal
to the default is incremented, any other is reset to the default. -/
def togglePrio (default p : Int) : Int :=
  if p = default then incrInt32 p else default

/-- What one `startOrReconfig` sees of the kernel: the stamped table name and the
outcome of the netlink calls of `addLbTable`, of the push of the two hooked chains
and of the `updateTarget` of each target (by position). -/
structure startKernel where
  tableName : String
  addLbTable : netlink
  chains : netlink
  targets : Nat → netlink

/-- The target loop of `startOrReconfig`: `updateTarget` on each target in order,
stopping at the first error. -/
def startTargetsLoop (o : ByteOrder) (k : Nat → netlink) :
    List target → Nat → List target × Option Error
  | [], _ => ([], none)
  | t :: ts, i =>
    match updateTarget o (k i) t with
    | (t1, _, some err) => (t1 :: ts, some (Sentinel.errNftInit :: err))
    | (t1, _, none) =>
      let r := startTargetsLoop o k ts (i + 1)
      (t1 :: r.1, r.2)

/-- Go `func (n *nft) startOrReconfig(l *lb, refresh bool) error`: the engine and the
instance after the call and the error. `prepareNftables` never reports an error. -/
def startOrReconfig (d : chainDefaults) (o : ByteOrder) (k : startKernel)
    (n : nft) (l : lb) (refresh : Bool) : nft × lb × Option Error :=
  let n1 : nft :=
    if refresh = false then
      { n with postrChainPrio := d.defaultPostrChainPrio
               prerChainPrio := d.defaultPrerChainPrio }
    else n
  if k.addLbTable.newOk = false then
    (n1, l, some [Sentinel.errNftInit, Sentinel.errNftAddLbTable, Sentinel.errNftNetlinkConn,
      Sentinel.external])
  else
    let n2 : nft := { n1 with table := some k.tableName }
    if k.addLbTable.flushOk = false then
      (n2, l, some [Sentinel.errNftInit, Sentinel.errNftAddLbTable, Sentinel.errNftFlush,
        Sentinel.external])
    else
      let n3 : nft :=
        if refresh then
          { n2 with postrChainPrio := togglePrio d.defaultPostrChainPrio n2.postrChainPrio
                    prerChainPrio := togglePrio d.defaultPrerChainPrio n2.prerChainPrio }
        else n2
      if k.chains.newOk = false then
        (n3, l, some [Sentinel.errNftInit, Sentinel.errNftNetlinkConn, Sentinel.external])
      else if k.chains.flushOk = false then
        (n3, l, some [Sentinel.errNftInit, Sentinel.errNftFlush, Sentinel.external])
      else
        let r := startTargetsLoop o k.targets l.targets 0
        (n3, { l with targets := r.1 }, r.2)

/-- Go `func (n *nft) stop() error`; `k` is the outcome of its netlink calls. -/
def nft.stop (k : netlink) : Option Error :=
  if k.newOk = false then
    some [Sentinel.errNftStop, Sentinel.errNftNetlinkConn, Sentinel.external]
  else if k.flushOk = false then some [Sentinel.errNftStop, Sentinel.errNftFlush, Sentinel.external]
  else none

/-- Go `func (n *nft) reconfig(nl *lb) error` on the old engine `n`: the new engine
and the new instance after the call and the error. `nn` is the engine of the new
instance when it is an nft engine (the type assertion fails on `none`), `k` is the
kernel as seen by its `startOrReconfig` and `kstop` by the `stop` of the old engine. -/
def nft.reconfig (d : chainDefaults) (o : ByteOrder) (k : startKernel) (kstop : netlink)
    (n : nft) (nn : Option nft) (nl : lb) : Option nft × lb × Option Error :=
  match nn with
  | none => (none, nl, some [Sentinel.errNftReconfig, Sentinel.errNftAssert])
  | some nn0 =>
    let nn1 : nft :=
      { nn0 with postrChainPrio := n.postrChainPrio, prerChainPrio := n.prerChainPrio }
    match startOrReconfig d o k nn1 nl true with
    | (nn2, nl2, some err) => (some nn2, nl2, some (Sentinel.errNftReconfig :: err))
    | (nn2, nl2, none) =>
      match nft.stop kstop with
      | some err => (some nn2, nl2, some (Sentinel.errNftReconfig :: err))
      | none => (some nn2, nl2, none)

/-- The engine `newLbEngine` returns for the nft type: `&nft{}`. -/
def nft.zero : nft := { table := none, postrChainPrio := 0, prerChainPrio := 0 }

/-- A kernel on which every netlink call succeeds. -/
def sampleKernel : startKernel :=
  { tableName := "Lobby-03040502012006"
    addLbTable := ⟨true, true⟩
    chains := ⟨true, true⟩
    targets := fun _ => ⟨true, true⟩ }

/-! ## `lb.go`: configuration check -/

/-- Go `map[lbProto]map[distMode]bool`, the capabilities of an engine, as its entries. -/
abbrev capabilities := List (lbProto × List (distMode × Bool))

/-- The capabilities of the nft engine (`nftSuppCapabilities`). -/
def nftSuppCapabilities : capabilities := [(lbProtoTcp, [(distModeRR, true)])]

/-- The capabilities of the test engine (`tlbSuppCapabilities`). -/
def tlbSuppCapabilities : capabilities := [(lbProtoTcp, [(distModeRR, true)])]

/-- The capabilities `newLbEngine(lbE)` then `getCapabilities()` yields; `checkConfig`
reaches this call only with one of the two engine types. -/
def getCapabilities (lbE : lbEngineType) : capabilities :=
  match lbE with
  | 1 => tlbSuppCapabilities
  | 2 => nftSuppCapabilities
  | _ => []

/-- Currently supported health check protocols (`supHcProto`). -/
def supHcProto : List (hcProto × Bool) := [(hcProtoTcp, true)]

/-- Go `portMap[port] = append(portMap[port], proto)` on a `map[uint16][]string`. -/
def portMapAppend (portMap : Nat → Option (List String)) (port : Nat) (proto : String) :
    Nat → Option (List String) :=
  fun p => if p = port then some ((portMap port).getD [] ++ [proto]) else portMap p

/-- The name lists and the port map `checkConfig` carries along (`portMap` is made
anew for each engine entry). -/
structure checkState where
  eNames : List String
  tNames : List String
  uNames : List String
  ugNames : List String
  portMap : Nat → Option (List String)

/-- The health check part of the upstream check of `checkConfig`. -/
def checkHealthCheck (u : UpstreamsConfig) : Option Error :=
  if u.HealthCheck ≠ HealthCheckConfig.zero then
    if (supHcProto.lookup (getHcProto u.HealthCheck.Protocol).1).isNone then
      some [Sentinel.errLbCheckConf, Sentinel.errConfHcProtocol]
    else if u.HealthCheck.Port = 0 then
      some [Sentinel.errLbCheckConf, Sentinel.errConfProbePort]
    else if u.HealthCheck.Probe.CheckInterval = 0 then
      some [Sentinel.errLbCheckConf, Sentinel.errConfProbeCI]
    else if u.HealthCheck.Probe.Count = 0 then
      some [Sentinel.errLbCheckConf, Sentinel.errConfProbeSC]
    else if u.HealthCheck.Probe.Timeout = 0 then
      some [Sentinel.errLbCheckConf, Sentinel.errConfProbeTimeout]
    else none
  else none

/-- The DNS address loop of the upstream check of `checkConfig`. -/
def checkDnsServers (x : Externals) : List String → Option Error
  | [] => none
  | a :: rest =>
    if x.ParseIP a = none then some [Sentinel.errLbCheckConf, Sentinel.errConfDnsAddr]
    else checkDnsServers x rest

/-- The body of the upstream loop of `checkConfig`. -/
def checkUpstream (x : Externals) (u : UpstreamsConfig) (st : checkState) :
    Except Error checkState :=
  if st.uNames.length ≠ 0 ∧ st.uNames.any (fun un => decide (un = u.Name)) then
    Except.error [Sentinel.errLbCheckConf, Sentinel.errConfRepUName]
  else
    let st1 : checkState := { st with uNames := st.uNames ++ [u.Name] }
    if (getHostType x u.Host).1 = hostTypeUnknown then
      Except.error [Sentinel.errLbCheckConf, Sentinel.errConfUHost]
    else
      match checkHealthCheck u with
      | some err => Except.error err
      | none =>
        match checkDnsServers x u.Dns.Servers with
        | some err => Except.error err
        | none => Except.ok st1

/-- The upstream loop of `checkConfig`. -/
def checkUpstreams (x : Externals) : List UpstreamsConfig → checkState → Except Error checkState
  | [], st => Except.ok st
  | u :: us, st =>
    match checkUpstream x u st with
    | Except.error err => Except.error err
    | Except.ok st1 => checkUpstreams x us st1

/-- The uniqueness part of the target loop of `checkConfig` for the target at
position `i` of its engine entry. -/
def checkTargetNames (i : Nat) (t : TargetsConfig) (st : checkState) :
    Except Error checkState :=
  if i = 0 then
    Except.ok
      { st with
        tNames := st.tNames ++ [t.Name]
        portMap := portMapAppend st.portMap t.Port t.Protocol
        ugNames := st.ugNames ++ [t.UpstreamGroup.Name] }
  else if st.tNames.any (fun tn => decide (tn = t.Name)) then
    Except.error [Sentinel.errLbCheckConf, Sentinel.errConfRepTargetName]
  else
    let st1 : checkState := { st with tNames := st.tNames ++ [t.Name] }
    match st1.portMap t.Port with
    | some protos =>
      if protos.any (fun proto => decide (proto = t.Protocol)) then
        Except.error [Sentinel.errLbCheckConf, Sentinel.errConfRepPortProto]
      else if st1.ugNames.any (fun ugn => decide (ugn = t.UpstreamGroup.Name)) then
        Except.error [Sentinel.errLbCheckConf, Sentinel.errConfRepUGName]
      else Except.ok { st1 with ugNames := st1.ugNames ++ [t.UpstreamGroup.Name] }
    | none =>
      let st2 : checkState :=
        { st1 with portMap := portMapAppend st1.portMap t.Port t.Protocol }
      if st2.ugNames.any (fun ugn => decide (ugn = t.UpstreamGroup.Name)) then
        Except.error [Sentinel.errLbCheckConf, Sentinel.errConfRepUGName]
      else Except.ok { st2 with ugNames := st2.ugNames ++ [t.UpstreamGroup.Name] }

/-- The body of the target loop of `checkConfig`; `ec` is the capability map of the
engine of the entry. -/
def checkTarget (x : Externals) (ec : capabilities) (i : Nat) (t : TargetsConfig)
    (st : checkState) : Except Error checkState :=
  match checkTargetNames i t st with
  | Except.error err => Except.error err
  | Except.ok st1 =>
    match getLbProtocol t.Protocol with
    | (_, some err) => Except.error (Sentinel.errLbCheckConf :: err)
    | (tP, none) =>
      match ec.lookup tP with
      | none => Except.error [Sentinel.errLbCheckConf, Sentinel.errConfTargetProto]
      | some modes =>
        if (modes.lookup (getDistMode t.UpstreamGroup.Distribution).1).isNone then
          Except.error [Sentinel.errLbCheckConf, Sentinel.errConfDistMode]
        else checkUpstreams x t.UpstreamGroup.Upstreams st1

/-- The target loop of `checkConfig`. -/
def checkTargets (x : Externals) (ec : capabilities) :
    List TargetsConfig → Nat → checkState → Except Error checkState
  | [], _, st => Except.ok st
  | t :: ts, i, st =>
    match checkTarget x ec i t st with
    | Except.error err => Except.error err
    | Except.ok st1 => checkTargets x ec ts (i + 1) st1

/-- The body of the engine loop of `checkConfig` for the entry at position `i`. -/
def checkEngine (x : Externals) (i : Nat) (lbc : LbConfig) (st : checkState) :
    Except Error checkState :=
  match getLbEngineType lbc.Engine with
  | (_, some err) => Except.error (Sentinel.errLbCheckConf :: err)
  | (lbE, none) =>
    let lben := lbEngineType.String lbE
    if i ≠ 0 ∧ st.eNames.any (fun en => decide (en = lben)) then
      Except.error [Sentinel.errLbCheckConf, Sentinel.errConfRepEngine]
    else
      let st1 : checkState :=
        if i = 0 then { st with eNames := st.eNames ++ [lben] } else st
      checkTargets x (getCapabilities lbE) lbc.TargetsConfig 0
        { st1 with portMap := fun _ => none }

/-- The engine loop of `checkConfig`. -/
def checkEngines (x : Externals) : List LbConfig → Nat → checkState → Option Error
  | [], _, _ => none
  | lbc :: rest, i, st =>
    match checkEngine x i lbc st with
    | Except.error err => some err
    | Except.ok st1 => checkEngines x rest (i + 1) st1

/-- Go `func checkConfig(configYaml *ConfigYaml) error`. -/
def checkConfig (x : Externals) (configYaml : ConfigYaml) : Option Error :=
  checkEngines x configYaml.LbConfig 0
    { eNames := [], tNames := [], uNames := [], ugNames := [], portMap := fun _ => none }

/-- Sample collaborators: `ParseIP` knows the literals 10.0.0.1 to 10.0.0.3, no name
matches the FQDN pattern and no name resolves. -/
def sampleExternals : Externals :=
  { ParseIP := fun s =>
      if s = "10.0.0.1" then some (v4InV6Prefix ++ [10, 0, 0, 1])
      else if s = "10.0.0.2" then some (v4InV6Prefix ++ [10, 0, 0, 2])
      else if s = "10.0.0.3" then some (v4InV6Prefix ++ [10, 0, 0, 3])
      else none
    fqdnMatch := fun _ => false
    resolver := fun _ _ => (none, 0, some [Sentinel.errDnsHostRecordFail])
    defaultDnsTtl := 25 }

/-- A sample engine entry: one tcp target on the given port, round-robin over one
upstream at the given literal address, without health check. -/
def sampleEntry (engine name host : String) (port : Nat) : LbConfig :=
  { Engine := engine
    TargetsConfig :=
      [{ Name := "target-" ++ name
         Protocol := "tcp"
         Ip := ""
         Port := port
         UpstreamGroup :=
           { Name := "group-" ++ name
             Distribution := "round-robin"
             Upstreams :=
               [{ Name := "upstream-" ++ name
                  Host := host
                  Port := 8080
                  Dns := { Servers := [], Ttl := 0 }
                  HealthCheck := HealthCheckConfig.zero }] } }] }

/-- A configuration of three entries of which the last two are both `testEngine`. -/
def sampleRepeatedEngine : ConfigYaml :=
  { LbConfig :=
      [sampleEntry "nftables" "a" "10.0.0.1" 8081,
       sampleEntry "testEngine" "b" "10.0.0.2" 8082,
       sampleEntry "testEngine" "c" "10.0.0.3" 8083] }

/-! ## What an accepted configuration satisfies -/

/-- The checks of one upstream that do not depend on the names met before: known
host type, health check block accepted, DNS addresses accepted. -/
def upstreamOk (x : Externals) (u : UpstreamsConfig) : Prop :=
  (getHostType x u.Host).1 ≠ hostTypeUnknown ∧ checkHealthCheck u = none ∧
    checkDnsServers x u.Dns.Servers = none

/-- The checks of one target against the capability map `ec`: the protocol parses to
a key of the map and the distribution parses to a key of the inner map. -/
def targetOk (ec : capabilities) (t : TargetsConfig) : Prop :=
  ∃ tP modes, getLbProtocol t.Protocol = (tP, none) ∧ ec.lookup tP = some modes ∧
    (modes.lookup (getDistMode t.UpstreamGroup.Distribution).1).isSome = true

/-- The names of the upstreams of all targets of a list, in order. -/
def upstreamNames (ts : List TargetsConfig) : List String :=
  (ts.flatMap (fun t => t.UpstreamGroup.Upstreams)).map (fun u => u.Name)

/-- A capability map whose only protocol key is tcp and whose only distribution key
under it is round-robin, as for both engines. -/
def tcpRoundRobinOnly (ec : capabilities) : Prop :=
  ∀ tP modes, ec.lookup tP = some modes →
    tP = lbProtoTcp ∧ ∀ dm, (modes.lookup dm).isSome = true → dm = distModeRR

/-- An engine entry passes the checks of `checkConfig` from some state of the name
lists: its engine type is known and its target loop, started with an empty port map,
ends without error. -/
def entryAccepted (x : Externals) (e : LbConfig) : Prop :=
  ∃ lbE st0 st', getLbEngineType e.Engine = (lbE, none) ∧ st0.portMap = (fun _ => none) ∧
    checkTargets x (getCapabilities lbE) e.TargetsConfig 0 st0 = Except.ok st'

/-- Every list of protocols recorded in the port map holds `tcp`. -/
def portMapTcp (st : checkState) : Prop :=
  ∀ p protos, st.portMap p = some protos → "tcp" ∈ protos

/-- A sample upstream entry without DNS servers and without health check. -/
def sampleUpstreamConfig (name host : String) : UpstreamsConfig :=
  { Name := name, Host := host, Port := 8080, Dns := { Servers := [], Ttl := 0 },
    HealthCheck := HealthCheckConfig.zero }

/-- A sample target entry. -/
def sampleTargetConfig (name proto : String) (port : Nat) (group dist : String)
    (upstreams : List UpstreamsConfig) : TargetsConfig :=
  { Name := name, Protocol := proto, Ip := "", Port := port,
    UpstreamGroup := { Name := group, Distribution := dist, Upstreams := upstreams } }

/-- An nftables entry with two targets over three upstreams. -/
def sampleAcceptedEntry : LbConfig :=
  { Engine := "nftables"
    TargetsConfig :=
      [sampleTargetConfig "t1" "tcp" 8081 "g1" "round-robin"
         [sampleUpstreamConfig "u1" "10.0.0.1", sampleUpstreamConfig "u2" "10.0.0.2"],
       sampleTargetConfig "t2" "tcp" 8082 "g2" "round-robin"
         [sampleUpstreamConfig "u3" "10.0.0.3"]] }

/-- An accepted configuration: the sample nftables entry alone. -/
def sampleAccepted : ConfigYaml :=
  { LbConfig := [sampleAcceptedEntry] }

/-- A configuration of two entries whose only targets carry the same target name and
the same upstream group name. -/
def sampleSharedNames : ConfigYaml :=
  { LbConfig :=
      [{ Engine := "nftables"
         TargetsConfig :=
           [sampleTargetConfig "web" "tcp" 8081 "pool" "round-robin"
              [sampleUpstreamConfig "u1" "10.0.0.1"]] },
       { Engine := "testEngine"
         TargetsConfig :=
           [sampleTargetConfig "web" "tcp" 8082 "pool" "round-robin"
              [sampleUpstreamConfig "u2" "10.0.0.2"]] }] }

/-- The engine loop of `checkConfig` together with the name lists it ends with. -/
def checkEnginesState (x : Externals) :
    List LbConfig → Nat → checkState → Except Error checkState
  | [], _, st => Except.ok st
  | lbc :: rest, i, st =>
    match checkEngine x i lbc st with
    | Except.error err => Except.error err
    | Except.ok st1 => checkEnginesState x rest (i + 1) st1

/-- The state of the name lists when `checkConfig` starts. -/
def checkState.init : checkState :=
  { eNames := [], tNames := [], uNames := [], ugNames := [], portMap := fun _ => none }

/-- The target `t` with the upstreams `U1 ++ u :: U2`. -/
def targetWithUpstream (t : TargetsConfig) (U1 : List UpstreamsConfig) (u : UpstreamsConfig)
    (U2 : List UpstreamsConfig) : TargetsConfig :=
  { t with UpstreamGroup := { t.UpstreamGroup with Upstreams := U1 ++ u :: U2 } }

/-- The configuration with entries `E1`, then the entry of engine `engine` with
targets `T1 ++ t :: T2`, then entries `E2`. -/
def configWithTarget (E1 : List LbConfig) (engine : String) (T1 : List TargetsConfig)
    (t : TargetsConfig) (T2 : List TargetsConfig) (E2 : List LbConfig) : ConfigYaml :=
  { LbConfig := E1 ++ { Engine := engine, TargetsConfig := T1 ++ t :: T2 } :: E2 }

/-- A sample health check block: tcp probe of port 80 every second, timeout 2, three
successes required. -/
def sampleHealthCheck : HealthCheckConfig :=
  { Protocol := "tcp", Port := 80, StartAvailable := true,
    Probe := { CheckInterval := 1, Timeout := 2, Count := 3 } }

/-- An accepted configuration whose single upstream has a health check block. -/
def sampleCheckedConfig : ConfigYaml :=
  configWithTarget [] "testEngine" []
    (targetWithUpstream (sampleTargetConfig "t1" "tcp" 8081 "g1" "round-robin" []) []
      { sampleUpstreamConfig "u1" "10.0.0.1" with HealthCheck := sampleHealthCheck } [])
    [] []

/-- The target the target loop of `getConfig` builds from a target entry. -/
def getConfigTarget (x : Externals) (t : TargetsConfig) : target :=
  { name := t.Name
    protocol := (getLbProtocol t.Protocol).1
    ip := t.Ip
    port := t.Port
    upstreamGroup :=
      { name := t.UpstreamGroup.Name
        distMode := (getDistMode t.UpstreamGroup.Distribution).1
        upstreams :=
          t.UpstreamGroup.Upstreams.map (getConfigUpstream x (getLbProtocol t.Protocol).1)
        failoverMode := ugFoModeInactive
        previousFailoverMode := ugFoModeUnknown }
    nftRuleInit := false }

/-- The specific causes `checkConfig` reports, one per kind of violation. -/
def checkConfigCauses : List Sentinel :=
  [Sentinel.errLbEngineType, Sentinel.errConfRepEngine, Sentinel.errConfRepTargetName,
   Sentinel.errConfRepUGName, Sentinel.errConfRepUName, Sentinel.errConfRepPortProto,
   Sentinel.errLbProto, Sentinel.errConfTargetProto, Sentinel.errConfDistMode,
   Sentinel.errConfUHost, Sentinel.errConfDnsAddr, Sentinel.errConfHcProtocol,
   Sentinel.errConfProbePort, Sentinel.errConfProbeCI, Sentinel.errConfProbeSC,
   Sentinel.errConfProbeTimeout]

/-- An error of the configuration check: `errLbCheckConf` wrapping one specific cause. -/
def checkConfError (e : Error) : Prop :=
  ∃ c ∈ checkConfigCauses, e = [Sentinel.errLbCheckConf, c]

/-- A sample configuration of one nftables entry with the given targets. -/
def sampleOneEntry (targets : List TargetsConfig) : ConfigYaml :=
  { LbConfig := [{ Engine := "nftables", TargetsConfig := targets }] }

/-- A sample configuration of one nftables entry with one target over the given
upstream. -/
def sampleOneUpstream (u : UpstreamsConfig) : ConfigYaml :=
  sampleOneEntry [sampleTargetConfig "t1" "tcp" 8081 "g1" "round-robin" [u]]

/-- Sample collaborators for which `a.example.org` is an FQDN that does not resolve. -/
def sampleFqdnExternals : Externals :=
  { sampleExternals with fqdnMatch := fun s => decide (s = "a.example.org") }

/-- A sample entry with one target over the upstream `u1` at `a.example.org`. -/
def sampleFqdnEntry : LbConfig :=
  { Engine := "testEngine"
    TargetsConfig :=
      [sampleTargetConfig "t1" "tcp" 8081 "g1" "round-robin"
        [sampleUpstreamConfig "u1" "a.example.org"]] }

/-- The upstream `getConfig` builds for the upstream of the sample FQDN entry. -/
def sampleFqdnUpstream : upstream :=
  getConfigUpstream sampleFqdnExternals lbProtoTcp (sampleUpstreamConfig "u1" "a.example.org")

/-! ## `lb.go`: the DNS check -/

/-- The start of `initDnsCheck` before the task is spawned: the upstream with its
effective TTL set and the period in seconds of the ticker created for it. -/
def initDnsCheck (x : Externals) (u : upstream) : upstream × Nat :=
  if u.dns.confTtl ≠ 0 then
    let u1 : upstream := { u with dns := { u.dns with ttl := u.dns.confTtl } }
    (u1, u1.dns.ttl)
  else
    let u1 : upstream :=
      if u.dns.ttl = 0 then { u with dns := { u.dns with ttl := x.defaultDnsTtl } } else u
    (u1, u1.dns.ttl)

/-- The ticker case of the task of `initDnsCheck` for the upstream `ui` of target
`ti`: the instance after the tick and the period of the ticker after it (`period`
before it). `engine` is the call `l.e.updateUpstream`; the resolver of `x` gives the
answer of this tick. -/
def dnsCheckTick (x : Externals) (engine : upstream → List IP → Option Error)
    (l : lb) (ti ui : Nat) (period : Nat) : lb × Nat :=
  match l.getUpstream ti ui with
  | none => (l, period)
  | some u =>
    if l.terminate then (l, period)
    else
      let ua := u.address
      let r := resolveFqdn x u.host u.dns.addresses
      if r.2.2 ≠ none then
        let u1 : upstream :=
          if u.dns.ttl = 0 then { u with dns := { u.dns with ttl := x.defaultDnsTtl } } else u
        (l.setUpstream ti ui u1, u1.dns.ttl)
      else
        let l1 : lb :=
          if IP.Equal ua r.1 = false then
            let u1 : upstream :=
              if u.healthCheck.active = false then { u with available := true } else u
            ((l.setUpstream ti ui u1).updateUpstream ti ui r.1 engine).1
          else l
        match l1.getUpstream ti ui with
        | none => (l1, period)
        | some u2 =>
          if u2.dns.confTtl = 0 then
            let u3 : upstream :=
              { u2 with
                dns := { u2.dns with ttl := if r.2.1 ≠ 0 then r.2.1 else x.defaultDnsTtl } }
            (l1.setUpstream ti ui u3, u3.dns.ttl)
          else (l1, period)

/-- Consecutive ticks of one DNS check task, one resolver answer per tick. -/
def dnsCheckRun (engine : upstream → List IP → Option Error) (ti ui : Nat) :
    List Externals → lb → Nat → lb × Nat
  | [], l, period => (l, period)
  | x :: xs, l, period =>
    let r := dnsCheckTick x engine l ti ui period
    dnsCheckRun engine ti ui xs r.1 r.2

/-- The state of a DNS check task is sound for the configured override `confTtl`: the
upstream exists and still carries that override, its effective TTL is the override
when there is one, and the ticker period is positive. -/
def dnsCheckSound (l : lb) (ti ui : Nat) (period : Nat) (confTtl : Nat) : Prop :=
  ∃ u, l.getUpstream ti ui = some u ∧ u.dns.confTtl = confTtl ∧
    (confTtl ≠ 0 → u.dns.ttl = confTtl) ∧ 0 < period

/-! ## `lb.go`: comparison of two sets of load balancers -/

/-- Inner loop of the first loop of `lbsCompare`: the first new load balancer with the
engine type of `o`. -/
def lbsCompareFind (o : lb) : List lb → Option lb
  | [] => none
  | n :: rest => if o.et = n.et then some n else lbsCompareFind o rest

/-- First loop of `lbsCompare` (label `olbsLoop`): the map `kept` and the slice
`removed` after the old load balancers still to read. -/
def lbsCompareOld (nlbs : List lb) :
    List lb → (lbEngineType → Option (List lb)) → List lb →
      (lbEngineType → Option (List lb)) × List lb
  | [], kept, removed => (kept, removed)
  | o :: rest, kept, removed =>
    match lbsCompareFind o nlbs with
    | some n =>
      lbsCompareOld nlbs rest (fun e => if e = o.et then some [o, n] else kept e) removed
    | none => lbsCompareOld nlbs rest kept (removed ++ [o])

/-- Second loop of `lbsCompare`: the slice `added`. -/
def lbsCompareNew (kept : lbEngineType → Option (List lb)) : List lb → List lb → List lb
  | [], added => added
  | n :: rest, added =>
    if (kept n.et).isNone then lbsCompareNew kept rest (added ++ [n])
    else lbsCompareNew kept rest added

/-- Go `func lbsCompare(olbs, nlbs []*lb) (*map[lbEngineType][]*lb, []*lb, []*lb)`:
the map `kept`, the slice `added` and the slice `removed`. -/
def lbsCompare (olbs nlbs : List lb) :
    (lbEngineType → Option (List lb)) × List lb × List lb :=
  let r := lbsCompareOld nlbs olbs (fun _ => none) []
  (r.1, lbsCompareNew r.1 nlbs [], r.2)

/-- A sample load balancer of the given engine type with the given ledger. -/
def sampleLbOf (et : lbEngineType) (ips : List IP) : lb :=
  { targets := [], et := et, upstreamIps := ips, terminate := false }

/-! ## Reference descriptions of the IP list helpers -/

/-- The first occurrences of a list of addresses: an address is kept exactly when no
address read before it (`seen`, kept or not) is equal to it (`net.IP.Equal`); the
order of the input is kept. -/
def firstOccurrencesFrom (seen : List IP) : List IP → List IP
  | [] => []
  | nip :: rest =>
    if seen.any (fun ip => IP.Equal ip nip) then firstOccurrencesFrom (seen ++ [nip]) rest
    else nip :: firstOccurrencesFrom (seen ++ [nip]) rest

/-- The first occurrences of a whole list. -/
def firstOccurrences (nipl : List IP) : List IP := firstOccurrencesFrom [] nipl
/-- Two lists recognise the same addresses as already present. -/
def sameAddresses (a b : List IP) : Prop :=
  ∀ x, a.any (fun ip => IP.Equal ip x) = b.any (fun ip => IP.Equal ip x)

/-- The second occurrences of a list of addresses, for a notion `same` of equal
addresses: an address is kept exactly when one address read before it (`seen`) is the
same; the order of the input is kept. -/
def secondOccurrencesFrom (same : IP → IP → Bool) (seen : List IP) : List IP → List IP
  | [] => []
  | nip :: rest =>
    if seen.countP (fun ip => same ip nip) = 1 then
      nip :: secondOccurrencesFrom same (seen ++ [nip]) rest
    else secondOccurrencesFrom same (seen ++ [nip]) rest

/-- The second occurrences of a whole list, addresses being equal as for
`net.IP.Equal`. -/
def secondOccurrences (nipl : List IP) : List IP := secondOccurrencesFrom IP.Equal [] nipl

/-- Addresses with the same text (`net.IP.String`): the key of `occurrenceCount`. -/
def sameText (str : IP → String) (a b : IP) : Bool := decide (str a = str b)

/-- A notion of equal addresses that is reflexive, symmetric and transitive. -/
structure sameEquivalence (same : IP → IP → Bool) : Prop where
  refl : ∀ a, same a a = true
  symm : ∀ a b, same a b = true → same b a = true
  trans : ∀ a b c, same a b = true → same b c = true → same a c = true

/-- A rendering of a byte list in which every byte is written as that many strokes
closed by a dot. -/
def unaryBytes : List Nat → List Char
  | [] => []
  | n :: rest => List.replicate n 'x' ++ '.' :: unaryBytes rest

/-- A sample text form of addresses for `net.IP.String`: the 16-byte form of an IPv4
address and its 4-byte form have the same text, different addresses have different
texts. -/
def sampleText (ip : IP) : String := String.mk (unaryBytes (IP.canon ip))

/-! ## Runs of `updateTarget` -/

/-- The availability flags of the upstreams of a group as the health check and DNS
tasks leave them between two calls of `updateTarget`: upstream `i` gets flag `i`
(an upstream without a flag keeps its own). -/
def setAvailable : List Bool → List upstream → List upstream
  | b :: bs, u :: us => { u with available := b } :: setAvailable bs us
  | _, us => us

/-- A target whose upstreams carry the given availability flags. -/
def target.withAvailability (flags : List Bool) (t : target) : target :=
  { t with
    upstreamGroup :=
      { t.upstreamGroup with upstreams := setAvailable flags t.upstreamGroup.upstreams } }

/-- A finite sequence of `updateTarget` calls on one target: before each call the
availability of its upstreams is arbitrary, and each call has its own netlink
outcome. -/
def updateTargetRun (o : ByteOrder) : List (List Bool × netlink) → target → target
  | [], t => t
  | (flags, k) :: rest, t =>
    updateTargetRun o rest (updateTarget o k (target.withAvailability flags t)).1

/-- Both mode fields of a group index the per-mode vectors `nftUgSet`, `nftUgChain`,
`nftUgChainRule` and `nftPrerRule` (of length `numUgFoModes`), and the failover mode
is one of Inactive, Active1, Active2 and Down. -/
def validModes (ug : upstreamGroup) : Prop :=
  (ug.failoverMode = ugFoModeInactive ∨ ug.failoverMode = ugFoModeActive1 ∨
    ug.failoverMode = ugFoModeActive2 ∨ ug.failoverMode = ugFoModeDown) ∧
  ug.previousFailoverMode < numUgFoModes

/-- The first target `getConfig` builds from the sample nftables entry: two upstreams
at literal addresses. -/
def sampleBuiltTarget : target :=
  getConfigTarget sampleExternals
    (sampleTargetConfig "t1" "tcp" 8081 "g1" "round-robin"
      [sampleUpstreamConfig "u1" "10.0.0.1", sampleUpstreamConfig "u2" "10.0.0.2"])

/-- A sample run: one upstream fails, both fail, one comes back while the flush
fails, then no netlink connection can be made. -/
def sampleSteps : List (List Bool × netlink) :=
  [([true, false], ⟨true, true⟩), ([false, false], ⟨true, true⟩),
   ([false, true], ⟨true, false⟩), ([true, true], ⟨false, true⟩)]

/-! ## `nftables.go`: upstream update -/

/-- The rule of an upstream chain as the engine writes it: its kernel handle, the
address loaded in register 1 (`u.address.To4()`) and the port bytes loaded in
register 2, followed by the destination NAT expression. -/
structure dnatRule where
  Handle : Nat
  address : IP
  port : List Nat
  deriving DecidableEq, Repr

/-- The kernel objects `updateUpstream` reads and writes: the rules of the
`postrouting` chain, the rules of the chain of each upstream (by chain name) and the
handle the kernel gives to the next rule added. -/
structure nftRules where
  postrouting : List masqRule
  upstreamChain : String → List dnatRule
  nextHandle : Nat

/-- The three calls of `updateUpstream`, recorded in the order they are made. -/
inductive nftCall where
  | addMasquerade
  | updateUpstreamChain
  | cleanMasquerade
  deriving DecidableEq, Repr

/-- Go `func (n *nft) addMasquerade(ip *net.IP) error` through `pushNft`: a masquerade
rule for `ip.To4()` is added at the end of `postrouting` unless a rule of the chain
has an equal address. Without a netlink connection or when the flush fails nothing is
applied. -/
def addMasquerade (k : netlink) (rs : nftRules) (ip : IP) : nftRules × Option Error :=
  if k.newOk = false then
    (rs, some [Sentinel.errNftAddMasquerade, Sentinel.errNftNetlinkConn, Sentinel.external])
  else
    let needsAdding : Bool := !(rs.postrouting.any (fun rule => IP.Equal rule.Data ip))
    if k.flushOk = false then
      (rs, some [Sentinel.errNftAddMasquerade, Sentinel.errNftFlush, Sentinel.external])
    else if needsAdding then
      ({ rs with
          postrouting := rs.postrouting ++ [⟨rs.nextHandle, IP.To4 ip⟩]
          nextHandle := rs.nextHandle + 1 }, none)
    else (rs, none)

/-- Go `func (n *nft) updateUpstreamChain(u *upstream) error` through `pushNft`: the
first rule of the chain named after the upstream is replaced (same handle) by the rule
for the current address and port, or the rule is added when the chain has none. -/
def updateUpstreamChain (k : netlink) (rs : nftRules) (u : upstream) :
    nftRules × Option Error :=
  if k.newOk = false then
    (rs, some [Sentinel.errNftUpdateUpstreamChain, Sentinel.errNftNetlinkConn,
      Sentinel.external])
  else if k.flushOk = false then
    (rs, some [Sentinel.errNftUpdateUpstreamChain, Sentinel.errNftFlush, Sentinel.external])
  else
    match rs.upstreamChain u.name with
    | r0 :: rest =>
      ({ rs with
          upstreamChain := fun name =>
            if name = u.name then
              ⟨r0.Handle, IP.To4 u.address, ByteOrder.bigEndian.PutUint16 u.port⟩ :: rest
            else rs.upstreamChain name }, none)
    | [] =>
      ({ rs with
          upstreamChain := fun name =>
            if name = u.name then
              [⟨rs.nextHandle, IP.To4 u.address, ByteOrder.bigEndian.PutUint16 u.port⟩]
            else rs.upstreamChain name
          nextHandle := rs.nextHandle + 1 }, none)

/-- Go `func (n *nft) updateUpstream(u *upstream, auip *[]net.IP) error`: the kernel
rules after the call, the calls made and the error. `k1`, `k2` and `k3` are the netlink
outcomes of the three steps. The variable `err` is assigned by `updateUpstreamChain`
and assigned again by `cleanMasquerade` before it is read. -/
def nft.updateUpstream (str : IP → String) (k1 k2 k3 : netlink) (rs : nftRules)
    (u : upstream) (auip : List IP) : nftRules × List nftCall × Option Error :=
  match addMasquerade k1 rs u.address with
  | (rs1, some err) =>
    (rs1, [nftCall.addMasquerade], some (Sentinel.errNftUpdateUpstream :: err))
  | (rs1, none) =>
    let rs2 := (updateUpstreamChain k2 rs1 u).1
    let r3 := cleanMasquerade str k3 rs2.postrouting auip
    let calls := [nftCall.addMasquerade, nftCall.updateUpstreamChain, nftCall.cleanMasquerade]
    match r3.2 with
    | some err =>
      ({ rs2 with postrouting := r3.1 }, calls, some (Sentinel.errNftUpdateUpstream :: err))
    | none => ({ rs2 with postrouting := r3.1 }, calls, none)

/-- Sample kernel rules: one masquerade rule for 10.0.0.1 and no upstream chain. -/
def sampleRules : nftRules :=
  { postrouting := [⟨1, ip1⟩], upstreamChain := fun _ => [], nextHandle := 2 }

/-! ## The FQDN pattern (`common.go`) -/

/-- The regular expressions the pattern `fqdnRegexStringRFC1123` is built from: a
character class given by its ranges (a single character is a one-character range),
concatenation, the bounded repetition `r{min,max}` and the repetition `r*` (`r*?`
matches the same strings). Groups only bracket. -/
inductive Regex where
  | cls (ranges : List (Char × Char))
  | seq (r s : Regex)
  | rep (r : Regex) (min max : Nat)
  | star (r : Regex)
  deriving Repr

/-- Membership of a character in a class. -/
def inClass (ranges : List (Char × Char)) (c : Char) : Bool :=
  ranges.any (fun r => decide (r.1.toNat ≤ c.toNat ∧ c.toNat ≤ r.2.toNat))

/-- Matching `r{min,max}` at the start of the input: the inputs left after `min` to
`max` matches of `r` in a row; `step` gives the inputs left after one match. -/
def repRests (step : List Char → List (List Char)) :
    Nat → Nat → List Char → List (List Char)
  | 0, 0, inp => [inp]
  | _ + 1, 0, _ => []
  | 0, max + 1, inp => inp :: (step inp).flatMap (repRests step 0 max)
  | min + 1, max + 1, inp => (step inp).flatMap (repRests step min max)

/-- Matching `r*` at the start of the input: the inputs left after any number of
matches of `r` in a row. A match that consumes nothing leaves nothing new, so only
matches that shorten the input are followed, at most as many as the input is long. -/
def starRests (step : List Char → List (List Char)) : Nat → List Char → List (List Char)
  | 0, inp => [inp]
  | fuel + 1, inp =>
    inp :: ((step inp).filter (fun r => decide (r.length < inp.length))).flatMap
      (starRests step fuel)

/-- Matching a regular expression at the start of the input: all the inputs that can
be left after a match. -/
def Regex.rests : Regex → List Char → List (List Char)
  | .cls ranges => fun inp =>
    match inp with
    | c :: t => if inClass ranges c then [t] else []
    | [] => []
  | .seq r s => fun inp => (Regex.rests r inp).flatMap (Regex.rests s)
  | .rep r min max => fun inp => repRests (Regex.rests r) min max inp
  | .star r => fun inp => starRests (Regex.rests r) inp.length inp

/-- Library `(*Regexp).MatchString` for a pattern bracketed by `^` and `$`: the whole
text is a match. -/
def Regex.MatchString (re : Regex) (s : String) : Bool :=
  (re.rests s.data).any (fun r => r.isEmpty)

/-- The class `[a-zA-Z0-9]`. -/
def classAlnum : List (Char × Char) := [('a', 'z'), ('A', 'Z'), ('0', '9')]

/-- The class `[a-zA-Z0-9-]`. -/
def classAlnumHyphen : List (Char × Char) := [('a', 'z'), ('A', 'Z'), ('0', '9'), ('-', '-')]

/-- The class `[a-zA-Z]`. -/
def classAlpha : List (Char × Char) := [('a', 'z'), ('A', 'Z')]

/-- The escaped character `\.`. -/
def regexDot : Regex := Regex.cls [('.', '.')]

/-- The group `([a-zA-Z0-9]{1}[a-zA-Z0-9-]{0,62})`. -/
def regexLabel : Regex :=
  Regex.seq (Regex.rep (Regex.cls classAlnum) 1 1) (Regex.rep (Regex.cls classAlnumHyphen) 0 62)

/-- The group `(\.[a-zA-Z]{1}[a-zA-Z0-9]{0,62})`. -/
def regexTld : Regex :=
  Regex.seq regexDot
    (Regex.seq (Regex.rep (Regex.cls classAlpha) 1 1) (Regex.rep (Regex.cls classAlnum) 0 62))

/-- Go `fqdnRegexRFC1123`, the compiled pattern
`^([a-zA-Z0-9]{1}[a-zA-Z0-9-]{0,62})(\.[a-zA-Z0-9]{1}[a-zA-Z0-9-]{0,62})*?(\.[a-zA-Z]{1}[a-zA-Z0-9]{0,62})\.?$`. -/
def fqdnRegexRFC1123 : Regex :=
  Regex.seq regexLabel
    (Regex.seq (Regex.star (Regex.seq regexDot regexLabel))
      (Regex.seq regexTld (Regex.rep regexDot 0 1)))

/-- The collaborators with the pattern match of the sources: `fqdnMatch` is
`fqdnRegexRFC1123.MatchString`. -/
def Externals.withRegex (x : Externals) : Externals :=
  { x with fqdnMatch := fun s => fqdnRegexRFC1123.MatchString s }

/-- The language of a regular expression: the texts it matches as a whole. -/
def Regex.lang : Regex → List Char → Prop
  | .cls ranges => fun w => ∃ c, w = [c] ∧ inClass ranges c = true
  | .seq r s => fun w => ∃ u v, w = u ++ v ∧ Regex.lang r u ∧ Regex.lang s v
  | .rep r min max => fun w =>
    ∃ ws : List (List Char), w = ws.flatten ∧ min ≤ ws.length ∧ ws.length ≤ max ∧
      ∀ x ∈ ws, Regex.lang r x
  | .star r => fun w =>
    ∃ ws : List (List Char), w = ws.flatten ∧ ∀ x ∈ ws, Regex.lang r x

/-! ## Host names in words -/

/-- An ASCII letter. -/
def asciiLetter (c : Char) : Prop :=
  ('a'.toNat ≤ c.toNat ∧ c.toNat ≤ 'z'.toNat) ∨ ('A'.toNat ≤ c.toNat ∧ c.toNat ≤ 'Z'.toNat)

/-- An ASCII decimal digit. -/
def asciiDigit (c : Char) : Prop := '0'.toNat ≤ c.toNat ∧ c.toNat ≤ '9'.toNat

/-- The alphabet of host labels: ASCII letters, digits and the hyphen. -/
def hostChar (c : Char) : Prop := asciiLetter c ∨ asciiDigit c ∨ c = '-'

/-- Labels joined by single dots. -/
def dotJoin : List (List Char) → List Char
  | [] => []
  | [l] => l
  | l :: m :: rest => l ++ '.' :: dotJoin (m :: rest)

/-- A host label in the words of RFC 1123: 1 to 63 characters of the label alphabet,
neither beginning nor ending with a hyphen. -/
def rfc1123Label (l : List Char) : Prop :=
  1 ≤ l.length ∧ l.length ≤ 63 ∧ (∀ c ∈ l, hostChar c) ∧ l.head? ≠ some '-' ∧
    l.getLast? ≠ some '-'

/-- A label as the groups `([a-zA-Z0-9]{1}[a-zA-Z0-9-]{0,62})` of the pattern take it:
a letter or digit followed by at most 62 characters of the label alphabet. -/
def patternLabel (l : List Char) : Prop :=
  ∃ c rest, l = c :: rest ∧ (asciiLetter c ∨ asciiDigit c) ∧ rest.length ≤ 62 ∧
    ∀ d ∈ rest, hostChar d

/-- A last label as the group `([a-zA-Z]{1}[a-zA-Z0-9]{0,62})` of the pattern takes it:
a letter followed by at most 62 letters or digits. -/
def patternTld (l : List Char) : Prop :=
  ∃ c rest, l = c :: rest ∧ asciiLetter c ∧ rest.length ≤ 62 ∧
    ∀ d ∈ rest, asciiLetter d ∨ asciiDigit d

/-- A text made of at least two labels joined by dots, the labels before the last
being `label` and the last being `tld`, followed by at most one trailing dot. -/
def fqdnOf (label tld : List Char → Prop) (s : List Char) : Prop :=
  ∃ (labels : List (List Char)) (last dot : List Char),
    labels ≠ [] ∧ s = dotJoin (labels ++ [last]) ++ dot ∧ (∀ l ∈ labels, label l) ∧
      tld last ∧ (dot = [] ∨ dot = ['.'])

/-- An RFC 1123 host name with a non-numeric TLD, in the words of the specification:
every label is an RFC 1123 label and the last one begins with a letter. -/
def rfc1123Fqdn (s : List Char) : Prop :=
  fqdnOf rfc1123Label
    (fun l => rfc1123Label l ∧ ∃ c rest, l = c :: rest ∧ asciiLetter c) s

/-- The labels of a text: the pieces between its dots (a text without dot is its only
label; a text ending in a dot has an empty last label). -/
def splitDots : List Char → List (List Char)
  | [] => [[]]
  | c :: rest =>
    if c = '.' then [] :: splitDots rest
    else
      match splitDots rest with
      | l :: ls => (c :: l) :: ls
      | [] => [[c]]

/-! ## Host classification with the pattern of the sources -/

/-- The texts the library parser `net.ParseIP` can accept: an IPv6 literal (also one
that embeds an IPv4 address) has a colon, an IPv4 literal is made of decimal digits
and dots. -/
def ipLiteral (s : String) : Prop :=
  ':' ∈ s.data ∨ ∀ c ∈ s.data, asciiDigit c ∨ c = '.'

/-- The checks of `getHostType` made in the other order: the FQDN pattern first, the
literal parser second. -/
def getHostTypeFqdnFirst (x : Externals) (host : String) : hostType × Option Error :=
  if isFqdn x host then (hostTypeFqdn, none)
  else
    let ip := x.ParseIP host
    if ip ≠ none ∧ IP.To4 ip ≠ none then (hostTypeIPv4, none)
    else if ip ≠ none ∧ IP.To16 ip ≠ none then (hostTypeIPv6, none)
    else (hostTypeUnknown, some [Sentinel.errHostType])

/-! # Theorems -/

/-! ## Counting available upstreams -/

theorem numActiveUpstreamsLoop_eq (us : List upstream) (n : Nat) (hn : n < 65536) :
    numActiveUpstreamsLoop us n = (n + us.countP (fun u => u.available)) % 65536 := by
  induction us generalizing n with
  | nil => simp [numActiveUpstreamsLoop, Nat.mod_eq_of_lt hn]
  | cons u us ih =>
    by_cases hu : u.available = true
    · have hlt : (n + 1) % 65536 < 65536 := Nat.mod_lt _ (by decide)
      simp only [numActiveUpstreamsLoop, hu, if_true, List.countP_cons_of_pos]
      rw [ih _ hlt]
      omega
    · have hu' : u.available = false := by simpa using hu
      simp only [numActiveUpstreamsLoop, hu', Bool.false_eq_true, if_false]
      rw [ih _ hn, List.countP_cons_of_neg]
      simp [hu']

theorem numActiveUpstreams_eq_countP (t : target)
    (hlen : t.upstreamGroup.upstreams.length ≤ 65535) :
    numActiveUpstreams t = t.upstreamGroup.upstreams.countP (fun u => u.available) := by
  have hle := List.countP_le_length (fun u : upstream => u.available)
    (l := t.upstreamGroup.upstreams)
  unfold numActiveUpstreams
  rw [numActiveUpstreamsLoop_eq _ _ (by decide)]
  omega

theorem countP_available_eq_zero (us : List upstream) :
    us.countP (fun u => u.available) = 0 ↔ ∀ u ∈ us, u.available = false := by
  rw [List.countP_eq_zero]
  simp

theorem countP_available_eq_length (us : List upstream) :
    us.countP (fun u => u.available) = us.length ↔ ∀ u ∈ us, u.available = true := by
  rw [List.countP_eq_length]

/-! ## The failover state machine of `updateTarget` -/

theorem updateTarget_target (o : ByteOrder) (k : netlink) (t : target)
    (hconn : k.newOk = true) :
    (updateTarget o k t).1 =
      { t with upstreamGroup := failoverStep t, nftRuleInit := true } := by
  unfold updateTarget
  by_cases hf : k.flushOk = false <;> simp [hconn, hf]

theorem failoverStep_previous (t : target) :
    (failoverStep t).previousFailoverMode = t.upstreamGroup.failoverMode := by
  unfold failoverStep
  dsimp only
  split_ifs <;> rfl

theorem failoverStep_upstreams (t : target) :
    (failoverStep t).upstreams = t.upstreamGroup.upstreams := by
  unfold failoverStep
  dsimp only
  split_ifs <;> rfl

theorem failoverStep_name (t : target) :
    (failoverStep t).name = t.upstreamGroup.name := by
  unfold failoverStep
  dsimp only
  split_ifs <;> rfl

theorem failoverStep_mode (t : target)
    (hlen : t.upstreamGroup.upstreams.length ≤ 65535) :
    (failoverStep t).failoverMode =
      if t.upstreamGroup.upstreams.countP (fun u => u.available) = 0 then ugFoModeDown
      else if t.upstreamGroup.upstreams.countP (fun u => u.available)
          = t.upstreamGroup.upstreams.length then ugFoModeInactive
      else (nextMode t.upstreamGroup.failoverMode).1 := by
  have hmod : t.upstreamGroup.upstreams.length % 65536 = t.upstreamGroup.upstreams.length :=
    Nat.mod_eq_of_lt (by omega)
  unfold failoverStep
  dsimp only
  rw [numActiveUpstreams_eq_countP t hlen, hmod]
  split_ifs <;> rfl

/-- C1: the failover step of `nft.updateTarget`. On a target whose group has at most
65535 upstreams, once the netlink connection is made, the call records the mode it
found in `previousFailoverMode` and sets `failoverMode` to Down when no upstream is
available (an empty group included), to Inactive when the group is not empty and all
upstreams are available, and to `nextMode` of the mode it found otherwise, where
`nextMode` sends Inactive to Active1, Active1 to Active2, Active2 to Active1 and Down
to Active1. -/
theorem updateTarget_failover_step (o : ByteOrder) (k : netlink) (t : target)
    (hconn : k.newOk = true)
    (hlen : t.upstreamGroup.upstreams.length ≤ 65535) :
    ((updateTarget o k t).1).upstreamGroup.previousFailoverMode
        = t.upstreamGroup.failoverMode ∧
    ((∀ u ∈ t.upstreamGroup.upstreams, u.available = false) →
      ((updateTarget o k t).1).upstreamGroup.failoverMode = ugFoModeDown) ∧
    (t.upstreamGroup.upstreams ≠ [] →
      (∀ u ∈ t.upstreamGroup.upstreams, u.available = true) →
      ((updateTarget o k t).1).upstreamGroup.failoverMode = ugFoModeInactive) ∧
    ((∃ u ∈ t.upstreamGroup.upstreams, u.available = true) →
      (∃ u ∈ t.upstreamGroup.upstreams, u.available = false) →
      ((updateTarget o k t).1).upstreamGroup.failoverMode
        = (nextMode t.upstreamGroup.failoverMode).1) ∧
    (nextMode ugFoModeInactive).1 = ugFoModeActive1 ∧
    (nextMode ugFoModeActive1).1 = ugFoModeActive2 ∧
    (nextMode ugFoModeActive2).1 = ugFoModeActive1 ∧
    (nextMode ugFoModeDown).1 = ugFoModeActive1 := by
  rw [updateTarget_target o k t hconn]
  dsimp only
  refine ⟨failoverStep_previous t, ?_, ?_, ?_, rfl, rfl, rfl, rfl⟩
  · intro hall
    rw [failoverStep_mode t hlen, if_pos ((countP_available_eq_zero _).2 hall)]
  · intro hne hall
    have hlenpos : 0 < t.upstreamGroup.upstreams.length := List.length_pos.2 hne
    have hc := (countP_available_eq_length _).2 hall
    rw [failoverStep_mode t hlen, if_neg (by omega), if_pos hc]
  · intro hsome hnone
    have h0 : t.upstreamGroup.upstreams.countP (fun u => u.available) ≠ 0 := by
      intro h0
      obtain ⟨u, hu, hav⟩ := hsome
      have := (countP_available_eq_zero _).1 h0 u hu
      simp [hav] at this
    have h1 : t.upstreamGroup.upstreams.countP (fun u => u.available)
        ≠ t.upstreamGroup.upstreams.length := by
      intro h1
      obtain ⟨u, hu, hav⟩ := hnone
      have := (countP_available_eq_length _).1 h1 u hu
      simp [hav] at this
    rw [failoverStep_mode t hlen, if_neg h0, if_neg h1]

/-- Witness of C1: a group in mode Inactive with one of two upstreams available moves
to Active1 and records Inactive as the previous mode. -/
theorem updateTarget_failover_step_witness :
    ((updateTarget ByteOrder.littleEndian ⟨true, true⟩
        (sampleTarget sampleHalfUp ugFoModeInactive)).1).upstreamGroup.previousFailoverMode
      = ugFoModeInactive ∧
    ((updateTarget ByteOrder.littleEndian ⟨true, true⟩
        (sampleTarget sampleHalfUp ugFoModeInactive)).1).upstreamGroup.failoverMode
      = ugFoModeActive1 :=
  have h := updateTarget_failover_step ByteOrder.littleEndian ⟨true, true⟩
    (sampleTarget sampleHalfUp ugFoModeInactive) rfl (by decide)
  ⟨h.1, h.2.2.2.1 ⟨sampleUpstream "b" ip2 true, by decide, rfl⟩
    ⟨sampleUpstream "a" ip1 false, by decide, rfl⟩⟩

/-! ## Names of the failover chains -/

theorem updateTarget_batch (o : ByteOrder) (k : netlink) (t : target)
    (hconn : k.newOk = true) :
    (updateTarget o k t).2.1 = some
      { ugName := ugChainName (failoverStep t) (failoverStep t).failoverMode
        vmapElements := getVmapElements o { t with upstreamGroup := failoverStep t }
        ugChainRule := ugChainRuleExprs (numActiveUpstreams t)
          (getVmapElements o { t with upstreamGroup := failoverStep t })
          (ugChainName (failoverStep t) (failoverStep t).failoverMode)
        prerRule := prerRuleExprs { t with upstreamGroup := failoverStep t }
          (ugChainName (failoverStep t) (failoverStep t).failoverMode)
        previousName := ugChainName (failoverStep t) (failoverStep t).previousFailoverMode } := by
  unfold updateTarget
  by_cases hf : k.flushOk = false <;> simp [hconn, hf]

theorem string_append_left_cancel (a b c : String) (h : a ++ b = a ++ c) : b = c := by
  have hd := congrArg String.data h
  simp only [String.data_append] at hd
  exact String.ext (List.append_cancel_left hd)

theorem getId_injective_on_modes (m m' : ugFoMode)
    (hm : m = ugFoModeInactive ∨ m = ugFoModeActive1 ∨ m = ugFoModeActive2 ∨ m = ugFoModeDown)
    (hm' : m' = ugFoModeInactive ∨ m' = ugFoModeActive1 ∨ m' = ugFoModeActive2
      ∨ m' = ugFoModeDown)
    (h : getId m = getId m') : m = m' := by
  rcases hm with rfl | rfl | rfl | rfl <;> rcases hm' with rfl | rfl | rfl | rfl <;>
    first
      | rfl
      | (exfalso; revert h; decide)

theorem ugChainName_eq_iff (ug : upstreamGroup) (m m' : ugFoMode)
    (hm : m = ugFoModeInactive ∨ m = ugFoModeActive1 ∨ m = ugFoModeActive2 ∨ m = ugFoModeDown)
    (hm' : m' = ugFoModeInactive ∨ m' = ugFoModeActive1 ∨ m' = ugFoModeActive2
      ∨ m' = ugFoModeDown) :
    ugChainName ug m = ugChainName ug m' ↔ m = m' := by
  constructor
  · intro h
    unfold ugChainName at h
    exact getId_injective_on_modes m m' hm hm' (string_append_left_cancel _ _ _ h)
  · rintro rfl
    rfl

theorem nextMode_ne_self (m : ugFoMode)
    (hm : m = ugFoModeInactive ∨ m = ugFoModeActive1 ∨ m = ugFoModeActive2 ∨ m = ugFoModeDown) :
    (nextMode m).1 ≠ m ∧
      ((nextMode m).1 = ugFoModeActive1 ∨ (nextMode m).1 = ugFoModeActive2) := by
  rcases hm with rfl | rfl | rfl | rfl <;> decide

/-- Counterexample to C2: a group in mode Inactive whose single upstream is available
(the state in which every target is first programmed) stays in mode Inactive, and the
name of the new chain and set is the name of the outgoing one. -/
theorem updateTarget_same_name_counterexample :
    (sampleTarget [sampleUpstream "a" ip1 true] ugFoModeInactive).upstreamGroup.failoverMode
      = ugFoModeInactive ∧
    ((updateTarget ByteOrder.littleEndian ⟨true, true⟩
        (sampleTarget [sampleUpstream "a" ip1 true] ugFoModeInactive)).1).upstreamGroup.failoverMode
      = ugFoModeInactive ∧
    ((updateTarget ByteOrder.littleEndian ⟨true, true⟩
        (sampleTarget [sampleUpstream "a" ip1 true] ugFoModeInactive)).2.1).map
          (fun b => (b.ugName, b.previousName))
      = some ("ug-1", "ug-1") := by
  decide

/-- C2, amended: on a target in one of the modes Inactive, Active1, Active2, Down with at
most 65535 upstreams, `updateTarget` leaves the failover mode unchanged exactly when no
upstream is available and the mode already was Down, or the group is not empty, all its
upstreams are available and the mode already was Inactive; in every other case the new
mode differs from the outgoing one. The new chain/set name equals the outgoing name
exactly when the mode is unchanged. -/
theorem updateTarget_mode_unchanged_iff (o : ByteOrder) (k : netlink) (t : target)
    (hconn : k.newOk = true)
    (hlen : t.upstreamGroup.upstreams.length ≤ 65535)
    (hm : t.upstreamGroup.failoverMode = ugFoModeInactive ∨
      t.upstreamGroup.failoverMode = ugFoModeActive1 ∨
      t.upstreamGroup.failoverMode = ugFoModeActive2 ∨
      t.upstreamGroup.failoverMode = ugFoModeDown) :
    (((updateTarget o k t).1).upstreamGroup.failoverMode = t.upstreamGroup.failoverMode ↔
      ((∀ u ∈ t.upstreamGroup.upstreams, u.available = false) ∧
          t.upstreamGroup.failoverMode = ugFoModeDown) ∨
      (t.upstreamGroup.upstreams ≠ [] ∧
          (∀ u ∈ t.upstreamGroup.upstreams, u.available = true) ∧
          t.upstreamGroup.failoverMode = ugFoModeInactive)) ∧
    (∀ b, (updateTarget o k t).2.1 = some b →
      (b.ugName = b.previousName ↔
        ((updateTarget o k t).1).upstreamGroup.failoverMode
          = t.upstreamGroup.failoverMode)) := by
  have hmode := failoverStep_mode t hlen
  have hprev := failoverStep_previous t
  have hnext := nextMode_ne_self _ hm
  have hz := countP_available_eq_zero t.upstreamGroup.upstreams
  have hl := countP_available_eq_length t.upstreamGroup.upstreams
  have hpos : t.upstreamGroup.upstreams ≠ [] ↔ 0 < t.upstreamGroup.upstreams.length :=
    List.length_pos.symm
  rw [updateTarget_target o k t hconn]
  dsimp only
  constructor
  · rw [hmode]
    by_cases h0 : t.upstreamGroup.upstreams.countP (fun u => u.available) = 0
    · rw [if_pos h0]
      constructor
      · intro h
        exact Or.inl ⟨hz.1 h0, h.symm⟩
      · rintro (⟨_, h⟩ | ⟨hne, hall, _⟩)
        · exact h.symm
        · have := hl.2 hall
          have := hpos.1 hne
          omega
    · rw [if_neg h0]
      by_cases h1 : t.upstreamGroup.upstreams.countP (fun u => u.available)
          = t.upstreamGroup.upstreams.length
      · rw [if_pos h1]
        constructor
        · intro h
          refine Or.inr ⟨hpos.2 (by omega), hl.1 h1, h.symm⟩
        · rintro (⟨hall, _⟩ | ⟨_, _, h⟩)
          · exact absurd (hz.2 hall) h0
          · exact h.symm
      · rw [if_neg h1]
        constructor
        · intro h
          exact absurd h hnext.1
        · rintro (⟨hall, _⟩ | ⟨_, hall, _⟩)
          · exact absurd (hz.2 hall) h0
          · exact absurd (hl.2 hall) h1
  · intro b hb
    rw [updateTarget_batch o k t hconn] at hb
    have hb' := (Option.some.inj hb).symm
    subst hb'
    dsimp only
    rw [hprev]
    apply ugChainName_eq_iff _ _ _ _ hm
    rw [hmode]
    split_ifs
    · exact Or.inr (Or.inr (Or.inr rfl))
    · exact Or.inl rfl
    · rcases hnext.2 with h | h
      · exact Or.inr (Or.inl h)
      · exact Or.inr (Or.inr (Or.inl h))

/-- Witness of C2 amended: in mode Active1 with one of two upstreams available the
mode changes, so neither exception applies and the new name is fresh. -/
theorem updateTarget_mode_unchanged_iff_witness :
    ¬ (((updateTarget ByteOrder.littleEndian ⟨true, true⟩
        (sampleTarget sampleHalfUp ugFoModeActive1)).1).upstreamGroup.failoverMode
      = ugFoModeActive1) :=
  fun h =>
    have hiff := (updateTarget_mode_unchanged_iff ByteOrder.littleEndian ⟨true, true⟩
      (sampleTarget sampleHalfUp ugFoModeActive1) rfl (by decide) (Or.inr (Or.inl rfl))).1
    (hiff.1 h).elim (fun h1 => absurd h1.2 (by decide)) (fun h2 => absurd h2.2.2 (by decide))

/-! ## The verdict map -/

theorem getVmapElementsLoop_eq (o : ByteOrder) (us : List upstream)
    (acc : List SetElement) (c : Nat) :
    getVmapElementsLoop o us acc c =
      acc ++ (List.enumFrom c (us.filter (fun u => u.available))).map
        (fun p => vmapElement o p.1 p.2) := by
  induction us generalizing acc c with
  | nil => simp [getVmapElementsLoop]
  | cons u us ih =>
    by_cases hu : u.available = true
    · simp only [getVmapElementsLoop, hu, if_true, List.filter_cons_of_pos,
        List.enumFrom_cons, List.map_cons]
      rw [ih]
      simp [vmapElement]
    · have hu' : u.available = false := by simpa using hu
      simp only [getVmapElementsLoop, hu', Bool.false_eq_true, if_false]
      rw [ih, List.filter_cons_of_neg (by simp [hu'])]

theorem getVmapElements_eq (o : ByteOrder) (t : target) :
    getVmapElements o t =
      (List.enumFrom 0 (availableUpstreams t)).map (fun p => vmapElement o p.1 p.2) := by
  unfold getVmapElements availableUpstreams
  rw [getVmapElementsLoop_eq]
  simp

theorem getVmapElements_length (o : ByteOrder) (t : target) :
    (getVmapElements o t).length = (availableUpstreams t).length := by
  rw [getVmapElements_eq]
  simp [List.enumFrom_length]

theorem getVmapElements_getElem? (o : ByteOrder) (t : target) (i : Nat) :
    (getVmapElements o t)[i]? = ((availableUpstreams t)[i]?).map (vmapElement o i) := by
  rw [getVmapElements_eq, List.getElem?_map, List.getElem?_enumFrom]
  cases (availableUpstreams t)[i]? <;> simp

theorem availableUpstreams_length (t : target) :
    (availableUpstreams t).length = t.upstreamGroup.upstreams.countP (fun u => u.available) := by
  unfold availableUpstreams
  rw [List.countP_eq_length_filter]

theorem PutUint16_injective (o : ByteOrder) (i j : Nat) (hi : i < 65536) (hj : j < 65536)
    (h : o.PutUint16 i = o.PutUint16 j) : i = j := by
  cases o <;> simp [ByteOrder.PutUint16] at h <;> omega

theorem getVmapElements_key_getElem? (o : ByteOrder) (t : target) (i : Nat)
    (hi : i < (availableUpstreams t).length) :
    ((getVmapElements o t).map (fun e => e.Key))[i]? = some (o.PutUint16 (i % 65536)) := by
  rw [List.getElem?_map, getVmapElements_getElem?, List.getElem?_eq_getElem hi]
  rfl

/-- C3: for a target with at most 65535 upstreams, `getVmapElements` has exactly
`numActiveUpstreams` elements, one per available upstream in group order; the element
at position `i` has the 16-bit encoding of `i` as key and a jump verdict to the chain
named after the `i`-th available upstream; every element comes from an available
upstream, and the keys are pairwise distinct. -/
theorem getVmapElements_spec (o : ByteOrder) (t : target)
    (hlen : t.upstreamGroup.upstreams.length ≤ 65535) :
    (getVmapElements o t).length = numActiveUpstreams t ∧
    (getVmapElements o t).length = (availableUpstreams t).length ∧
    (∀ (i : Nat) (u : upstream), (availableUpstreams t)[i]? = some u →
      (getVmapElements o t)[i]? =
        some (SetElement.mk (o.PutUint16 i) NFT_JUMP u.name)) ∧
    (∀ e ∈ getVmapElements o t,
      ∃ u ∈ t.upstreamGroup.upstreams, u.available = true ∧ e.VerdictChain = u.name) ∧
    ((getVmapElements o t).map (fun e => e.Key)).Nodup := by
  have hcount := availableUpstreams_length t
  have hle := List.countP_le_length (fun u : upstream => u.available)
    (l := t.upstreamGroup.upstreams)
  refine ⟨?_, getVmapElements_length o t, ?_, ?_, ?_⟩
  · rw [getVmapElements_length, numActiveUpstreams_eq_countP t hlen, hcount]
  · intro i u hu
    have hi : i < (availableUpstreams t).length := by
      rcases Nat.lt_or_ge i (availableUpstreams t).length with h | h
      · exact h
      · rw [List.getElem?_eq_none h] at hu
        cases hu
    rw [getVmapElements_getElem?, hu]
    have hmod : i % 65536 = i := Nat.mod_eq_of_lt (by omega)
    simp [vmapElement, hmod]
  · intro e he
    rw [getVmapElements_eq] at he
    obtain ⟨p, hp, rfl⟩ := List.mem_map.1 he
    have hmem : p.2 ∈ availableUpstreams t := by
      have := List.mem_map_of_mem Prod.snd hp
      rwa [List.enumFrom_map_snd] at this
    unfold availableUpstreams at hmem
    obtain ⟨h1, h2⟩ := List.mem_filter.1 hmem
    exact ⟨p.2, h1, h2, rfl⟩
  · rw [List.nodup_iff_getElem?_ne_getElem?]
    intro i j hij hj
    have hj' : j < (availableUpstreams t).length := by
      rw [List.length_map, getVmapElements_length] at hj
      exact hj
    rw [getVmapElements_key_getElem? o t i (by omega),
      getVmapElements_key_getElem? o t j hj']
    intro h
    have := PutUint16_injective o _ _ (Nat.mod_lt i (by decide)) (Nat.mod_lt j (by decide))
      (Option.some.inj h)
    omega

/-- Witness of C3: with upstreams a (down) and b (up), the verdict map is the single
element keyed 0 that jumps to chain b. -/
theorem getVmapElements_spec_witness :
    (getVmapElements ByteOrder.littleEndian (sampleTarget sampleHalfUp ugFoModeInactive)).length
      = numActiveUpstreams (sampleTarget sampleHalfUp ugFoModeInactive) ∧
    (getVmapElements ByteOrder.littleEndian (sampleTarget sampleHalfUp ugFoModeInactive))[0]?
      = some (SetElement.mk [0, 0] NFT_JUMP "b") :=
  have h := getVmapElements_spec ByteOrder.littleEndian
    (sampleTarget sampleHalfUp ugFoModeInactive) (by decide)
  ⟨h.1, h.2.2.1 0 (sampleUpstream "b" ip2 true) rfl⟩

/-! ## The rule of the failover chain -/

theorem availableUpstreams_failoverStep (t : target) :
    availableUpstreams { t with upstreamGroup := failoverStep t } = availableUpstreams t := by
  unfold availableUpstreams
  dsimp only
  rw [failoverStep_upstreams]

/-- C4: for a target with at most 65535 upstreams, the rule `updateTarget` puts in the
new failover chain is `reject` exactly when no upstream is available; otherwise it is
the incremental `numgen` with offset 0 followed by the lookup in the verdict map of
the same name, its modulus is the number of available upstreams, that number is the
size of the verdict map built in the same call and is not 0, and every index below the
modulus is the key of an element of that map. -/
theorem updateTarget_chain_rule (o : ByteOrder) (k : netlink) (t : target)
    (hconn : k.newOk = true)
    (hlen : t.upstreamGroup.upstreams.length ≤ 65535) :
    ∃ b, (updateTarget o k t).2.1 = some b ∧
      (b.ugChainRule = [Expr.Reject] ↔ (availableUpstreams t).length = 0) ∧
      ((availableUpstreams t).length ≠ 0 →
        b.ugChainRule =
          [Expr.Numgen 1 NFT_NG_INCREMENTAL (availableUpstreams t).length 0,
           Expr.Lookup 1 0 b.ugName true] ∧
        b.vmapElements.length = (availableUpstreams t).length ∧
        b.vmapElements.length ≠ 0 ∧
        ∀ i, i < (availableUpstreams t).length →
          ∃ e ∈ b.vmapElements, e.Key = o.PutUint16 i) := by
  have hcount := availableUpstreams_length t
  have hle := List.countP_le_length (fun u : upstream => u.available)
    (l := t.upstreamGroup.upstreams)
  have hn := numActiveUpstreams_eq_countP t hlen
  have hvl : (getVmapElements o { t with upstreamGroup := failoverStep t }).length
      = (availableUpstreams t).length := by
    rw [getVmapElements_length, availableUpstreams_failoverStep]
  refine ⟨_, updateTarget_batch o k t hconn, ?_, ?_⟩
  · dsimp only
    unfold ugChainRuleExprs
    rw [hn, ← hcount]
    by_cases h0 : (availableUpstreams t).length = 0
    · simp [h0]
    · simp [h0]
  · intro h0
    dsimp only
    refine ⟨?_, hvl, by omega, ?_⟩
    · unfold ugChainRuleExprs
      rw [hn, ← hcount, if_neg h0, hvl]
      have hmod : (availableUpstreams t).length % 4294967296 = (availableUpstreams t).length :=
        Nat.mod_eq_of_lt (by omega)
      rw [hmod]
    · intro i hi
      have hmod : i % 65536 = i := Nat.mod_eq_of_lt (by omega)
      have hget := getVmapElements_getElem? o { t with upstreamGroup := failoverStep t } i
      rw [availableUpstreams_failoverStep, List.getElem?_eq_getElem hi] at hget
      refine ⟨_, List.getElem?_mem hget, ?_⟩
      simp [vmapElement, hmod]

/-- Witness of C4: with one of two upstreams available the chain rule is the numgen of
modulus 1 over the map `ug-2`. -/
theorem updateTarget_chain_rule_witness :
    ∃ b, (updateTarget ByteOrder.littleEndian ⟨true, true⟩
        (sampleTarget sampleHalfUp ugFoModeInactive)).2.1 = some b ∧
      (b.ugChainRule = [Expr.Reject] ↔
        (availableUpstreams (sampleTarget sampleHalfUp ugFoModeInactive)).length = 0) :=
  have h := updateTarget_chain_rule ByteOrder.littleEndian ⟨true, true⟩
    (sampleTarget sampleHalfUp ugFoModeInactive) rfl (by decide)
  h.elim fun b hb => ⟨b, hb.1, hb.2.1⟩

/-! ## Address equality -/

theorem v4InV6Prefix_length : v4InV6Prefix.length = 12 := rfl

theorem prefix_append_eq_iff (a b : List Nat) (hb : b.length = 16) :
    v4InV6Prefix ++ a = b ↔ b.take 12 = v4InV6Prefix ∧ a = b.drop 12 := by
  constructor
  · intro h
    subst h
    constructor
    · rw [List.take_left' v4InV6Prefix_length]
    · rw [List.drop_left' v4InV6Prefix_length]
  · rintro ⟨h1, h2⟩
    rw [← h1, h2, List.take_append_drop]

theorem IP.Equal_iff_canon (a b : IP) : IP.Equal a b = true ↔ IP.canon a = IP.canon b := by
  unfold IP.Equal IP.canon
  dsimp only
  by_cases hlen : (IP.bytes a).length = (IP.bytes b).length
  · rw [if_pos hlen]
    by_cases h4 : (IP.bytes a).length = 4
    · have h4b : (IP.bytes b).length = 4 := by omega
      simp [h4, h4b]
    · have h4b : ¬ (IP.bytes b).length = 4 := by omega
      simp [h4, h4b]
  · rw [if_neg hlen]
    by_cases h4 : (IP.bytes a).length = 4
    · have h4b : ¬ (IP.bytes b).length = 4 := by omega
      rw [if_pos h4, if_neg h4b]
      by_cases h16 : (IP.bytes b).length = 16
      · rw [if_pos ⟨h4, h16⟩, prefix_append_eq_iff _ _ h16]
        simp
      · rw [if_neg (by tauto), if_neg (by omega)]
        constructor
        · intro h
          cases h
        · intro h
          have := congrArg List.length h
          simp [v4InV6Prefix_length] at this
          omega
    · rw [if_neg (by tauto), if_neg h4]
      by_cases h4b : (IP.bytes b).length = 4
      · rw [if_pos h4b]
        by_cases h16 : (IP.bytes a).length = 16
        · have hp := prefix_append_eq_iff (IP.bytes b) (IP.bytes a) h16
          rw [if_pos ⟨h16, h4b⟩]
          simp only [Bool.and_eq_true, decide_eq_true_eq]
          constructor
          · rintro ⟨h1, h2⟩
            exact (hp.2 ⟨h1, h2.symm⟩).symm
          · intro h
            obtain ⟨h1, h2⟩ := hp.1 h.symm
            exact ⟨h1, h2.symm⟩
        · rw [if_neg (by tauto)]
          constructor
          · intro h
            cases h
          · intro h
            have := congrArg List.length h
            simp [v4InV6Prefix_length] at this
            omega
      · rw [if_neg (by tauto), if_neg h4b]
        constructor
        · intro h
          cases h
        · intro h
          exact absurd (congrArg List.length h) hlen

/-! ## The ledger -/

theorem replaceUpstreamIpsLoop_some (oip nip : IP) (led : List IP)
    (h : ∃ ip ∈ led, IP.Equal ip oip = true) :
    ∃ P ip S, led = P ++ ip :: S ∧ IP.Equal ip oip = true ∧
      (∀ p ∈ P, IP.Equal p oip = false) ∧
      replaceUpstreamIpsLoop oip nip led = some (P ++ nip :: S) := by
  induction led with
  | nil =>
    obtain ⟨ip, hip, _⟩ := h
    cases hip
  | cons a rest ih =>
    by_cases ha : IP.Equal a oip = true
    · refine ⟨[], a, rest, rfl, ha, ?_, ?_⟩
      · intro p hp
        cases hp
      · simp [replaceUpstreamIpsLoop, ha]
    · have ha' : IP.Equal a oip = false := by simpa using ha
      have hrest : ∃ ip ∈ rest, IP.Equal ip oip = true := by
        obtain ⟨ip, hip, heq⟩ := h
        rcases List.mem_cons.1 hip with rfl | hmem
        · exact absurd heq ha
        · exact ⟨ip, hmem, heq⟩
      obtain ⟨P, ip, S, hsplit, heq, hP, hloop⟩ := ih hrest
      refine ⟨a :: P, ip, S, by rw [hsplit]; rfl, heq, ?_, ?_⟩
      · intro p hp
        rcases List.mem_cons.1 hp with rfl | hmem
        · exact ha'
        · exact hP p hmem
      · simp [replaceUpstreamIpsLoop, ha', hloop]

theorem replaceUpstreamIpsLoop_none (oip nip : IP) (led : List IP)
    (h : ∀ ip ∈ led, IP.Equal ip oip = false) :
    replaceUpstreamIpsLoop oip nip led = none := by
  induction led with
  | nil => rfl
  | cons a rest ih =>
    have ha := h a (List.mem_cons_self _ _)
    have hrest := ih (fun ip hip => h ip (List.mem_cons_of_mem _ hip))
    simp [replaceUpstreamIpsLoop, ha, hrest]

theorem list_split_at {α : Type} (l : List α) (i : Nat) (a : α) (h : l[i]? = some a) :
    l = l.take i ++ a :: l.drop (i + 1) ∧
      ∀ b, l.set i b = l.take i ++ b :: l.drop (i + 1) := by
  obtain ⟨hi, hget⟩ := List.getElem?_eq_some.1 h
  constructor
  · rw [← hget, List.getElem_cons_drop, List.take_append_drop]
  · intro b
    rw [List.set_eq_take_append_cons_drop, if_pos hi]

theorem upstreamAddresses_append (a b : List upstream) :
    upstreamAddresses (a ++ b) = upstreamAddresses a ++ upstreamAddresses b := by
  simp [upstreamAddresses]

theorem upstreamAddresses_cons (u : upstream) (b : List upstream) :
    upstreamAddresses (u :: b) =
      (if u.address ≠ none then [u.address] else []) ++ upstreamAddresses b := by
  by_cases h : u.address = none <;> simp [upstreamAddresses, List.filter_cons, h]

theorem lb_addresses_eq (l : lb) : l.addresses = upstreamAddresses l.allUpstreams := rfl

theorem allUpstreams_split (l : lb) (ti ui : Nat) (u : upstream)
    (h : l.getUpstream ti ui = some u) :
    ∃ A B, l.allUpstreams = A ++ u :: B ∧
      ∀ u1, (l.setUpstream ti ui u1).allUpstreams = A ++ u1 :: B ∧
        (l.setUpstream ti ui u1).upstreamIps = l.upstreamIps ∧
        (l.setUpstream ti ui u1).getUpstream ti ui = some u1 := by
  unfold lb.getUpstream at h
  cases ht : l.targets[ti]? with
  | none => simp [ht] at h
  | some t =>
    rw [ht] at h
    simp only [Option.some_bind] at h
    obtain ⟨hT, hTset⟩ := list_split_at l.targets ti t ht
    obtain ⟨hU, hUset⟩ := list_split_at t.upstreamGroup.upstreams ui u h
    obtain ⟨hui, -⟩ := List.getElem?_eq_some.1 h
    obtain ⟨hti, -⟩ := List.getElem?_eq_some.1 ht
    refine ⟨(l.targets.take ti).flatMap (fun t => t.upstreamGroup.upstreams)
        ++ t.upstreamGroup.upstreams.take ui,
      t.upstreamGroup.upstreams.drop (ui + 1)
        ++ (l.targets.drop (ti + 1)).flatMap (fun t => t.upstreamGroup.upstreams), ?_, ?_⟩
    · unfold lb.allUpstreams
      conv_lhs => rw [hT]
      rw [List.flatMap_append, List.flatMap_cons]
      conv_lhs => rw [hU]
      simp [List.append_assoc]
    · intro u1
      unfold lb.setUpstream lb.allUpstreams lb.getUpstream
      rw [ht]
      dsimp only
      refine ⟨?_, rfl, ?_⟩
      · rw [hTset, List.flatMap_append, List.flatMap_cons]
        dsimp only
        rw [hUset]
        simp [List.append_assoc]
      · rw [List.getElem?_set_self hti]
        simp only [Option.some_bind]
        rw [List.getElem?_set_self hui]

theorem getConfigUpstreams_eq (x : Externals) (lbp : lbProto) (us : List UpstreamsConfig)
    (l : lb) (acc : List upstream) :
    (getConfigUpstreams x lbp us l acc).2 = acc ++ us.map (getConfigUpstream x lbp) ∧
    (getConfigUpstreams x lbp us l acc).1.upstreamIps =
      l.upstreamIps ++ upstreamAddresses (us.map (getConfigUpstream x lbp)) ∧
    (getConfigUpstreams x lbp us l acc).1.targets = l.targets := by
  induction us generalizing l acc with
  | nil => simp [getConfigUpstreams, upstreamAddresses]
  | cons u us ih =>
    obtain ⟨h1, h2, h3⟩ := ih (l.addUpstreamIps (getConfigUpstream x lbp u).address)
      (acc ++ [getConfigUpstream x lbp u])
    simp only [getConfigUpstreams, List.map_cons]
    refine ⟨by rw [h1]; simp, ?_, ?_⟩
    · rw [h2, upstreamAddresses_cons]
      unfold lb.addUpstreamIps
      by_cases hnil : (getConfigUpstream x lbp u).address = none <;> simp [hnil]
    · rw [h3]
      unfold lb.addUpstreamIps
      split_ifs <;> rfl

theorem getConfigTargets_ledger (x : Externals) (ts : List TargetsConfig) (l : lb) :
    ∃ newUps, (getConfigTargets x ts l).1.upstreamIps = l.upstreamIps ++ upstreamAddresses newUps ∧
      (getConfigTargets x ts l).1.allUpstreams = l.allUpstreams ++ newUps := by
  induction ts generalizing l with
  | nil => exact ⟨[], by simp [getConfigTargets, upstreamAddresses]⟩
  | cons t ts ih =>
    unfold getConfigTargets
    cases hdm : getDistMode t.UpstreamGroup.Distribution with
    | mk dMode err =>
      cases err with
      | some e => exact ⟨[], by simp [upstreamAddresses]⟩
      | none =>
        dsimp only
        obtain ⟨h1, h2, h3⟩ := getConfigUpstreams_eq x (getLbProtocol t.Protocol).1
          t.UpstreamGroup.Upstreams l []
        obtain ⟨newUps, hn1, hn2⟩ := ih
          { (getConfigUpstreams x (getLbProtocol t.Protocol).1 t.UpstreamGroup.Upstreams l []).1 with
            targets :=
              (getConfigUpstreams x (getLbProtocol t.Protocol).1
                t.UpstreamGroup.Upstreams l []).1.targets ++
              [{ name := t.Name
                 protocol := (getLbProtocol t.Protocol).1
                 ip := t.Ip
                 port := t.Port
                 upstreamGroup :=
                   { name := t.UpstreamGroup.Name
                     distMode := dMode
                     upstreams := (getConfigUpstreams x (getLbProtocol t.Protocol).1
                       t.UpstreamGroup.Upstreams l []).2
                     failoverMode := ugFoModeInactive
                     previousFailoverMode := ugFoModeUnknown }
                 nftRuleInit := false }] }
        refine ⟨t.UpstreamGroup.Upstreams.map (getConfigUpstream x (getLbProtocol t.Protocol).1)
          ++ newUps, ?_, ?_⟩
        · rw [hn1]
          dsimp only
          rw [h2, upstreamAddresses_append, List.append_assoc]
        · rw [hn2]
          unfold lb.allUpstreams
          dsimp only
          rw [h3, h1, List.flatMap_append]
          simp

theorem getConfig_ledger (x : Externals) (lbc : LbConfig) (l : lb) :
    ∃ newUps, (l.getConfig x lbc).1.upstreamIps = l.upstreamIps ++ upstreamAddresses newUps ∧
      (l.getConfig x lbc).1.allUpstreams = l.allUpstreams ++ newUps := by
  unfold lb.getConfig
  cases het : getLbEngineType lbc.Engine with
  | mk et err =>
    cases err with
    | some e => exact ⟨[], by simp [upstreamAddresses]⟩
    | none => exact getConfigTargets_ledger x lbc.TargetsConfig { l with et := et }

theorem updateUpstream_fst (l : lb) (ti ui : Nat) (u : upstream) (nua : IP)
    (engine : upstream → List IP → Option Error) (hu : l.getUpstream ti ui = some u) :
    (l.updateUpstream ti ui nua engine).1 =
      if u.address ≠ none then
        match (l.setUpstream ti ui { u with address := nua }).replaceUpstreamIps u.address nua with
        | (l', none) => l'
        | (l', some _) => l'.addUpstreamIps nua
      else (l.setUpstream ti ui { u with address := nua }).addUpstreamIps nua := by
  unfold lb.updateUpstream
  rw [hu]
  dsimp only
  split <;> rfl

theorem perm_replace_middle {α : Type} (P S A B : List α) (co cn : α)
    (h : (P ++ co :: S).Perm (A ++ co :: B)) : (P ++ cn :: S).Perm (A ++ cn :: B) := by
  have h1 : (co :: (P ++ S)).Perm (co :: (A ++ B)) :=
    (List.perm_middle.symm.trans h).trans List.perm_middle
  have h2 : (P ++ S).Perm (A ++ B) := h1.cons_inv
  exact (List.perm_middle.trans (h2.cons cn)).trans List.perm_middle.symm

theorem perm_append_middle {α : Type} (L A B : List α) (cn : α)
    (h : L.Perm (A ++ B)) : (L ++ [cn]).Perm (A ++ cn :: B) := by
  have h1 : (L ++ [cn]).Perm (cn :: L) := List.perm_append_singleton cn L
  exact (h1.trans (h.cons cn)).trans List.perm_middle.symm

theorem updateUpstream_ledger (l : lb) (ti ui : Nat) (u : upstream) (nua : IP)
    (engine : upstream → List IP → Option Error)
    (hinv : l.ledgerInvariant) (hu : l.getUpstream ti ui = some u) (hnua : nua ≠ none) :
    ((l.updateUpstream ti ui nua engine).1).ledgerInvariant ∧
    ((l.updateUpstream ti ui nua engine).1).getUpstream ti ui = some { u with address := nua } ∧
    (u.address ≠ none →
      ∃ P ip S, l.upstreamIps = P ++ ip :: S ∧ IP.Equal ip u.address = true ∧
        (∀ p ∈ P, IP.Equal p u.address = false) ∧
        ((l.updateUpstream ti ui nua engine).1).upstreamIps = P ++ nua :: S) ∧
    (u.address = none →
      ((l.updateUpstream ti ui nua engine).1).upstreamIps = l.upstreamIps ++ [nua]) := by
  obtain ⟨A, B, hall, hset⟩ := allUpstreams_split l ti ui u hu
  obtain ⟨hall1, hled1, hget1⟩ := hset { u with address := nua }
  unfold lb.ledgerInvariant at hinv ⊢
  rw [lb_addresses_eq, hall, upstreamAddresses_append, upstreamAddresses_cons] at hinv
  rw [updateUpstream_fst l ti ui u nua engine hu]
  have hnew : upstreamAddresses (A ++ { u with address := nua } :: B)
      = upstreamAddresses A ++ nua :: upstreamAddresses B := by
    rw [upstreamAddresses_append, upstreamAddresses_cons]
    simp [hnua]
  by_cases hoa : u.address = none
  · have hl2 : (l.setUpstream ti ui { u with address := nua }).addUpstreamIps nua =
        { l.setUpstream ti ui { u with address := nua } with
          upstreamIps := l.upstreamIps ++ [nua] } := by
      unfold lb.addUpstreamIps
      rw [if_neg hnua, hled1]
    rw [if_neg (by simpa using hoa), hl2]
    refine ⟨?_, hget1, fun h => absurd hoa h, fun _ => rfl⟩
    rw [lb_addresses_eq]
    show (List.map IP.canon (l.upstreamIps ++ [nua])).Perm
      (List.map IP.canon (upstreamAddresses
        (l.setUpstream ti ui { u with address := nua }).allUpstreams))
    rw [hall1, hnew]
    simp only [hoa, ne_eq, not_true_eq_false, if_false, List.nil_append] at hinv
    simp only [List.map_append, List.map_cons, List.map_nil] at hinv ⊢
    exact perm_append_middle _ _ _ _ hinv
  · rw [if_pos hoa]
    simp only [ne_eq, hoa, not_false_eq_true, if_true, List.singleton_append,
      List.map_append, List.map_cons] at hinv
    have hmem : IP.canon u.address ∈ List.map IP.canon l.upstreamIps :=
      hinv.mem_iff.2 (by simp)
    obtain ⟨ip0, hip0, hc0⟩ := List.mem_map.1 hmem
    obtain ⟨P, ip, S, hsplit, heq, hP, hloop⟩ :=
      replaceUpstreamIpsLoop_some u.address nua l.upstreamIps
        ⟨ip0, hip0, (IP.Equal_iff_canon _ _).2 hc0⟩
    have hl2 : (l.setUpstream ti ui { u with address := nua }).replaceUpstreamIps u.address nua
        = ({ l.setUpstream ti ui { u with address := nua } with
            upstreamIps := P ++ nua :: S }, none) := by
      unfold lb.replaceUpstreamIps
      rw [hled1, hloop]
    rw [hl2]
    dsimp only
    refine ⟨?_, hget1, fun _ => ⟨P, ip, S, hsplit, heq, hP, rfl⟩, fun h => absurd h hoa⟩
    rw [lb_addresses_eq]
    show (List.map IP.canon (P ++ nua :: S)).Perm
      (List.map IP.canon (upstreamAddresses
        (l.setUpstream ti ui { u with address := nua }).allUpstreams))
    rw [hall1, hnew]
    rw [hsplit] at hinv
    simp only [List.map_append, List.map_cons] at hinv ⊢
    rw [(IP.Equal_iff_canon _ _).1 heq] at hinv
    exact perm_replace_middle _ _ _ _ _ _ hinv

theorem getConfig_ledgerInvariant (x : Externals) (lbc : LbConfig) (l : lb)
    (hinv : l.ledgerInvariant) : ((l.getConfig x lbc).1).ledgerInvariant := by
  obtain ⟨newUps, h1, h2⟩ := getConfig_ledger x lbc l
  unfold lb.ledgerInvariant at hinv ⊢
  rw [lb_addresses_eq] at hinv ⊢
  rw [h1, h2, upstreamAddresses_append, List.map_append, List.map_append]
  exact hinv.append_right _

/-- C5: the ledger reference count. Read as multisets of addresses, the upstream-IP
ledger of an instance equals the non-absent addresses of its upstreams: this holds for
the instance `getConfig` builds from a fresh one, `getConfig` preserves it, and every
`lb.updateUpstream` of an upstream of the instance to a non-absent new address
preserves it whatever the engine answers. The upstream gets the new address; when its
old address was present the first ledger entry equal to it is replaced in place, and
when it had no address the new one is appended. -/
theorem ledger_reference_count (x : Externals) (lbc : LbConfig) (l : lb) (ti ui : Nat)
    (u : upstream) (nua : IP) (engine : upstream → List IP → Option Error)
    (hinv : l.ledgerInvariant) (hu : l.getUpstream ti ui = some u) (hnua : nua ≠ none) :
    ((lb.fresh.getConfig x lbc).1).ledgerInvariant ∧
    ((l.getConfig x lbc).1).ledgerInvariant ∧
    ((l.updateUpstream ti ui nua engine).1).ledgerInvariant ∧
    ((l.updateUpstream ti ui nua engine).1).getUpstream ti ui = some { u with address := nua } ∧
    (u.address ≠ none →
      ∃ P ip S, l.upstreamIps = P ++ ip :: S ∧ IP.Equal ip u.address = true ∧
        (∀ p ∈ P, IP.Equal p u.address = false) ∧
        ((l.updateUpstream ti ui nua engine).1).upstreamIps = P ++ nua :: S) ∧
    (u.address = none →
      ((l.updateUpstream ti ui nua engine).1).upstreamIps = l.upstreamIps ++ [nua]) := by
  have hfresh : lb.fresh.ledgerInvariant := by
    unfold lb.ledgerInvariant
    exact List.Perm.refl _
  exact ⟨getConfig_ledgerInvariant x lbc lb.fresh hfresh,
    getConfig_ledgerInvariant x lbc l hinv,
    updateUpstream_ledger l ti ui u nua engine hinv hu hnua⟩

/-- Witness of C5: in the sample instance upstream a moves from 10.0.0.1 to 10.0.0.2
while the engine call fails; the invariant still holds. -/
theorem ledger_reference_count_witness :
    ((sampleLb.updateUpstream 0 0 ip2 (fun _ _ => some [Sentinel.external])).1).ledgerInvariant :=
  (ledger_reference_count
    { ParseIP := fun _ => none, fqdnMatch := fun _ => false,
      resolver := fun _ _ => (none, 0, none), defaultDnsTtl := 25 }
    { Engine := "testEngine", TargetsConfig := [] }
    sampleLb 0 0 (sampleUpstream "a" ip1 true) ip2 (fun _ _ => some [Sentinel.external])
    (by decide) rfl (by decide)).2.2.1

/-! ## Masquerade clean up -/

/-- C6 at its failing inputs: when the chain holds two masquerade rules for 10.0.0.1
and the list passed is [10.0.0.1], `cleanMasquerade` deletes nothing and both rules
remain; when the list passed holds 10.0.0.1 twice, the only rule for it is deleted.
The duplicates are looked for in the list passed, not among the rules. -/
theorem cleanMasquerade_duplicates (str : IP → String) :
    cleanMasquerade str ⟨true, true⟩ [⟨1, ip1⟩, ⟨2, ip1⟩] [ip1]
      = ([⟨1, ip1⟩, ⟨2, ip1⟩], none) ∧
    cleanMasquerade str ⟨true, true⟩ [⟨1, ip1⟩] [ip1, ip1] = ([], none) := by
  constructor
  · have h1 : IP.Equal ip1 ip1 = true := by decide
    simp [cleanMasquerade, cleanMasqueradeFunc, delUnnecessaryLoop, delDuplicateLoop,
      findDuplicateNetIp, findDuplicateNetIpLoop, applyDelRules, h1]
  · have h1 : IP.Equal ip1 ip1 = true := by decide
    simp [cleanMasquerade, cleanMasqueradeFunc, delUnnecessaryLoop, delDuplicateLoop,
      findDuplicateNetIp, findDuplicateNetIpLoop, applyDelRules, h1]

/-! ## Health check -/

/-- C8 at its failing inputs: on a tick for an upstream whose address is absent the
probe is not skipped, `net.DialTimeout` is called with the empty address. When the
upstream is marked available and the call fails (as it does for an empty address) the
counter is reset, the upstream is made unavailable and `engine.updateTarget` is
called; when the upstream is unavailable with counter 0 the same call is made and its
failure leaves the state as it was. -/
theorem healthCheckTick_absent_address (str : IP → String)
    (dial : String → String → Nat → Bool) :
    healthCheckTick str dial false (sampleChecked none true 2) =
      (if dial "tcp" "" 2 = false then
        (sampleChecked none false 0, [hcEvent.dial "tcp" "" 2, hcEvent.updateTarget])
      else (sampleChecked none true 2, [hcEvent.dial "tcp" "" 2])) ∧
    healthCheckTick str dial false (sampleChecked none false 0) =
      (if dial "tcp" "" 2 = false then
        (sampleChecked none false 0, [hcEvent.dial "tcp" "" 2])
      else (sampleChecked none false 1, [hcEvent.dial "tcp" "" 2])) := by
  by_cases h : dial "tcp" "" 2 = false
  · simp [healthCheckTick, sampleChecked, hcProto.String, hcProtoTcp, h]
  · simp [healthCheckTick, sampleChecked, hcProto.String, hcProtoTcp, h]

theorem healthCheckTick_failure (str : IP → String) (v : upstream) :
    (healthCheckTick str (fun _ _ _ => false) false v).1.healthCheck.count = 0 ∧
    (healthCheckTick str (fun _ _ _ => false) false v).1.available = false ∧
    updateTargetCalls (healthCheckTick str (fun _ _ _ => false) false v).2
      = (if v.available then 1 else 0) := by
  by_cases hv : v.available = true
  · simp [healthCheckTick, updateTargetCalls, hv]
  · have hv' : v.available = false := by simpa using hv
    simp [healthCheckTick, updateTargetCalls, hv']

theorem healthCheckTick_success_available (str : IP → String) (v : upstream)
    (hv : v.available = true) :
    (healthCheckTick str (fun _ _ _ => true) false v).1 = v ∧
    updateTargetCalls (healthCheckTick str (fun _ _ _ => true) false v).2 = 0 := by
  simp [healthCheckTick, updateTargetCalls, hv]

theorem healthCheckTick_success_unavailable (str : IP → String) (v : upstream)
    (hv : v.available = false) :
    (healthCheckTick str (fun _ _ _ => true) false v).1.healthCheck.count
      = (v.healthCheck.count + 1) % 256 ∧
    (healthCheckTick str (fun _ _ _ => true) false v).1.healthCheck.countConfig
      = v.healthCheck.countConfig ∧
    ((healthCheckTick str (fun _ _ _ => true) false v).1.available = true ↔
      v.healthCheck.countConfig ≤ (v.healthCheck.count + 1) % 256) ∧
    updateTargetCalls (healthCheckTick str (fun _ _ _ => true) false v).2
      = (if v.healthCheck.countConfig ≤ (v.healthCheck.count + 1) % 256 then 1 else 0) := by
  by_cases hc : v.healthCheck.countConfig ≤ (v.healthCheck.count + 1) % 256
  · simp [healthCheckTick, updateTargetCalls, hv, hc]
  · simp [healthCheckTick, updateTargetCalls, hv, hc]

theorem healthCheckRun_available (str : IP → String) (k : Nat) (v : upstream)
    (hv : v.available = true) :
    (healthCheckRun str (List.replicate k true) v).1 = v ∧
    updateTargetCalls (healthCheckRun str (List.replicate k true) v).2 = 0 := by
  induction k with
  | zero => simp [healthCheckRun, updateTargetCalls]
  | succ k ih =>
    obtain ⟨h1, h2⟩ := healthCheckTick_success_available str v hv
    simp only [List.replicate_succ, healthCheckRun]
    rw [h1]
    refine ⟨ih.1, ?_⟩
    unfold updateTargetCalls at h2 ih ⊢
    rw [List.count_append, h2, ih.2]

theorem healthCheckRun_unavailable (str : IP → String) (k : Nat) (v : upstream)
    (hv : v.available = false)
    (hlt : v.healthCheck.count < v.healthCheck.countConfig)
    (h256 : v.healthCheck.countConfig < 256) :
    ((healthCheckRun str (List.replicate k true) v).1.available = true ↔
      v.healthCheck.countConfig ≤ v.healthCheck.count + k) ∧
    (healthCheckRun str (List.replicate k true) v).1.healthCheck.count
      = min (v.healthCheck.count + k) v.healthCheck.countConfig ∧
    updateTargetCalls (healthCheckRun str (List.replicate k true) v).2
      = (if v.healthCheck.countConfig ≤ v.healthCheck.count + k then 1 else 0) := by
  induction k generalizing v with
  | zero =>
    have hmin : min v.healthCheck.count v.healthCheck.countConfig = v.healthCheck.count :=
      Nat.min_eq_left (Nat.le_of_lt hlt)
    have hnle : ¬ v.healthCheck.countConfig ≤ v.healthCheck.count := by omega
    simp [healthCheckRun, updateTargetCalls, hv, hmin, hnle]
  | succ k ih =>
    obtain ⟨hcnt, hcfg, hav, hcalls⟩ := healthCheckTick_success_unavailable str v hv
    have hmod : (v.healthCheck.count + 1) % 256 = v.healthCheck.count + 1 :=
      Nat.mod_eq_of_lt (by omega)
    rw [hmod] at hcnt hav hcalls
    simp only [List.replicate_succ, healthCheckRun]
    by_cases hreach : v.healthCheck.countConfig ≤ v.healthCheck.count + 1
    · have hav1 := hav.2 hreach
      obtain ⟨h1, h2⟩ := healthCheckRun_available str k _ hav1
      rw [h1]
      unfold updateTargetCalls at h2 hcalls ⊢
      rw [List.count_append, h2, hcalls, hcnt, if_pos hreach, if_pos (by omega)]
      refine ⟨?_, ?_, rfl⟩
      · simp only [hav1, true_iff]
        omega
      · omega
    · have hav0 : (healthCheckTick str (fun _ _ _ => true) false v).1.available = false := by
        cases hb : (healthCheckTick str (fun _ _ _ => true) false v).1.available with
        | false => rfl
        | true => exact absurd (hav.1 hb) hreach
      obtain ⟨i1, i2, i3⟩ := ih _ hav0 (by rw [hcnt, hcfg]; omega) (by rw [hcfg]; exact h256)
      rw [hcnt, hcfg] at i1 i2 i3
      unfold updateTargetCalls at i3 hcalls ⊢
      rw [List.count_append, hcalls, i3, if_neg hreach]
      have e1 : v.healthCheck.count + 1 + k = v.healthCheck.count + (k + 1) := by omega
      rw [e1] at i1 i2 i3
      refine ⟨i1, i2, ?_⟩
      rw [e1]
      simp

/-- C7: the availability step of the health check. After a failed probe the counter
is 0, the upstream is unavailable and `engine.updateTarget` was called once if the
upstream was available and not at all otherwise. A successful probe of an available
upstream changes nothing and calls nothing. A successful probe of an unavailable
upstream increments the 8-bit counter and makes the upstream available, with one
`engine.updateTarget` call, exactly when the counter has reached `countConfig`. Hence
from (unavailable, counter 0) with `countConfig` between 1 and 255, after `k`
consecutive successes the upstream is available iff `k` is at least `countConfig`,
`engine.updateTarget` was called once iff so, and the counter is the smaller of `k`
and `countConfig`: it never wraps. -/
theorem healthCheck_availability_step (str : IP → String) (u : upstream) (k : Nat)
    (hu : u.available = false) (hcount : u.healthCheck.count = 0)
    (hcc : 1 ≤ u.healthCheck.countConfig) (h256 : u.healthCheck.countConfig < 256) :
    (∀ v : upstream,
      (healthCheckTick str (fun _ _ _ => false) false v).1.healthCheck.count = 0 ∧
      (healthCheckTick str (fun _ _ _ => false) false v).1.available = false ∧
      updateTargetCalls (healthCheckTick str (fun _ _ _ => false) false v).2
        = (if v.available then 1 else 0)) ∧
    (∀ v : upstream, v.available = true →
      (healthCheckTick str (fun _ _ _ => true) false v).1 = v ∧
      updateTargetCalls (healthCheckTick str (fun _ _ _ => true) false v).2 = 0) ∧
    (∀ v : upstream, v.available = false →
      (healthCheckTick str (fun _ _ _ => true) false v).1.healthCheck.count
        = (v.healthCheck.count + 1) % 256 ∧
      ((healthCheckTick str (fun _ _ _ => true) false v).1.available = true ↔
        v.healthCheck.countConfig ≤ (v.healthCheck.count + 1) % 256) ∧
      updateTargetCalls (healthCheckTick str (fun _ _ _ => true) false v).2
        = (if v.healthCheck.countConfig ≤ (v.healthCheck.count + 1) % 256 then 1 else 0)) ∧
    ((healthCheckRun str (List.replicate k true) u).1.available = true ↔
      u.healthCheck.countConfig ≤ k) ∧
    (healthCheckRun str (List.replicate k true) u).1.healthCheck.count
      = min k u.healthCheck.countConfig ∧
    updateTargetCalls (healthCheckRun str (List.replicate k true) u).2
      = (if u.healthCheck.countConfig ≤ k then 1 else 0) := by
  have hrun := healthCheckRun_unavailable str k u hu (by omega) h256
  rw [hcount, Nat.zero_add] at hrun
  refine ⟨healthCheckTick_failure str, healthCheckTick_success_available str, ?_, hrun⟩
  intro v hv
  obtain ⟨h1, -, h3, h4⟩ := healthCheckTick_success_unavailable str v hv
  exact ⟨h1, h3, h4⟩

/-- Witness of C7: with three successes required, an unavailable upstream with
counter 0 is still unavailable after two consecutive successes and available after
three. -/
theorem healthCheck_availability_step_witness :
    ¬ ((healthCheckRun (fun _ => "") (List.replicate 2 true)
        (sampleChecked ip1 false 0)).1.available = true) ∧
    (healthCheckRun (fun _ => "") (List.replicate 3 true)
        (sampleChecked ip1 false 0)).1.available = true :=
  ⟨fun h => absurd
      ((healthCheck_availability_step (fun _ => "") (sampleChecked ip1 false 0) 2
        rfl rfl (by decide) (by decide)).2.2.2.1.1 h) (by decide),
    (healthCheck_availability_step (fun _ => "") (sampleChecked ip1 false 0) 3
      rfl rfl (by decide) (by decide)).2.2.2.1.2 (by decide)⟩

/-! ## Priorities at engine cutover -/

theorem incrInt32_ne (p : Int) : incrInt32 p ≠ p := by
  unfold incrInt32
  omega

theorem togglePrio_ne (default p : Int) (hp : p = default ∨ p = incrInt32 default) :
    togglePrio default p ≠ p := by
  unfold togglePrio
  rcases hp with rfl | rfl
  · rw [if_pos rfl]
    exact incrInt32_ne _
  · rw [if_neg (incrInt32_ne _)]
    exact (incrInt32_ne _).symm

theorem togglePrio_twice (default p : Int) (hp : p = default ∨ p = incrInt32 default) :
    togglePrio default (togglePrio default p) = p := by
  unfold togglePrio
  rcases hp with rfl | rfl
  · rw [if_pos rfl, if_neg (incrInt32_ne _)]
  · rw [if_neg (incrInt32_ne _), if_pos rfl]

theorem togglePrio_range (default p : Int) (hp : p = default ∨ p = incrInt32 default) :
    togglePrio default p = default ∨ togglePrio default p = incrInt32 default := by
  unfold togglePrio
  rcases hp with rfl | rfl
  · rw [if_pos rfl]
    exact Or.inr rfl
  · rw [if_neg (incrInt32_ne _)]
    exact Or.inl rfl

theorem startOrReconfig_refresh_engine (d : chainDefaults) (o : ByteOrder) (k : startKernel)
    (n : nft) (l : lb)
    (htable : k.addLbTable.newOk = true ∧ k.addLbTable.flushOk = true) :
    (startOrReconfig d o k n l true).1 =
      { table := some k.tableName
        postrChainPrio := togglePrio d.defaultPostrChainPrio n.postrChainPrio
        prerChainPrio := togglePrio d.defaultPrerChainPrio n.prerChainPrio } := by
  unfold startOrReconfig
  simp only [htable.1, htable.2, Bool.true_eq_false, if_false, if_true]
  split_ifs <;> rfl

theorem reconfig_engine (d : chainDefaults) (o : ByteOrder) (k : startKernel)
    (kstop : netlink) (n nn0 : nft) (nl : lb)
    (htable : k.addLbTable.newOk = true ∧ k.addLbTable.flushOk = true) :
    (nft.reconfig d o k kstop n (some nn0) nl).1 = some
      { table := some k.tableName
        postrChainPrio := togglePrio d.defaultPostrChainPrio n.postrChainPrio
        prerChainPrio := togglePrio d.defaultPrerChainPrio n.prerChainPrio } := by
  have h := startOrReconfig_refresh_engine d o k
    { nn0 with postrChainPrio := n.postrChainPrio, prerChainPrio := n.prerChainPrio } nl htable
  unfold nft.reconfig
  dsimp only
  split
  · rename_i nn2 nl2 err heq
    rw [heq] at h
    simp only at h
    rw [h]
  · rename_i nn2 nl2 heq
    rw [heq] at h
    simp only at h
    split <;> rw [h]

theorem reconfig_ok_table (d : chainDefaults) (o : ByteOrder) (k : startKernel)
    (kstop : netlink) (n : nft) (nn : Option nft) (nl : lb)
    (hok : (nft.reconfig d o k kstop n nn nl).2.2 = none) :
    k.addLbTable.newOk = true ∧ k.addLbTable.flushOk = true := by
  unfold nft.reconfig at hok
  cases nn with
  | none => simp at hok
  | some nn0 =>
    dsimp only at hok
    by_cases h1 : k.addLbTable.newOk = true
    · by_cases h2 : k.addLbTable.flushOk = true
      · exact ⟨h1, h2⟩
      · exfalso
        simp [startOrReconfig, h1, h2] at hok
    · exfalso
      simp [startOrReconfig, h1] at hok

/-- C9: the priority toggle at engine cutover. For an old nft engine whose postrouting
and prerouting priorities are each the default or the default plus one, once
`nft.reconfig` has added the table of the new engine (as in every reconfig that
returns no error), the priorities of the new engine are the toggled ones: the default
becomes the default plus one and the default plus one becomes the default, so each
differs from the priority of the old engine on the same hook. A second reconfig from
the new engine gives back the original priorities. -/
theorem reconfig_priority_toggle (d : chainDefaults) (o : ByteOrder)
    (k k2 : startKernel) (kstop kstop2 : netlink) (n nn0 nn1 : nft) (nl nl2 : lb)
    (hpostr : n.postrChainPrio = d.defaultPostrChainPrio ∨
      n.postrChainPrio = incrInt32 d.defaultPostrChainPrio)
    (hprer : n.prerChainPrio = d.defaultPrerChainPrio ∨
      n.prerChainPrio = incrInt32 d.defaultPrerChainPrio)
    (htable : k.addLbTable.newOk = true ∧ k.addLbTable.flushOk = true)
    (htable2 : k2.addLbTable.newOk = true ∧ k2.addLbTable.flushOk = true) :
    ∃ nn2, (nft.reconfig d o k kstop n (some nn0) nl).1 = some nn2 ∧
      nn2.postrChainPrio ≠ n.postrChainPrio ∧
      nn2.prerChainPrio ≠ n.prerChainPrio ∧
      (n.postrChainPrio = d.defaultPostrChainPrio →
        nn2.postrChainPrio = incrInt32 d.defaultPostrChainPrio) ∧
      (n.postrChainPrio = incrInt32 d.defaultPostrChainPrio →
        nn2.postrChainPrio = d.defaultPostrChainPrio) ∧
      (n.prerChainPrio = d.defaultPrerChainPrio →
        nn2.prerChainPrio = incrInt32 d.defaultPrerChainPrio) ∧
      (n.prerChainPrio = incrInt32 d.defaultPrerChainPrio →
        nn2.prerChainPrio = d.defaultPrerChainPrio) ∧
      ∃ nn3, (nft.reconfig d o k2 kstop2 nn2 (some nn1) nl2).1 = some nn3 ∧
        nn3.postrChainPrio = n.postrChainPrio ∧
        nn3.prerChainPrio = n.prerChainPrio := by
  refine ⟨_, reconfig_engine d o k kstop n nn0 nl htable, ?_, ?_, ?_, ?_, ?_, ?_, ?_⟩
  · exact togglePrio_ne _ _ hpostr
  · exact togglePrio_ne _ _ hprer
  · intro h
    simp [togglePrio, h]
  · intro h
    simp [togglePrio, h, incrInt32_ne]
  · intro h
    simp [togglePrio, h]
  · intro h
    simp [togglePrio, h, incrInt32_ne]
  · refine ⟨_, reconfig_engine d o k2 kstop2 _ nn1 nl2 htable2, ?_, ?_⟩
    · exact togglePrio_twice _ _ hpostr
    · exact togglePrio_twice _ _ hprer

/-- Witness of C9: with defaults 0 and -100, an old engine at the defaults hands over
to a new engine at priorities 1 and -99. -/
theorem reconfig_priority_toggle_witness :
    ∃ nn2, (nft.reconfig ⟨0, -100⟩ ByteOrder.littleEndian sampleKernel ⟨true, true⟩
        ⟨some "Lobby-01010101012006", 0, -100⟩ (some nft.zero) sampleLb).1 = some nn2 ∧
      nn2.postrChainPrio ≠ 0 ∧ nn2.prerChainPrio ≠ -100 :=
  have h := reconfig_priority_toggle ⟨0, -100⟩ ByteOrder.littleEndian sampleKernel sampleKernel
    ⟨true, true⟩ ⟨true, true⟩ ⟨some "Lobby-01010101012006", 0, -100⟩ nft.zero nft.zero
    sampleLb sampleLb (Or.inl rfl) (Or.inl rfl) ⟨rfl, rfl⟩ ⟨rfl, rfl⟩
  h.elim fun nn2 hn => ⟨nn2, hn.1, hn.2.1, hn.2.2.1⟩

/-! ## Configuration check -/

/-- C10 at its failing input: a configuration of three entries, each accepted on its
own, of which the second and the third both carry the engine tag `testEngine`, is
accepted by `checkConfig`: the names of the engines met are only recorded for the
first entry, so a repetition among later entries is not seen. With the repeated entry
in first place the same repetition is rejected with the repeated-engine error. -/
theorem checkConfig_repeated_engine_accepted :
    checkConfig sampleExternals sampleRepeatedEngine = none ∧
    checkConfig sampleExternals ⟨[sampleEntry "nftables" "a" "10.0.0.1" 8081]⟩ = none ∧
    checkConfig sampleExternals ⟨[sampleEntry "testEngine" "b" "10.0.0.2" 8082]⟩ = none ∧
    checkConfig sampleExternals ⟨[sampleEntry "testEngine" "c" "10.0.0.3" 8083]⟩ = none ∧
    checkConfig sampleExternals
        ⟨[sampleEntry "testEngine" "b" "10.0.0.2" 8082,
          sampleEntry "testEngine" "c" "10.0.0.3" 8083]⟩
      = some [Sentinel.errLbCheckConf, Sentinel.errConfRepEngine] := by
  decide

/-! ## Accepted configurations: the upstream loop -/

theorem any_eq_iff_mem (names : List String) (name : String) :
    names.any (fun n => decide (n = name)) = true ↔ name ∈ names := by
  simp [List.any_eq_true]

theorem checkUpstream_ok (x : Externals) (u : UpstreamsConfig) (st st' : checkState)
    (h : checkUpstream x u st = Except.ok st') :
    st' = { st with uNames := st.uNames ++ [u.Name] } ∧ u.Name ∉ st.uNames ∧ upstreamOk x u := by
  unfold checkUpstream at h
  split_ifs at h with h1 h2
  dsimp only at h
  split at h
  · cases h
  · rename_i hhc
    split at h
    · cases h
    · rename_i hdns
      refine ⟨(Except.ok.inj h).symm, ?_, h2, hhc, hdns⟩
      intro hmem
      apply h1
      refine ⟨?_, (any_eq_iff_mem _ _).2 hmem⟩
      intro hlen
      rw [List.length_eq_zero] at hlen
      rw [hlen] at hmem
      cases hmem

theorem checkUpstreams_ok (x : Externals) (us : List UpstreamsConfig) (st st' : checkState)
    (h : checkUpstreams x us st = Except.ok st') :
    st' = { st with uNames := st.uNames ++ us.map (fun u => u.Name) } ∧
    (us.map (fun u => u.Name)).Nodup ∧
    (∀ n ∈ us.map (fun u => u.Name), n ∉ st.uNames) ∧
    ∀ u ∈ us, upstreamOk x u := by
  induction us generalizing st with
  | nil =>
    simp only [checkUpstreams] at h
    cases h
    simp
  | cons u us ih =>
    simp only [checkUpstreams] at h
    split at h
    · cases h
    · rename_i st1 h1
      obtain ⟨e1, hnot, hok⟩ := checkUpstream_ok x u st st1 h1
      obtain ⟨e2, hnd, hdisj, hall⟩ := ih st1 h
      subst e1
      dsimp only at e2 hdisj
      refine ⟨?_, ?_, ?_, ?_⟩
      · rw [e2]
        simp
      · rw [List.map_cons, List.nodup_cons]
        refine ⟨?_, hnd⟩
        intro hmem
        exact hdisj _ hmem (by simp)
      · intro n hn
        rw [List.map_cons, List.mem_cons] at hn
        rcases hn with rfl | hn
        · exact hnot
        · intro hmem
          exact hdisj n hn (by simp [hmem])
      · intro v hv
        rcases List.mem_cons.1 hv with rfl | hv
        · exact hok
        · exact hall v hv

/-! ## Accepted configurations: the target loop -/

theorem checkTargetNames_ok (i : Nat) (t : TargetsConfig) (st st1 : checkState)
    (h : checkTargetNames i t st = Except.ok st1) :
    st1.eNames = st.eNames ∧ st1.uNames = st.uNames ∧
    st1.tNames = st.tNames ++ [t.Name] ∧
    st1.ugNames = st.ugNames ++ [t.UpstreamGroup.Name] ∧
    (i ≠ 0 → t.Name ∉ st.tNames ∧ t.UpstreamGroup.Name ∉ st.ugNames) ∧
    ((i = 0 ∨ st.portMap t.Port = none) →
      st1.portMap = portMapAppend st.portMap t.Port t.Protocol) ∧
    (i ≠ 0 → ∀ protos, st.portMap t.Port = some protos →
      t.Protocol ∉ protos ∧ st1.portMap = st.portMap) := by
  unfold checkTargetNames at h
  by_cases hi : i = 0
  · rw [if_pos hi] at h
    cases h
    exact ⟨rfl, rfl, rfl, rfl, fun h0 => absurd hi h0, fun _ => rfl, fun h0 => absurd hi h0⟩
  · rw [if_neg hi] at h
    by_cases ht : st.tNames.any (fun tn => decide (tn = t.Name)) = true
    · rw [if_pos ht] at h
      cases h
    · rw [if_neg ht] at h
      have htn : t.Name ∉ st.tNames := fun hmem => ht ((any_eq_iff_mem _ _).2 hmem)
      dsimp only at h
      cases hp : st.portMap t.Port with
      | none =>
        rw [hp] at h
        dsimp only at h
        by_cases hug : st.ugNames.any (fun ugn => decide (ugn = t.UpstreamGroup.Name)) = true
        · rw [if_pos hug] at h
          cases h
        · rw [if_neg hug] at h
          cases h
          have hugn : t.UpstreamGroup.Name ∉ st.ugNames :=
            fun hmem => hug ((any_eq_iff_mem _ _).2 hmem)
          refine ⟨rfl, rfl, rfl, rfl, fun _ => ⟨htn, hugn⟩, fun _ => rfl, ?_⟩
          intro _ protos hsome
          cases hsome
      | some protos =>
        rw [hp] at h
        dsimp only at h
        by_cases hpr : protos.any (fun proto => decide (proto = t.Protocol)) = true
        · rw [if_pos hpr] at h
          cases h
        · rw [if_neg hpr] at h
          by_cases hug : st.ugNames.any (fun ugn => decide (ugn = t.UpstreamGroup.Name)) = true
          · rw [if_pos hug] at h
            cases h
          · rw [if_neg hug] at h
            cases h
            have hugn : t.UpstreamGroup.Name ∉ st.ugNames :=
              fun hmem => hug ((any_eq_iff_mem _ _).2 hmem)
            refine ⟨rfl, rfl, rfl, rfl, fun _ => ⟨htn, hugn⟩, ?_, ?_⟩
            · rintro (h0 | h0)
              · exact absurd h0 hi
              · cases h0
            · intro _ protos' hsome
              cases hsome
              exact ⟨fun hmem => hpr ((any_eq_iff_mem _ _).2 hmem), rfl⟩

theorem checkTarget_ok (x : Externals) (ec : capabilities) (i : Nat) (t : TargetsConfig)
    (st st' : checkState) (h : checkTarget x ec i t st = Except.ok st') :
    ∃ st1, checkTargetNames i t st = Except.ok st1 ∧ targetOk ec t ∧
      checkUpstreams x t.UpstreamGroup.Upstreams st1 = Except.ok st' := by
  unfold checkTarget at h
  split at h
  · cases h
  · rename_i st1 h1
    split at h
    · cases h
    · rename_i tP hp
      split at h
      · cases h
      · rename_i modes hm
        split_ifs at h with hd
        have hsome : (modes.lookup (getDistMode t.UpstreamGroup.Distribution).1).isSome = true := by
          cases hl : modes.lookup (getDistMode t.UpstreamGroup.Distribution).1 with
          | none =>
            rw [hl] at hd
            exact absurd rfl hd
          | some b => rfl
        exact ⟨st1, h1, ⟨tP, modes, hp, hm, hsome⟩, h⟩

theorem checkTarget_names (x : Externals) (ec : capabilities) (i : Nat) (t : TargetsConfig)
    (st st' : checkState) (h : checkTarget x ec i t st = Except.ok st') :
    st'.eNames = st.eNames ∧
    st'.tNames = st.tNames ++ [t.Name] ∧
    st'.ugNames = st.ugNames ++ [t.UpstreamGroup.Name] ∧
    st'.uNames = st.uNames ++ t.UpstreamGroup.Upstreams.map (fun u => u.Name) ∧
    (t.UpstreamGroup.Upstreams.map (fun u => u.Name)).Nodup ∧
    (∀ n ∈ t.UpstreamGroup.Upstreams.map (fun u => u.Name), n ∉ st.uNames) ∧
    targetOk ec t ∧ (∀ u ∈ t.UpstreamGroup.Upstreams, upstreamOk x u) ∧
    (i ≠ 0 → t.Name ∉ st.tNames ∧ t.UpstreamGroup.Name ∉ st.ugNames) := by
  obtain ⟨st1, hn, hok, hu⟩ := checkTarget_ok x ec i t st st' h
  obtain ⟨e1, e2, e3, e4, hfresh, -, -⟩ := checkTargetNames_ok i t st st1 hn
  obtain ⟨e5, hnd, hdisj, hall⟩ := checkUpstreams_ok x _ st1 st' hu
  subst e5
  dsimp only
  rw [e2] at hdisj
  exact ⟨e1, e3, e4, by rw [e2], hnd, hdisj, hok, hall, hfresh⟩

theorem checkTargets_cons_ok (x : Externals) (ec : capabilities) (t : TargetsConfig)
    (ts : List TargetsConfig) (i : Nat) (st st' : checkState)
    (h : checkTargets x ec (t :: ts) i st = Except.ok st') :
    ∃ st1, checkTarget x ec i t st = Except.ok st1 ∧
      checkTargets x ec ts (i + 1) st1 = Except.ok st' := by
  simp only [checkTargets] at h
  split at h
  · cases h
  · rename_i st1 h1
    exact ⟨st1, h1, h⟩

theorem upstreamNames_cons (t : TargetsConfig) (ts : List TargetsConfig) :
    upstreamNames (t :: ts) =
      t.UpstreamGroup.Upstreams.map (fun u => u.Name) ++ upstreamNames ts := by
  simp [upstreamNames]

theorem checkTargets_names (x : Externals) (ec : capabilities) (ts : List TargetsConfig)
    (i : Nat) (st st' : checkState) (h : checkTargets x ec ts i st = Except.ok st') :
    st'.eNames = st.eNames ∧
    st'.tNames = st.tNames ++ ts.map (fun t => t.Name) ∧
    st'.ugNames = st.ugNames ++ ts.map (fun t => t.UpstreamGroup.Name) ∧
    st'.uNames = st.uNames ++ upstreamNames ts ∧
    (upstreamNames ts).Nodup ∧
    (∀ n ∈ upstreamNames ts, n ∉ st.uNames) ∧
    (∀ t ∈ ts, targetOk ec t ∧ ∀ u ∈ t.UpstreamGroup.Upstreams, upstreamOk x u) ∧
    (i ≠ 0 →
      (ts.map (fun t => t.Name)).Nodup ∧ (∀ n ∈ ts.map (fun t => t.Name), n ∉ st.tNames) ∧
      (ts.map (fun t => t.UpstreamGroup.Name)).Nodup ∧
      (∀ n ∈ ts.map (fun t => t.UpstreamGroup.Name), n ∉ st.ugNames)) := by
  induction ts generalizing i st with
  | nil =>
    simp only [checkTargets] at h
    cases h
    simp [upstreamNames]
  | cons t ts ih =>
    obtain ⟨st1, h1, h2⟩ := checkTargets_cons_ok x ec t ts i st st' h
    obtain ⟨a1, a2, a3, a4, a5, a6, a7, a8, a9⟩ := checkTarget_names x ec i t st st1 h1
    obtain ⟨b1, b2, b3, b4, b5, b6, b7, b8⟩ := ih (i + 1) st1 h2
    obtain ⟨c1, c2, c3, c4⟩ := b8 (Nat.succ_ne_zero i)
    rw [a2] at b2 c2
    rw [a3] at b3 c4
    rw [a4] at b4 b6
    refine ⟨b1.trans a1, by rw [b2]; simp, by rw [b3]; simp, ?_, ?_, ?_, ?_, ?_⟩
    · rw [b4, upstreamNames_cons, List.append_assoc]
    · rw [upstreamNames_cons, List.nodup_append]
      refine ⟨a5, b5, ?_⟩
      intro n hn1 hn2
      exact b6 n hn2 (List.mem_append_right _ hn1)
    · intro n hn
      rw [upstreamNames_cons, List.mem_append] at hn
      rcases hn with hn | hn
      · exact a6 n hn
      · intro hmem
        exact b6 n hn (List.mem_append_left _ hmem)
    · intro t' ht'
      rcases List.mem_cons.1 ht' with rfl | ht'
      · exact ⟨a7, a8⟩
      · exact b7 t' ht'
    · intro hi
      obtain ⟨d1, d2⟩ := a9 hi
      refine ⟨?_, ?_, ?_, ?_⟩
      · rw [List.map_cons, List.nodup_cons]
        exact ⟨fun hmem => c2 _ hmem (by simp), c1⟩
      · intro n hn
        rw [List.map_cons, List.mem_cons] at hn
        rcases hn with rfl | hn
        · exact d1
        · exact fun hmem => c2 n hn (List.mem_append_left _ hmem)
      · rw [List.map_cons, List.nodup_cons]
        exact ⟨fun hmem => c4 _ hmem (by simp), c3⟩
      · intro n hn
        rw [List.map_cons, List.mem_cons] at hn
        rcases hn with rfl | hn
        · exact d2
        · exact fun hmem => c4 n hn (List.mem_append_left _ hmem)

theorem checkTargets_entry_names (x : Externals) (ec : capabilities) (ts : List TargetsConfig)
    (st st' : checkState) (h : checkTargets x ec ts 0 st = Except.ok st') :
    (ts.map (fun t => t.Name)).Nodup ∧ (ts.map (fun t => t.UpstreamGroup.Name)).Nodup := by
  cases ts with
  | nil => simp
  | cons t ts =>
    obtain ⟨st1, h1, h2⟩ := checkTargets_cons_ok x ec t ts 0 st st' h
    obtain ⟨-, a2, a3, -⟩ := checkTarget_names x ec 0 t st st1 h1
    obtain ⟨-, -, -, -, -, -, -, b8⟩ := checkTargets_names x ec ts 1 st1 st' h2
    obtain ⟨c1, c2, c3, c4⟩ := b8 (by decide)
    rw [a2] at c2
    rw [a3] at c4
    constructor
    · rw [List.map_cons, List.nodup_cons]
      exact ⟨fun hmem => c2 _ hmem (by simp), c1⟩
    · rw [List.map_cons, List.nodup_cons]
      exact ⟨fun hmem => c4 _ hmem (by simp), c3⟩

/-! ## Accepted configurations: the engine loop -/

theorem checkEngine_ok (x : Externals) (i : Nat) (lbc : LbConfig) (st st' : checkState)
    (h : checkEngine x i lbc st = Except.ok st') : entryAccepted x lbc := by
  unfold checkEngine at h
  split at h
  · cases h
  · rename_i lbE he
    dsimp only at h
    split_ifs at h with h1 h2
    · exact ⟨lbE, _, st', he, rfl, h⟩
    · exact ⟨lbE, _, st', he, rfl, h⟩

theorem checkEngines_ok (x : Externals) (es : List LbConfig) (i : Nat) (st : checkState)
    (h : checkEngines x es i st = none) : ∀ e ∈ es, entryAccepted x e := by
  induction es generalizing i st with
  | nil =>
    intro e he
    cases he
  | cons e0 es ih =>
    simp only [checkEngines] at h
    split at h
    · cases h
    · rename_i st1 h1
      intro e he
      rcases List.mem_cons.1 he with rfl | he
      · exact checkEngine_ok x i _ st st1 h1
      · exact ih (i + 1) st1 h e he

theorem checkConfig_entries (x : Externals) (cfg : ConfigYaml) (h : checkConfig x cfg = none) :
    ∀ e ∈ cfg.LbConfig, entryAccepted x e :=
  checkEngines_ok x cfg.LbConfig 0 _ h

/-- C11: in a configuration accepted by `checkConfig`, within every engine entry the
target names are pairwise distinct, the upstream group names are pairwise distinct
and the names of all upstreams of the entry are pairwise distinct. -/
theorem checkConfig_entry_names_distinct (x : Externals) (cfg : ConfigYaml)
    (h : checkConfig x cfg = none) :
    ∀ e ∈ cfg.LbConfig,
      (e.TargetsConfig.map (fun t => t.Name)).Nodup ∧
      (e.TargetsConfig.map (fun t => t.UpstreamGroup.Name)).Nodup ∧
      ((e.TargetsConfig.flatMap (fun t => t.UpstreamGroup.Upstreams)).map
        (fun u => u.Name)).Nodup := by
  intro e he
  obtain ⟨lbE, st0, st', -, -, hts⟩ := checkConfig_entries x cfg h e he
  obtain ⟨h1, h2⟩ := checkTargets_entry_names x _ _ st0 st' hts
  obtain ⟨-, -, -, -, h3, -⟩ := checkTargets_names x _ _ 0 st0 st' hts
  exact ⟨h1, h2, h3⟩

/-- Witness of C11: the accepted sample configuration has distinct names within its
entry. -/
theorem checkConfig_entry_names_distinct_witness :
    (sampleAcceptedEntry.TargetsConfig.map (fun t => t.Name)).Nodup ∧
    (sampleAcceptedEntry.TargetsConfig.map (fun t => t.UpstreamGroup.Name)).Nodup ∧
    ((sampleAcceptedEntry.TargetsConfig.flatMap (fun t => t.UpstreamGroup.Upstreams)).map
      (fun u => u.Name)).Nodup :=
  checkConfig_entry_names_distinct sampleExternals sampleAccepted (by decide)
    sampleAcceptedEntry (by decide)

/-- C12 at its failing input: a configuration of two engine entries whose first
targets are both named `web` over groups both named `pool` is accepted by
`checkConfig`, while the same two targets inside one entry are rejected with the
repeated-target-name error, and so is a second entry that repeats the name `web` at
its position 1. The target at position 0 of every entry is recorded in the name lists
without being compared with them. -/
theorem checkConfig_shared_names_accepted :
    checkConfig sampleExternals sampleSharedNames = none ∧
    (sampleSharedNames.LbConfig.flatMap (fun e => e.TargetsConfig)).map (fun t => t.Name)
      = ["web", "web"] ∧
    (sampleSharedNames.LbConfig.flatMap (fun e => e.TargetsConfig)).map
        (fun t => t.UpstreamGroup.Name) = ["pool", "pool"] ∧
    checkConfig sampleExternals
        ⟨[⟨"nftables", sampleSharedNames.LbConfig.flatMap (fun e => e.TargetsConfig)⟩]⟩
      = some [Sentinel.errLbCheckConf, Sentinel.errConfRepTargetName] ∧
    checkConfig sampleExternals
        ⟨[⟨"nftables",
            [sampleTargetConfig "web" "tcp" 8081 "pool" "round-robin"
              [sampleUpstreamConfig "u1" "10.0.0.1"]]⟩,
          ⟨"testEngine",
            [sampleTargetConfig "other" "tcp" 8082 "other-pool" "round-robin"
              [sampleUpstreamConfig "u2" "10.0.0.2"],
             sampleTargetConfig "web" "tcp" 8083 "third-pool" "round-robin"
              [sampleUpstreamConfig "u3" "10.0.0.3"]]⟩]⟩
      = some [Sentinel.errLbCheckConf, Sentinel.errConfRepTargetName] := by
  decide

/-! ## Accepted configurations: protocols, distributions and ports -/

theorem getLbProtocol_tcp (s : String) (err : Option Error)
    (h : getLbProtocol s = (lbProtoTcp, err)) : s = "tcp" := by
  unfold getLbProtocol at h
  split_ifs at h with h1 h2 h3 h4
  · exact h1
  · exact absurd (show lbProtoUdp = lbProtoTcp from congrArg Prod.fst h) (by decide)
  · exact absurd (show lbProtoSctp = lbProtoTcp from congrArg Prod.fst h) (by decide)
  · exact absurd (show lbProtoHttp = lbProtoTcp from congrArg Prod.fst h) (by decide)
  · exact absurd (show lbProtoUnknown = lbProtoTcp from congrArg Prod.fst h) (by decide)

theorem getDistMode_rr (s : String) (h : (getDistMode s).1 = distModeRR) :
    s = "round-robin" ∧ (getDistMode s).2 = none := by
  unfold getDistMode at h ⊢
  split_ifs at h ⊢ with h1 h2
  · exact ⟨h1, rfl⟩
  · exact absurd h (by decide)
  · exact absurd h (by decide)

theorem lookup_tcpRoundRobin (tP : lbProto) (modes : List (distMode × Bool))
    (h : List.lookup tP [(lbProtoTcp, [(distModeRR, true)])] = some modes) :
    tP = lbProtoTcp ∧ ∀ dm, (modes.lookup dm).isSome = true → dm = distModeRR := by
  by_cases htp : tP = lbProtoTcp
  · subst htp
    simp only [List.lookup, beq_self_eq_true] at h
    cases h
    refine ⟨rfl, ?_⟩
    intro dm hdm
    by_cases hd : dm = distModeRR
    · exact hd
    · have hb : (dm == distModeRR) = false := by simpa using hd
      simp [List.lookup, hb] at hdm
  · have hb : (tP == lbProtoTcp) = false := by simpa using htp
    simp [List.lookup, hb] at h

theorem getCapabilities_tcpRoundRobinOnly (lbE : lbEngineType) :
    tcpRoundRobinOnly (getCapabilities lbE) := by
  intro tP modes h
  unfold getCapabilities at h
  split at h
  · exact lookup_tcpRoundRobin tP modes h
  · exact lookup_tcpRoundRobin tP modes h
  · simp [List.lookup] at h

theorem targetOk_tcp (ec : capabilities) (hec : tcpRoundRobinOnly ec) (t : TargetsConfig)
    (h : targetOk ec t) :
    t.Protocol = "tcp" ∧ t.UpstreamGroup.Distribution = "round-robin" ∧
      (getDistMode t.UpstreamGroup.Distribution).2 = none := by
  obtain ⟨tP, modes, hp, hm, hd⟩ := h
  obtain ⟨htp, hmodes⟩ := hec tP modes hm
  subst htp
  obtain ⟨h1, h2⟩ := getDistMode_rr _ (hmodes _ hd)
  exact ⟨getLbProtocol_tcp _ _ hp, h1, h2⟩

theorem checkTarget_ports (x : Externals) (ec : capabilities) (i : Nat) (t : TargetsConfig)
    (st st' : checkState) (h : checkTarget x ec i t st = Except.ok st') :
    ((i = 0 ∨ st.portMap t.Port = none) →
      st'.portMap = portMapAppend st.portMap t.Port t.Protocol) ∧
    (i ≠ 0 → ∀ protos, st.portMap t.Port = some protos →
      t.Protocol ∉ protos ∧ st'.portMap = st.portMap) := by
  obtain ⟨st1, hn, -, hu⟩ := checkTarget_ok x ec i t st st' h
  obtain ⟨-, -, -, -, -, p1, p2⟩ := checkTargetNames_ok i t st st1 hn
  obtain ⟨e5, -⟩ := checkUpstreams_ok x _ st1 st' hu
  subst e5
  exact ⟨p1, p2⟩

theorem portMapAppend_tcp (st : checkState) (port : Nat) (hK : portMapTcp st)
    (pm : Nat → Option (List String)) (hpm : pm = portMapAppend st.portMap port "tcp") :
    (∀ p protos, pm p = some protos → "tcp" ∈ protos) ∧ pm port ≠ none ∧
      ∀ p, p ≠ port → pm p = st.portMap p := by
  subst hpm
  refine ⟨?_, ?_, ?_⟩
  · intro p protos hp
    unfold portMapAppend at hp
    split_ifs at hp with hpp
    · cases hp
      simp
    · exact hK p protos hp
  · simp [portMapAppend]
  · intro p hp
    simp [portMapAppend, hp]

theorem checkTargets_ports (x : Externals) (ec : capabilities) (hec : tcpRoundRobinOnly ec)
    (ts : List TargetsConfig) (i : Nat) (st st' : checkState)
    (h : checkTargets x ec ts i st = Except.ok st') (hi : i ≠ 0) (hK : portMapTcp st) :
    (ts.map (fun t => t.Port)).Nodup ∧ (∀ t ∈ ts, st.portMap t.Port = none) := by
  induction ts generalizing i st with
  | nil => simp
  | cons t ts ih =>
    obtain ⟨st1, h1, h2⟩ := checkTargets_cons_ok x ec t ts i st st' h
    obtain ⟨-, -, -, -, -, -, hok, -, -⟩ := checkTarget_names x ec i t st st1 h1
    obtain ⟨htcp, -, -⟩ := targetOk_tcp ec hec t hok
    obtain ⟨p1, p2⟩ := checkTarget_ports x ec i t st st1 h1
    have hnone : st.portMap t.Port = none := by
      cases hp : st.portMap t.Port with
      | none => rfl
      | some protos =>
        exfalso
        have := (p2 hi protos hp).1
        rw [htcp] at this
        exact this (hK _ _ hp)
    have hpm := p1 (Or.inr hnone)
    rw [htcp] at hpm
    obtain ⟨k1, k2, k3⟩ := portMapAppend_tcp st t.Port hK st1.portMap hpm
    obtain ⟨i1, i2⟩ := ih (i + 1) st1 h2 (Nat.succ_ne_zero i) k1
    have hne : ∀ t' ∈ ts, t'.Port ≠ t.Port := by
      intro t' ht' heq
      have := i2 t' ht'
      rw [heq] at this
      exact k2 this
    refine ⟨?_, ?_⟩
    · rw [List.map_cons, List.nodup_cons]
      refine ⟨?_, i1⟩
      intro hmem
      obtain ⟨t', ht', heq⟩ := List.mem_map.1 hmem
      exact hne t' ht' heq
    · intro t' ht'
      rcases List.mem_cons.1 ht' with rfl | ht'
      · exact hnone
      · rw [← k3 _ (hne t' ht')]
        exact i2 t' ht'

theorem checkTargets_entry_ports (x : Externals) (ec : capabilities)
    (hec : tcpRoundRobinOnly ec) (ts : List TargetsConfig) (st st' : checkState)
    (h : checkTargets x ec ts 0 st = Except.ok st') (hst : st.portMap = fun _ => none) :
    (ts.map (fun t => t.Port)).Nodup := by
  cases ts with
  | nil => simp
  | cons t ts =>
    obtain ⟨st1, h1, h2⟩ := checkTargets_cons_ok x ec t ts 0 st st' h
    obtain ⟨-, -, -, -, -, -, hok, -, -⟩ := checkTarget_names x ec 0 t st st1 h1
    obtain ⟨htcp, -, -⟩ := targetOk_tcp ec hec t hok
    obtain ⟨p1, -⟩ := checkTarget_ports x ec 0 t st st1 h1
    have hK : portMapTcp st := by
      intro p protos hp
      rw [hst] at hp
      cases hp
    have hpm := p1 (Or.inl rfl)
    rw [htcp] at hpm
    obtain ⟨k1, k2, -⟩ := portMapAppend_tcp st t.Port hK st1.portMap hpm
    obtain ⟨i1, i2⟩ := checkTargets_ports x ec hec ts 1 st1 st' h2 (by decide) k1
    rw [List.map_cons, List.nodup_cons]
    refine ⟨?_, i1⟩
    intro hmem
    obtain ⟨t', ht', heq⟩ := List.mem_map.1 hmem
    have := i2 t' ht'
    rw [heq] at this
    exact k2 this

theorem checkTargets_all_ok (x : Externals) (ec : capabilities) (ts : List TargetsConfig)
    (i : Nat) (st st' : checkState) (h : checkTargets x ec ts i st = Except.ok st') :
    ∀ t ∈ ts, targetOk ec t ∧ ∀ u ∈ t.UpstreamGroup.Upstreams, upstreamOk x u :=
  (checkTargets_names x ec ts i st st' h).2.2.2.2.2.2.1

/-- C13: in a configuration accepted by `checkConfig`, no two targets of one engine
entry have the same (protocol, port) pair: every accepted target has protocol `tcp`,
the only one the engines support, and the ports within an entry are pairwise
distinct. -/
theorem checkConfig_entry_port_protocol_distinct (x : Externals) (cfg : ConfigYaml)
    (h : checkConfig x cfg = none) :
    ∀ e ∈ cfg.LbConfig,
      (e.TargetsConfig.map (fun t => (t.Protocol, t.Port))).Nodup ∧
      (e.TargetsConfig.map (fun t => ((getLbProtocol t.Protocol).1, t.Port))).Nodup ∧
      (e.TargetsConfig.map (fun t => t.Port)).Nodup := by
  intro e he
  obtain ⟨lbE, st0, st', -, hpm, hts⟩ := checkConfig_entries x cfg h e he
  have hports := checkTargets_entry_ports x _ (getCapabilities_tcpRoundRobinOnly lbE)
    _ st0 st' hts hpm
  refine ⟨?_, ?_, hports⟩
  · have : (e.TargetsConfig.map (fun t => (t.Protocol, t.Port))).map Prod.snd
        = e.TargetsConfig.map (fun t => t.Port) := by
      rw [List.map_map]
      rfl
    exact List.Nodup.of_map Prod.snd (by rw [this]; exact hports)
  · have : (e.TargetsConfig.map (fun t => ((getLbProtocol t.Protocol).1, t.Port))).map Prod.snd
        = e.TargetsConfig.map (fun t => t.Port) := by
      rw [List.map_map]
      rfl
    exact List.Nodup.of_map Prod.snd (by rw [this]; exact hports)

/-- Witness of C13: the accepted sample configuration has distinct (protocol, port)
pairs within its entry. -/
theorem checkConfig_entry_port_protocol_distinct_witness :
    (sampleAcceptedEntry.TargetsConfig.map (fun t => (t.Protocol, t.Port))).Nodup ∧
    (sampleAcceptedEntry.TargetsConfig.map
      (fun t => ((getLbProtocol t.Protocol).1, t.Port))).Nodup ∧
    (sampleAcceptedEntry.TargetsConfig.map (fun t => t.Port)).Nodup :=
  checkConfig_entry_port_protocol_distinct sampleExternals sampleAccepted (by decide)
    sampleAcceptedEntry (by decide)

/-! ## The checks of `checkConfig` along a configuration -/

theorem checkEngines_eq_state (x : Externals) (es : List LbConfig) (i : Nat) (st : checkState) :
    checkEngines x es i st =
      match checkEnginesState x es i st with
      | Except.error err => some err
      | Except.ok _ => none := by
  induction es generalizing i st with
  | nil => rfl
  | cons e es ih =>
    simp only [checkEngines, checkEnginesState]
    cases checkEngine x i e st with
    | error err => rfl
    | ok st1 => exact ih (i + 1) st1

theorem checkEnginesState_append (x : Externals) (E1 E2 : List LbConfig) (i : Nat)
    (st : checkState) :
    checkEnginesState x (E1 ++ E2) i st =
      match checkEnginesState x E1 i st with
      | Except.error err => Except.error err
      | Except.ok st1 => checkEnginesState x E2 (i + E1.length) st1 := by
  induction E1 generalizing i st with
  | nil => rfl
  | cons e E1 ih =>
    simp only [List.cons_append, checkEnginesState, List.length_cons]
    cases checkEngine x i e st with
    | error err => rfl
    | ok st1 =>
      have hadd : i + 1 + E1.length = i + (E1.length + 1) := by omega
      have h := ih (i + 1) st1
      rw [hadd] at h
      exact h

theorem checkTargets_append (x : Externals) (ec : capabilities) (T1 T2 : List TargetsConfig)
    (i : Nat) (st : checkState) :
    checkTargets x ec (T1 ++ T2) i st =
      match checkTargets x ec T1 i st with
      | Except.error err => Except.error err
      | Except.ok st1 => checkTargets x ec T2 (i + T1.length) st1 := by
  induction T1 generalizing i st with
  | nil => rfl
  | cons t T1 ih =>
    simp only [List.cons_append, checkTargets, List.length_cons]
    cases checkTarget x ec i t st with
    | error err => rfl
    | ok st1 =>
      have hadd : i + 1 + T1.length = i + (T1.length + 1) := by omega
      have h := ih (i + 1) st1
      rw [hadd] at h
      exact h

theorem checkUpstreams_append (x : Externals) (U1 U2 : List UpstreamsConfig) (st : checkState) :
    checkUpstreams x (U1 ++ U2) st =
      match checkUpstreams x U1 st with
      | Except.error err => Except.error err
      | Except.ok st1 => checkUpstreams x U2 st1 := by
  induction U1 generalizing st with
  | nil => rfl
  | cons u U1 ih =>
    simp only [List.cons_append, checkUpstreams]
    cases checkUpstream x u st with
    | error err => rfl
    | ok st1 => exact ih st1

theorem checkEngine_head (x : Externals) (i : Nat) (engine : String)
    (ts0 : List TargetsConfig) (st st' : checkState)
    (h : checkEngine x i ⟨engine, ts0⟩ st = Except.ok st') :
    ∃ lbE st1, getLbEngineType engine = (lbE, none) ∧ st1.portMap = (fun _ => none) ∧
      ∀ ts, checkEngine x i ⟨engine, ts⟩ st = checkTargets x (getCapabilities lbE) ts 0 st1 := by
  unfold checkEngine at h
  dsimp only at h
  cases he : getLbEngineType engine with
  | mk lbE err =>
    rw [he] at h
    cases err with
    | some e => cases h
    | none =>
      dsimp only at h
      by_cases hrep : i ≠ 0 ∧ st.eNames.any (fun en => decide (en = lbEngineType.String lbE)) = true
      · rw [if_pos hrep] at h
        cases h
      · refine ⟨lbE,
          { (if i = 0 then
              { st with eNames := st.eNames ++ [lbEngineType.String lbE] } else st) with
            portMap := fun _ => none }, rfl, rfl, ?_⟩
        intro ts
        unfold checkEngine
        dsimp only
        rw [he]
        dsimp only
        rw [if_neg hrep]

theorem checkConfig_target_reached (x : Externals) (E1 : List LbConfig) (engine : String)
    (T1 : List TargetsConfig) (t0 : TargetsConfig) (T2 : List TargetsConfig)
    (E2 : List LbConfig)
    (hacc : checkConfig x (configWithTarget E1 engine T1 t0 T2 E2) = none) :
    ∃ lbE st, getLbEngineType engine = (lbE, none) ∧
      (∃ st', checkTarget x (getCapabilities lbE) T1.length t0 st = Except.ok st') ∧
      ∀ t err, checkTarget x (getCapabilities lbE) T1.length t st = Except.error err →
        checkConfig x (configWithTarget E1 engine T1 t T2 E2) = some err := by
  unfold checkConfig configWithTarget at hacc
  rw [checkEngines_eq_state, checkEnginesState_append] at hacc
  cases hpre : checkEnginesState x E1 0
      { eNames := [], tNames := [], uNames := [], ugNames := [], portMap := fun _ => none } with
  | error err =>
    rw [hpre] at hacc
    cases hacc
  | ok st1 =>
    rw [hpre] at hacc
    simp only [checkEnginesState] at hacc
    cases hen : checkEngine x (0 + E1.length) ⟨engine, T1 ++ t0 :: T2⟩ st1 with
    | error err =>
      rw [hen] at hacc
      cases hacc
    | ok st2 =>
      obtain ⟨lbE, st3, he, -, hts⟩ := checkEngine_head x _ engine _ st1 st2 hen
      have hen0 := hen
      rw [hts, checkTargets_append] at hen0
      cases hT1 : checkTargets x (getCapabilities lbE) T1 0 st3 with
      | error err =>
        rw [hT1] at hen0
        cases hen0
      | ok st4 =>
        rw [hT1] at hen0
        simp only [checkTargets, Nat.zero_add] at hen0
        refine ⟨lbE, st4, he, ?_, ?_⟩
        · cases ht0 : checkTarget x (getCapabilities lbE) T1.length t0 st4 with
          | error err =>
            rw [ht0] at hen0
            cases hen0
          | ok st5 => exact ⟨st5, rfl⟩
        · intro t err hterr
          unfold checkConfig configWithTarget
          rw [checkEngines_eq_state, checkEnginesState_append]
          rw [hpre]
          simp only [checkEnginesState]
          rw [hts, checkTargets_append, hT1]
          simp only [checkTargets, Nat.zero_add]
          rw [hterr]

theorem checkTarget_upstreams (x : Externals) (ec : capabilities) (i : Nat)
    (t : TargetsConfig) (st st1 : checkState)
    (hn : checkTargetNames i t st = Except.ok st1) (hok : targetOk ec t) :
    checkTarget x ec i t st = checkUpstreams x t.UpstreamGroup.Upstreams st1 := by
  obtain ⟨tP, modes, hp, hm, hd⟩ := hok
  unfold checkTarget
  rw [hn]
  dsimp only
  rw [hp]
  dsimp only
  rw [hm]
  dsimp only
  have hnone : ¬ (modes.lookup (getDistMode t.UpstreamGroup.Distribution).1).isNone = true := by
    cases hl : modes.lookup (getDistMode t.UpstreamGroup.Distribution).1 with
    | none =>
      rw [hl] at hd
      cases hd
    | some b => simp
  rw [if_neg hnone]

theorem checkConfig_upstream_reached (x : Externals) (E1 : List LbConfig) (engine : String)
    (T1 : List TargetsConfig) (t : TargetsConfig) (U1 : List UpstreamsConfig)
    (u0 : UpstreamsConfig) (U2 : List UpstreamsConfig) (T2 : List TargetsConfig)
    (E2 : List LbConfig)
    (hacc : checkConfig x
      (configWithTarget E1 engine T1 (targetWithUpstream t U1 u0 U2) T2 E2) = none) :
    ∃ st, (∃ st', checkUpstream x u0 st = Except.ok st') ∧
      ∀ u err, checkUpstream x u st = Except.error err →
        checkConfig x (configWithTarget E1 engine T1 (targetWithUpstream t U1 u U2) T2 E2)
          = some err := by
  obtain ⟨lbE, st, -, ⟨st', ht0⟩, hall⟩ :=
    checkConfig_target_reached x E1 engine T1 _ T2 E2 hacc
  obtain ⟨st1, hn, hok, hu⟩ := checkTarget_ok x _ _ _ st st' ht0
  have hu0 : checkUpstreams x (U1 ++ u0 :: U2) st1 = Except.ok st' := hu
  rw [checkUpstreams_append] at hu0
  cases hU1 : checkUpstreams x U1 st1 with
  | error err =>
    rw [hU1] at hu0
    cases hu0
  | ok st2 =>
    rw [hU1] at hu0
    simp only [checkUpstreams] at hu0
    refine ⟨st2, ?_, ?_⟩
    · cases h0 : checkUpstream x u0 st2 with
      | error err =>
        rw [h0] at hu0
        cases hu0
      | ok st3 => exact ⟨st3, rfl⟩
    · intro u err huerr
      apply hall
      have hn' : checkTargetNames T1.length (targetWithUpstream t U1 u U2) st = Except.ok st1 := hn
      have hok' : targetOk (getCapabilities lbE) (targetWithUpstream t U1 u U2) := hok
      rw [checkTarget_upstreams x _ _ _ st st1 hn' hok']
      show checkUpstreams x (U1 ++ u :: U2) st1 = Except.error err
      rw [checkUpstreams_append, hU1]
      simp only [checkUpstreams]
      rw [huerr]

theorem getDistMode_unknown (s : String) (h : (getDistMode s).2 ≠ none) :
    (getDistMode s).1 = distModeUnknown := by
  unfold getDistMode at h ⊢
  split_ifs at h ⊢ with h1 h2
  · exact absurd rfl h
  · exact absurd rfl h
  · rfl

theorem checkTarget_unparsable_distribution (x : Externals) (lbE : lbEngineType) (i : Nat)
    (t : TargetsConfig) (st st' : checkState) (dist : String)
    (hdist : (getDistMode dist).2 ≠ none)
    (h : checkTarget x (getCapabilities lbE) i t st = Except.ok st') :
    checkTarget x (getCapabilities lbE) i
        { t with UpstreamGroup := { t.UpstreamGroup with Distribution := dist } } st
      = Except.error [Sentinel.errLbCheckConf, Sentinel.errConfDistMode] := by
  obtain ⟨st1, hn, ⟨tP, modes, hp, hm, -⟩, -⟩ := checkTarget_ok x _ i t st st' h
  have hn' : checkTargetNames i
      { t with UpstreamGroup := { t.UpstreamGroup with Distribution := dist } } st
        = Except.ok st1 := hn
  obtain ⟨-, hmodes⟩ := getCapabilities_tcpRoundRobinOnly lbE tP modes hm
  have hnone : (modes.lookup (getDistMode dist).1).isNone = true := by
    cases hl : modes.lookup (getDistMode dist).1 with
    | none => rfl
    | some b =>
      exfalso
      have hrr := hmodes (getDistMode dist).1 (by rw [hl]; rfl)
      rw [getDistMode_unknown dist hdist] at hrr
      exact absurd hrr (by decide)
  unfold checkTarget
  rw [hn']
  dsimp only
  rw [hp]
  dsimp only
  rw [hm]
  dsimp only
  rw [if_pos hnone]

/-- C14: in a configuration accepted by `checkConfig`, for every target of every
entry the protocol string parses to a key of the capability map of the engine of the
entry and the distribution string parses to a key of the inner map for that protocol;
for both engines this means protocol `tcp` and distribution `round-robin`. And a
configuration that is accepted with some distribution of a target is rejected with
the unsupported-distribution error once that distribution is replaced by a string
that does not parse. -/
theorem checkConfig_protocol_distribution (x : Externals) (cfg : ConfigYaml)
    (E1 : List LbConfig) (engine : String) (T1 : List TargetsConfig) (t0 : TargetsConfig)
    (T2 : List TargetsConfig) (E2 : List LbConfig) (dist : String)
    (h : checkConfig x cfg = none)
    (hacc : checkConfig x (configWithTarget E1 engine T1 t0 T2 E2) = none)
    (hdist : (getDistMode dist).2 ≠ none) :
    (∀ e ∈ cfg.LbConfig, ∃ lbE, getLbEngineType e.Engine = (lbE, none) ∧
      ∀ t ∈ e.TargetsConfig, ∃ tP modes,
        getLbProtocol t.Protocol = (tP, none) ∧
        (getCapabilities lbE).lookup tP = some modes ∧
        (modes.lookup (getDistMode t.UpstreamGroup.Distribution).1).isSome = true ∧
        (getDistMode t.UpstreamGroup.Distribution).2 = none ∧
        t.Protocol = "tcp" ∧ t.UpstreamGroup.Distribution = "round-robin") ∧
    checkConfig x
        (configWithTarget E1 engine T1
          { t0 with UpstreamGroup := { t0.UpstreamGroup with Distribution := dist } } T2 E2)
      = some [Sentinel.errLbCheckConf, Sentinel.errConfDistMode] := by
  constructor
  · intro e he
    obtain ⟨lbE, st0, st', hE, -, hts⟩ := checkConfig_entries x cfg h e he
    refine ⟨lbE, hE, ?_⟩
    intro t ht
    have hok := (checkTargets_all_ok x _ _ 0 st0 st' hts t ht).1
    obtain ⟨h1, h2, h3⟩ := targetOk_tcp _ (getCapabilities_tcpRoundRobinOnly lbE) t hok
    obtain ⟨tP, modes, hp, hm, hd⟩ := hok
    exact ⟨tP, modes, hp, hm, hd, h3, h1, h2⟩
  · obtain ⟨lbE, st, -, ⟨st', ht0⟩, hall⟩ :=
      checkConfig_target_reached x E1 engine T1 t0 T2 E2 hacc
    exact hall _ _ (checkTarget_unparsable_distribution x lbE _ t0 st st' dist hdist ht0)

/-- Witness of C14: in the accepted sample configuration every target is tcp and
round-robin, and replacing the distribution of its second target by `bleh` gives the
unsupported-distribution error. -/
theorem checkConfig_protocol_distribution_witness :
    checkConfig sampleExternals
        (configWithTarget [] "nftables"
          [sampleTargetConfig "t1" "tcp" 8081 "g1" "round-robin"
            [sampleUpstreamConfig "u1" "10.0.0.1", sampleUpstreamConfig "u2" "10.0.0.2"]]
          (sampleTargetConfig "t2" "tcp" 8082 "g2" "bleh"
            [sampleUpstreamConfig "u3" "10.0.0.3"]) [] [])
      = some [Sentinel.errLbCheckConf, Sentinel.errConfDistMode] :=
  (checkConfig_protocol_distribution sampleExternals sampleAccepted [] "nftables"
    [sampleTargetConfig "t1" "tcp" 8081 "g1" "round-robin"
      [sampleUpstreamConfig "u1" "10.0.0.1", sampleUpstreamConfig "u2" "10.0.0.2"]]
    (sampleTargetConfig "t2" "tcp" 8082 "g2" "round-robin"
      [sampleUpstreamConfig "u3" "10.0.0.3"]) [] [] "bleh"
    (by decide) (by decide) (by decide)).2

/-! ## Accepted configurations: health check blocks -/

theorem getHcProto_tcp (s : String) (h : (getHcProto s).1 = hcProtoTcp) : s = "tcp" := by
  unfold getHcProto at h
  split_ifs at h with h1 h2 h3 h4 h5
  · exact h1
  · exact absurd h (by decide)
  · exact absurd h (by decide)
  · exact absurd h (by decide)
  · exact absurd h (by decide)
  · exact absurd h (by decide)

theorem supHcProto_lookup (p : hcProto) (h : (supHcProto.lookup p).isNone = false) :
    p = hcProtoTcp := by
  by_cases hp : p = hcProtoTcp
  · exact hp
  · have hb : (p == hcProtoTcp) = false := by simpa using hp
    simp [supHcProto, List.lookup, hb] at h

theorem checkHealthCheck_none (u : UpstreamsConfig) (h : checkHealthCheck u = none)
    (hblock : u.HealthCheck ≠ HealthCheckConfig.zero) :
    (getHcProto u.HealthCheck.Protocol).1 = hcProtoTcp ∧ u.HealthCheck.Protocol = "tcp" ∧
    u.HealthCheck.Port ≠ 0 ∧ u.HealthCheck.Probe.CheckInterval ≠ 0 ∧
    u.HealthCheck.Probe.Timeout ≠ 0 ∧ u.HealthCheck.Probe.Count ≠ 0 := by
  unfold checkHealthCheck at h
  rw [if_pos hblock] at h
  split_ifs at h with h1 h2 h3 h4 h5
  have hfalse : (supHcProto.lookup (getHcProto u.HealthCheck.Protocol).1).isNone = false := by
    cases hb : (supHcProto.lookup (getHcProto u.HealthCheck.Protocol).1).isNone with
    | false => rfl
    | true => exact absurd hb h1
  have hp := supHcProto_lookup _ hfalse
  exact ⟨hp, getHcProto_tcp _ hp, h2, h3, h5, h4⟩

theorem checkHealthCheck_tcp (u : UpstreamsConfig) (hproto : u.HealthCheck.Protocol = "tcp") :
    checkHealthCheck u =
      if u.HealthCheck.Port = 0 then
        some [Sentinel.errLbCheckConf, Sentinel.errConfProbePort]
      else if u.HealthCheck.Probe.CheckInterval = 0 then
        some [Sentinel.errLbCheckConf, Sentinel.errConfProbeCI]
      else if u.HealthCheck.Probe.Count = 0 then
        some [Sentinel.errLbCheckConf, Sentinel.errConfProbeSC]
      else if u.HealthCheck.Probe.Timeout = 0 then
        some [Sentinel.errLbCheckConf, Sentinel.errConfProbeTimeout]
      else none := by
  have hblock : u.HealthCheck ≠ HealthCheckConfig.zero := by
    intro h
    have := congrArg HealthCheckConfig.Protocol h
    rw [hproto] at this
    exact absurd this (by decide)
  have hsup : ¬ (supHcProto.lookup (getHcProto u.HealthCheck.Protocol).1).isNone = true := by
    rw [hproto]
    decide
  unfold checkHealthCheck
  rw [if_pos hblock, if_neg hsup]

theorem checkUpstream_healthCheck_error (x : Externals) (u0 : UpstreamsConfig)
    (hc : HealthCheckConfig) (st st' : checkState) (err : Error)
    (h0 : checkUpstream x u0 st = Except.ok st')
    (herr : checkHealthCheck { u0 with HealthCheck := hc } = some err) :
    checkUpstream x { u0 with HealthCheck := hc } st = Except.error err := by
  unfold checkUpstream at h0 ⊢
  dsimp only at h0 ⊢
  split_ifs at h0 with h1 h2
  rw [if_neg h1, if_neg h2, herr]

/-- C15: in a configuration accepted by `checkConfig`, every upstream whose health
check block is not the all-zero block has the check protocol `tcp`, the only
supported one, and non-zero port, check interval, timeout and success count. And a
configuration that is accepted with some health check block of an upstream is
rejected, once that block is replaced by a tcp block with a zero field, with the
error of the first zero field in the order port, check interval, success count,
timeout (so with the error of that field when it is the only zero one). -/
theorem checkConfig_health_check_fields (x : Externals) (cfg : ConfigYaml)
    (E1 : List LbConfig) (engine : String) (T1 : List TargetsConfig) (t0 : TargetsConfig)
    (U1 : List UpstreamsConfig) (u0 : UpstreamsConfig) (U2 : List UpstreamsConfig)
    (T2 : List TargetsConfig) (E2 : List LbConfig) (hc : HealthCheckConfig)
    (h : checkConfig x cfg = none)
    (hacc : checkConfig x
      (configWithTarget E1 engine T1 (targetWithUpstream t0 U1 u0 U2) T2 E2) = none)
    (hproto : hc.Protocol = "tcp") :
    (∀ e ∈ cfg.LbConfig, ∀ t ∈ e.TargetsConfig, ∀ u ∈ t.UpstreamGroup.Upstreams,
      u.HealthCheck ≠ HealthCheckConfig.zero →
        (getHcProto u.HealthCheck.Protocol).1 = hcProtoTcp ∧ u.HealthCheck.Protocol = "tcp" ∧
        u.HealthCheck.Port ≠ 0 ∧ u.HealthCheck.Probe.CheckInterval ≠ 0 ∧
        u.HealthCheck.Probe.Timeout ≠ 0 ∧ u.HealthCheck.Probe.Count ≠ 0) ∧
    (hc.Port = 0 →
      checkConfig x (configWithTarget E1 engine T1
          (targetWithUpstream t0 U1 { u0 with HealthCheck := hc } U2) T2 E2)
        = some [Sentinel.errLbCheckConf, Sentinel.errConfProbePort]) ∧
    (hc.Port ≠ 0 → hc.Probe.CheckInterval = 0 →
      checkConfig x (configWithTarget E1 engine T1
          (targetWithUpstream t0 U1 { u0 with HealthCheck := hc } U2) T2 E2)
        = some [Sentinel.errLbCheckConf, Sentinel.errConfProbeCI]) ∧
    (hc.Port ≠ 0 → hc.Probe.CheckInterval ≠ 0 → hc.Probe.Count = 0 →
      checkConfig x (configWithTarget E1 engine T1
          (targetWithUpstream t0 U1 { u0 with HealthCheck := hc } U2) T2 E2)
        = some [Sentinel.errLbCheckConf, Sentinel.errConfProbeSC]) ∧
    (hc.Port ≠ 0 → hc.Probe.CheckInterval ≠ 0 → hc.Probe.Count ≠ 0 → hc.Probe.Timeout = 0 →
      checkConfig x (configWithTarget E1 engine T1
          (targetWithUpstream t0 U1 { u0 with HealthCheck := hc } U2) T2 E2)
        = some [Sentinel.errLbCheckConf, Sentinel.errConfProbeTimeout]) := by
  obtain ⟨st, ⟨st', hu0⟩, hall⟩ :=
    checkConfig_upstream_reached x E1 engine T1 t0 U1 u0 U2 T2 E2 hacc
  have hcase := checkHealthCheck_tcp { u0 with HealthCheck := hc } hproto
  dsimp only at hcase
  refine ⟨?_, ?_, ?_, ?_, ?_⟩
  · intro e he t ht u hu hblock
    obtain ⟨lbE, st0, st1, -, -, hts⟩ := checkConfig_entries x cfg h e he
    obtain ⟨-, hhc, -⟩ := (checkTargets_all_ok x _ _ 0 st0 st1 hts t ht).2 u hu
    exact checkHealthCheck_none u hhc hblock
  · intro h1
    apply hall
    apply checkUpstream_healthCheck_error x u0 hc st st' _ hu0
    rw [hcase, if_pos h1]
  · intro h1 h2
    apply hall
    apply checkUpstream_healthCheck_error x u0 hc st st' _ hu0
    rw [hcase, if_neg h1, if_pos h2]
  · intro h1 h2 h3
    apply hall
    apply checkUpstream_healthCheck_error x u0 hc st st' _ hu0
    rw [hcase, if_neg h1, if_neg h2, if_pos h3]
  · intro h1 h2 h3 h4
    apply hall
    apply checkUpstream_healthCheck_error x u0 hc st st' _ hu0
    rw [hcase, if_neg h1, if_neg h2, if_neg h3, if_pos h4]

/-- Witness of C15: the sample configuration with a health check block is accepted,
and with the timeout of that block set to 0 it is rejected with the probe-timeout
error. -/
theorem checkConfig_health_check_fields_witness :
    checkConfig sampleExternals
        (configWithTarget [] "testEngine" []
          (targetWithUpstream (sampleTargetConfig "t1" "tcp" 8081 "g1" "round-robin" []) []
            { sampleUpstreamConfig "u1" "10.0.0.1" with
              HealthCheck :=
                { sampleHealthCheck with
                  Probe := { CheckInterval := 1, Timeout := 0, Count := 3 } } } [])
          [] [])
      = some [Sentinel.errLbCheckConf, Sentinel.errConfProbeTimeout] :=
  (checkConfig_health_check_fields sampleExternals sampleCheckedConfig [] "testEngine" []
    (sampleTargetConfig "t1" "tcp" 8081 "g1" "round-robin" []) []
    { sampleUpstreamConfig "u1" "10.0.0.1" with HealthCheck := sampleHealthCheck } [] [] []
    { sampleHealthCheck with Probe := { CheckInterval := 1, Timeout := 0, Count := 3 } }
    (by decide) (by decide) rfl).2.2.2.2 (by decide) (by decide) (by decide) rfl

/-! ## `getConfig` on an accepted configuration -/

theorem getConfigUpstreams_et (x : Externals) (lbp : lbProto) (us : List UpstreamsConfig)
    (l : lb) (acc : List upstream) :
    (getConfigUpstreams x lbp us l acc).1.et = l.et := by
  induction us generalizing l acc with
  | nil => rfl
  | cons u us ih =>
    simp only [getConfigUpstreams]
    rw [ih]
    unfold lb.addUpstreamIps
    split_ifs <;> rfl

theorem getConfigTargets_ok (x : Externals) (ts : List TargetsConfig) (l : lb)
    (h : ∀ t ∈ ts, (getDistMode t.UpstreamGroup.Distribution).2 = none) :
    (getConfigTargets x ts l).2 = none ∧
    (getConfigTargets x ts l).1.targets = l.targets ++ ts.map (getConfigTarget x) ∧
    (getConfigTargets x ts l).1.et = l.et := by
  induction ts generalizing l with
  | nil => simp [getConfigTargets]
  | cons t ts ih =>
    have ht := h t (List.mem_cons_self _ _)
    have hts : ∀ t' ∈ ts, (getDistMode t'.UpstreamGroup.Distribution).2 = none :=
      fun t' ht' => h t' (List.mem_cons_of_mem _ ht')
    unfold getConfigTargets
    cases hdm : getDistMode t.UpstreamGroup.Distribution with
    | mk dMode err =>
      rw [hdm] at ht
      dsimp only at ht
      subst ht
      dsimp only
      obtain ⟨h1, -, h3⟩ := getConfigUpstreams_eq x (getLbProtocol t.Protocol).1
        t.UpstreamGroup.Upstreams l []
      have h4 := getConfigUpstreams_et x (getLbProtocol t.Protocol).1
        t.UpstreamGroup.Upstreams l []
      obtain ⟨i1, i2, i3⟩ := ih
        { (getConfigUpstreams x (getLbProtocol t.Protocol).1 t.UpstreamGroup.Upstreams l []).1 with
          targets :=
            (getConfigUpstreams x (getLbProtocol t.Protocol).1
              t.UpstreamGroup.Upstreams l []).1.targets ++
            [{ name := t.Name
               protocol := (getLbProtocol t.Protocol).1
               ip := t.Ip
               port := t.Port
               upstreamGroup :=
                 { name := t.UpstreamGroup.Name
                   distMode := dMode
                   upstreams := (getConfigUpstreams x (getLbProtocol t.Protocol).1
                     t.UpstreamGroup.Upstreams l []).2
                   failoverMode := ugFoModeInactive
                   previousFailoverMode := ugFoModeUnknown }
               nftRuleInit := false }] } hts
      refine ⟨i1, ?_, ?_⟩
      · rw [i2]
        dsimp only
        rw [h3, h1, List.map_cons, List.append_assoc]
        unfold getConfigTarget
        rw [hdm]
        simp
      · rw [i3]
        exact h4

theorem getConfig_ok (x : Externals) (e : LbConfig) (l : lb) (lbE : lbEngineType)
    (hE : getLbEngineType e.Engine = (lbE, none))
    (h : ∀ t ∈ e.TargetsConfig, (getDistMode t.UpstreamGroup.Distribution).2 = none) :
    (l.getConfig x e).2 = none ∧
    (l.getConfig x e).1.targets = l.targets ++ e.TargetsConfig.map (getConfigTarget x) ∧
    (l.getConfig x e).1.et = lbE := by
  unfold lb.getConfig
  rw [hE]
  dsimp only
  exact getConfigTargets_ok x e.TargetsConfig { l with et := lbE } h

theorem getLbEngineType_known (s : String) (lbE : lbEngineType)
    (h : getLbEngineType s = (lbE, none)) : lbE = lbEngineTest ∨ lbE = lbEngineNft := by
  unfold getLbEngineType at h
  split_ifs at h with h1 h2
  · exact Or.inl (congrArg Prod.fst h).symm
  · exact Or.inr (congrArg Prod.fst h).symm
  · exact absurd (congrArg Prod.snd h) (by simp)

theorem getHostType_resolver (x : Externals)
    (resolver : String → List String → IP × Nat × Option Error) (ttl : Nat) (host : String) :
    getHostType { x with resolver := resolver, defaultDnsTtl := ttl } host = getHostType x host :=
  rfl

theorem getConfigUpstream_enums (x : Externals) (lbp : lbProto) (u : UpstreamsConfig)
    (hhc : checkHealthCheck u = none) :
    (getConfigUpstream x lbp u).protocol = lbp ∧
    ((getConfigUpstream x lbp u).healthCheck.active = true →
      (getConfigUpstream x lbp u).healthCheck.protocol = hcProtoTcp) := by
  refine ⟨rfl, ?_⟩
  intro hact
  have hblock : u.HealthCheck ≠ HealthCheckConfig.zero := by
    have : decide (u.HealthCheck ≠ HealthCheckConfig.zero) = true := hact
    simpa using this
  have hp := (checkHealthCheck_none u hhc hblock).1
  show (if decide (u.HealthCheck ≠ HealthCheckConfig.zero) = true then
      (getHcProto u.HealthCheck.Protocol).1 else hcProtoUnknown) = hcProtoTcp
  rw [if_pos (by simpa using hblock), hp]

/-- C16: when `checkConfig` accepts a configuration, then for every engine entry of
it `getConfig` (on the fresh instance `lbInit` gives it, whatever the resolver
answers) returns no error, the engine type it stores is known, every target it
builds has a known protocol and a known distribution mode, every upstream it builds
has a known protocol and, when its health check is active, a known check protocol,
and the host type it computes for every upstream is known. -/
theorem getConfig_after_checkConfig (x : Externals) (cfg : ConfigYaml)
    (resolver : String → List String → IP × Nat × Option Error) (ttl : Nat)
    (h : checkConfig x cfg = none) :
    ∀ e ∈ cfg.LbConfig,
      (lb.fresh.getConfig { x with resolver := resolver, defaultDnsTtl := ttl } e).2 = none ∧
      (lb.fresh.getConfig { x with resolver := resolver, defaultDnsTtl := ttl } e).1.et
        = (getLbEngineType e.Engine).1 ∧
      (lb.fresh.getConfig { x with resolver := resolver, defaultDnsTtl := ttl } e).1.et
        ≠ lbEngineUnknown ∧
      (lb.fresh.getConfig { x with resolver := resolver, defaultDnsTtl := ttl } e).1.targets
        = e.TargetsConfig.map
            (getConfigTarget { x with resolver := resolver, defaultDnsTtl := ttl }) ∧
      (∀ t ∈ (lb.fresh.getConfig
            { x with resolver := resolver, defaultDnsTtl := ttl } e).1.targets,
        t.protocol ≠ lbProtoUnknown ∧ t.upstreamGroup.distMode ≠ distModeUnknown ∧
        ∀ u ∈ t.upstreamGroup.upstreams,
          u.protocol ≠ lbProtoUnknown ∧
          (u.healthCheck.active = true → u.healthCheck.protocol ≠ hcProtoUnknown)) ∧
      (∀ tc ∈ e.TargetsConfig, ∀ uc ∈ tc.UpstreamGroup.Upstreams,
        (getHostType { x with resolver := resolver, defaultDnsTtl := ttl } uc.Host).1
          ≠ hostTypeUnknown) := by
  intro e he
  obtain ⟨lbE, st0, st', hE, -, hts⟩ := checkConfig_entries x cfg h e he
  have hall := checkTargets_all_ok x _ _ 0 st0 st' hts
  have hec := getCapabilities_tcpRoundRobinOnly lbE
  have hdist : ∀ t ∈ e.TargetsConfig, (getDistMode t.UpstreamGroup.Distribution).2 = none :=
    fun t ht => (targetOk_tcp _ hec t (hall t ht).1).2.2
  obtain ⟨g1, g2, g3⟩ := getConfig_ok { x with resolver := resolver, defaultDnsTtl := ttl }
    e lb.fresh lbE hE hdist
  have g2' : (lb.fresh.getConfig { x with resolver := resolver, defaultDnsTtl := ttl } e).1.targets
      = e.TargetsConfig.map
          (getConfigTarget { x with resolver := resolver, defaultDnsTtl := ttl }) := by
    rw [g2]
    rfl
  refine ⟨g1, ?_, ?_, g2', ?_, ?_⟩
  · rw [g3, hE]
  · rw [g3]
    rcases getLbEngineType_known _ _ hE with hk | hk <;> rw [hk] <;> decide
  · intro t ht
    rw [g2'] at ht
    obtain ⟨tc, htc, rfl⟩ := List.mem_map.1 ht
    obtain ⟨hok, hups⟩ := hall tc htc
    obtain ⟨hp, hd, -⟩ := targetOk_tcp _ hec tc hok
    have hproto : (getLbProtocol tc.Protocol).1 = lbProtoTcp := by
      rw [hp]
      rfl
    have hmode : (getDistMode tc.UpstreamGroup.Distribution).1 = distModeRR := by
      rw [hd]
      rfl
    refine ⟨?_, ?_, ?_⟩
    · show (getLbProtocol tc.Protocol).1 ≠ lbProtoUnknown
      rw [hproto]
      decide
    · show (getDistMode tc.UpstreamGroup.Distribution).1 ≠ distModeUnknown
      rw [hmode]
      decide
    · intro u hu
      have hu' : u ∈ tc.UpstreamGroup.Upstreams.map
          (getConfigUpstream { x with resolver := resolver, defaultDnsTtl := ttl }
            (getLbProtocol tc.Protocol).1) := hu
      obtain ⟨uc, huc, rfl⟩ := List.mem_map.1 hu'
      obtain ⟨e1, e2⟩ := getConfigUpstream_enums
        { x with resolver := resolver, defaultDnsTtl := ttl } (getLbProtocol tc.Protocol).1 uc
        (hups uc huc).2.1
      refine ⟨?_, ?_⟩
      · rw [e1, hproto]
        decide
      · intro hact
        rw [e2 hact]
        decide
  · intro tc htc uc huc
    rw [getHostType_resolver]
    exact (hall tc htc).2 uc huc |>.1

/-- Witness of C16: `getConfig` on the entry of the accepted sample configuration
returns no error even though no name resolves. -/
theorem getConfig_after_checkConfig_witness :
    (lb.fresh.getConfig sampleExternals sampleAcceptedEntry).2 = none :=
  (getConfig_after_checkConfig sampleExternals sampleAccepted sampleExternals.resolver
    sampleExternals.defaultDnsTtl (by decide) sampleAcceptedEntry (by decide)).1

/-! ## The errors of `checkConfig` -/

theorem checkConfError_of_mem (c : Sentinel) (hc : c ∈ checkConfigCauses) :
    checkConfError [Sentinel.errLbCheckConf, c] :=
  ⟨c, hc, rfl⟩

theorem checkHealthCheck_error (u : UpstreamsConfig) (e : Error)
    (h : checkHealthCheck u = some e) : checkConfError e := by
  unfold checkHealthCheck at h
  split_ifs at h <;> cases h <;> exact checkConfError_of_mem _ (by decide)

theorem checkDnsServers_error (x : Externals) (servers : List String) (e : Error)
    (h : checkDnsServers x servers = some e) : checkConfError e := by
  induction servers with
  | nil => cases h
  | cons a rest ih =>
    simp only [checkDnsServers] at h
    split_ifs at h
    · cases h
      exact checkConfError_of_mem _ (by decide)
    · exact ih h

theorem checkUpstream_error (x : Externals) (u : UpstreamsConfig) (st : checkState)
    (e : Error) (h : checkUpstream x u st = Except.error e) : checkConfError e := by
  unfold checkUpstream at h
  split_ifs at h
  · cases h
    exact checkConfError_of_mem _ (by decide)
  · cases h
    exact checkConfError_of_mem _ (by decide)
  · dsimp only at h
    split at h
    · rename_i err herr
      cases h
      exact checkHealthCheck_error u _ herr
    · split at h
      · rename_i err herr
        cases h
        exact checkDnsServers_error x _ _ herr
      · cases h

theorem checkUpstreams_error (x : Externals) (us : List UpstreamsConfig) (st : checkState)
    (e : Error) (h : checkUpstreams x us st = Except.error e) : checkConfError e := by
  induction us generalizing st with
  | nil => cases h
  | cons u us ih =>
    simp only [checkUpstreams] at h
    split at h
    · rename_i err herr
      cases h
      exact checkUpstream_error x u st _ herr
    · rename_i st1 _
      exact ih st1 h

theorem checkTargetNames_error (i : Nat) (t : TargetsConfig) (st : checkState) (e : Error)
    (h : checkTargetNames i t st = Except.error e) : checkConfError e := by
  unfold checkTargetNames at h
  split_ifs at h
  · cases h
    exact checkConfError_of_mem _ (by decide)
  · dsimp only at h
    split at h <;> split_ifs at h <;> cases h <;> exact checkConfError_of_mem _ (by decide)

theorem getLbProtocol_error (s : String) (tP : lbProto) (err : Error)
    (h : getLbProtocol s = (tP, some err)) : err = [Sentinel.errLbProto] := by
  unfold getLbProtocol at h
  split_ifs at h <;> cases h
  rfl

theorem getLbEngineType_error (s : String) (lbE : lbEngineType) (err : Error)
    (h : getLbEngineType s = (lbE, some err)) : err = [Sentinel.errLbEngineType] := by
  unfold getLbEngineType at h
  split_ifs at h <;> cases h
  rfl

theorem checkTarget_error (x : Externals) (ec : capabilities) (i : Nat) (t : TargetsConfig)
    (st : checkState) (e : Error) (h : checkTarget x ec i t st = Except.error e) :
    checkConfError e := by
  unfold checkTarget at h
  split at h
  · rename_i err herr
    cases h
    exact checkTargetNames_error i t st _ herr
  · rename_i st1 _
    split at h
    · rename_i tP err herr
      cases h
      rw [getLbProtocol_error _ _ _ herr]
      exact checkConfError_of_mem _ (by decide)
    · split at h
      · cases h
        exact checkConfError_of_mem _ (by decide)
      · split_ifs at h
        · cases h
          exact checkConfError_of_mem _ (by decide)
        · exact checkUpstreams_error x _ st1 _ h

theorem checkTargets_error (x : Externals) (ec : capabilities) (ts : List TargetsConfig)
    (i : Nat) (st : checkState) (e : Error)
    (h : checkTargets x ec ts i st = Except.error e) : checkConfError e := by
  induction ts generalizing i st with
  | nil => cases h
  | cons t ts ih =>
    simp only [checkTargets] at h
    split at h
    · rename_i err herr
      cases h
      exact checkTarget_error x ec i t st _ herr
    · rename_i st1 _
      exact ih (i + 1) st1 h

theorem checkEngine_error (x : Externals) (i : Nat) (lbc : LbConfig) (st : checkState)
    (e : Error) (h : checkEngine x i lbc st = Except.error e) : checkConfError e := by
  unfold checkEngine at h
  split at h
  · rename_i lbE err herr
    cases h
    rw [getLbEngineType_error _ _ _ herr]
    exact checkConfError_of_mem _ (by decide)
  · dsimp only at h
    split_ifs at h
    · cases h
      exact checkConfError_of_mem _ (by decide)
    · exact checkTargets_error x _ _ _ _ _ h
    · exact checkTargets_error x _ _ _ _ _ h

theorem checkEngines_error (x : Externals) (es : List LbConfig) (i : Nat) (st : checkState)
    (e : Error) (h : checkEngines x es i st = some e) : checkConfError e := by
  induction es generalizing i st with
  | nil => cases h
  | cons lbc es ih =>
    simp only [checkEngines] at h
    split at h
    · rename_i err herr
      cases h
      exact checkEngine_error x i lbc st _ herr
    · rename_i st1 _
      exact ih (i + 1) st1 h

/-- C17: every error `checkConfig` returns is `errLbCheckConf` wrapping exactly one
specific cause out of the causes of the violation kinds, and `errors.Is` holds for
both. Each kind is reported with its own cause: unknown engine, repeated engine,
repeated target name, repeated upstream group name, repeated upstream name, repeated
port/protocol, unknown protocol, unsupported protocol, unsupported distribution,
invalid host, invalid DNS address, unsupported check protocol and zero probe port,
check interval, success count and timeout. -/
theorem checkConfig_error_wraps (x : Externals) (cfg : ConfigYaml) (e : Error)
    (h : checkConfig x cfg = some e) :
    (∃ c ∈ checkConfigCauses, e = [Sentinel.errLbCheckConf, c] ∧
      errorsIs (checkConfig x cfg) Sentinel.errLbCheckConf = true ∧
      errorsIs (checkConfig x cfg) c = true) ∧
    checkConfig sampleExternals ⟨[⟨"bogus", []⟩]⟩
      = some [Sentinel.errLbCheckConf, Sentinel.errLbEngineType] ∧
    checkConfig sampleExternals ⟨[⟨"nftables", []⟩, ⟨"nftables", []⟩]⟩
      = some [Sentinel.errLbCheckConf, Sentinel.errConfRepEngine] ∧
    checkConfig sampleExternals
        (sampleOneEntry
          [sampleTargetConfig "t1" "tcp" 8081 "g1" "round-robin"
            [sampleUpstreamConfig "u1" "10.0.0.1"],
           sampleTargetConfig "t1" "tcp" 8082 "g2" "round-robin"
            [sampleUpstreamConfig "u2" "10.0.0.2"]])
      = some [Sentinel.errLbCheckConf, Sentinel.errConfRepTargetName] ∧
    checkConfig sampleExternals
        (sampleOneEntry
          [sampleTargetConfig "t1" "tcp" 8081 "g1" "round-robin"
            [sampleUpstreamConfig "u1" "10.0.0.1"],
           sampleTargetConfig "t2" "tcp" 8082 "g1" "round-robin"
            [sampleUpstreamConfig "u2" "10.0.0.2"]])
      = some [Sentinel.errLbCheckConf, Sentinel.errConfRepUGName] ∧
    checkConfig sampleExternals
        (sampleOneEntry
          [sampleTargetConfig "t1" "tcp" 8081 "g1" "round-robin"
            [sampleUpstreamConfig "u1" "10.0.0.1", sampleUpstreamConfig "u1" "10.0.0.2"]])
      = some [Sentinel.errLbCheckConf, Sentinel.errConfRepUName] ∧
    checkConfig sampleExternals
        (sampleOneEntry
          [sampleTargetConfig "t1" "tcp" 8081 "g1" "round-robin"
            [sampleUpstreamConfig "u1" "10.0.0.1"],
           sampleTargetConfig "t2" "tcp" 8081 "g2" "round-robin"
            [sampleUpstreamConfig "u2" "10.0.0.2"]])
      = some [Sentinel.errLbCheckConf, Sentinel.errConfRepPortProto] ∧
    checkConfig sampleExternals
        (sampleOneEntry
          [sampleTargetConfig "t1" "bogus" 8081 "g1" "round-robin"
            [sampleUpstreamConfig "u1" "10.0.0.1"]])
      = some [Sentinel.errLbCheckConf, Sentinel.errLbProto] ∧
    checkConfig sampleExternals
        (sampleOneEntry
          [sampleTargetConfig "t1" "udp" 8081 "g1" "round-robin"
            [sampleUpstreamConfig "u1" "10.0.0.1"]])
      = some [Sentinel.errLbCheckConf, Sentinel.errConfTargetProto] ∧
    checkConfig sampleExternals
        (sampleOneEntry
          [sampleTargetConfig "t1" "tcp" 8081 "g1" "weighted"
            [sampleUpstreamConfig "u1" "10.0.0.1"]])
      = some [Sentinel.errLbCheckConf, Sentinel.errConfDistMode] ∧
    checkConfig sampleExternals (sampleOneUpstream (sampleUpstreamConfig "u1" "8.8.8.8.8"))
      = some [Sentinel.errLbCheckConf, Sentinel.errConfUHost] ∧
    checkConfig sampleExternals
        (sampleOneUpstream
          { sampleUpstreamConfig "u1" "10.0.0.1" with Dns := { Servers := ["dns"], Ttl := 0 } })
      = some [Sentinel.errLbCheckConf, Sentinel.errConfDnsAddr] ∧
    checkConfig sampleExternals
        (sampleOneUpstream
          { sampleUpstreamConfig "u1" "10.0.0.1" with
            HealthCheck := { sampleHealthCheck with Protocol := "udp" } })
      = some [Sentinel.errLbCheckConf, Sentinel.errConfHcProtocol] ∧
    checkConfig sampleExternals
        (sampleOneUpstream
          { sampleUpstreamConfig "u1" "10.0.0.1" with
            HealthCheck := { sampleHealthCheck with Port := 0 } })
      = some [Sentinel.errLbCheckConf, Sentinel.errConfProbePort] ∧
    checkConfig sampleExternals
        (sampleOneUpstream
          { sampleUpstreamConfig "u1" "10.0.0.1" with
            HealthCheck :=
              { sampleHealthCheck with Probe := { CheckInterval := 0, Timeout := 2, Count := 3 } } })
      = some [Sentinel.errLbCheckConf, Sentinel.errConfProbeCI] ∧
    checkConfig sampleExternals
        (sampleOneUpstream
          { sampleUpstreamConfig "u1" "10.0.0.1" with
            HealthCheck :=
              { sampleHealthCheck with Probe := { CheckInterval := 1, Timeout := 2, Count := 0 } } })
      = some [Sentinel.errLbCheckConf, Sentinel.errConfProbeSC] ∧
    checkConfig sampleExternals
        (sampleOneUpstream
          { sampleUpstreamConfig "u1" "10.0.0.1" with
            HealthCheck :=
              { sampleHealthCheck with Probe := { CheckInterval := 1, Timeout := 0, Count := 3 } } })
      = some [Sentinel.errLbCheckConf, Sentinel.errConfProbeTimeout] := by
  constructor
  swap
  · decide
  obtain ⟨c, hc, rfl⟩ := checkEngines_error x cfg.LbConfig 0 _ e h
  refine ⟨c, hc, rfl, ?_, ?_⟩
  · rw [h]
    simp [errorsIs]
  · rw [h]
    simp [errorsIs]

/-- Witness of C17: the error for two nftables entries wraps `errLbCheckConf` and
`errConfRepEngine`. -/
theorem checkConfig_error_wraps_witness :
    ∃ c ∈ checkConfigCauses,
      [Sentinel.errLbCheckConf, Sentinel.errConfRepEngine] = [Sentinel.errLbCheckConf, c] ∧
      errorsIs (checkConfig sampleExternals ⟨[⟨"nftables", []⟩, ⟨"nftables", []⟩]⟩)
        Sentinel.errLbCheckConf = true ∧
      errorsIs (checkConfig sampleExternals ⟨[⟨"nftables", []⟩, ⟨"nftables", []⟩]⟩) c = true :=
  (checkConfig_error_wraps sampleExternals ⟨[⟨"nftables", []⟩, ⟨"nftables", []⟩]⟩
    [Sentinel.errLbCheckConf, Sentinel.errConfRepEngine] (by decide)).1

/-! ## Initial availability -/

theorem getConfigTargets_targets (x : Externals) (ts : List TargetsConfig) (l : lb) :
    ∃ k, (getConfigTargets x ts l).1.targets = l.targets ++ (ts.take k).map (getConfigTarget x) := by
  induction ts generalizing l with
  | nil => exact ⟨0, by simp [getConfigTargets]⟩
  | cons t ts ih =>
    unfold getConfigTargets
    cases hdm : getDistMode t.UpstreamGroup.Distribution with
    | mk dMode err =>
      cases err with
      | some e => exact ⟨0, by simp⟩
      | none =>
        dsimp only
        obtain ⟨h1, -, h3⟩ := getConfigUpstreams_eq x (getLbProtocol t.Protocol).1
          t.UpstreamGroup.Upstreams l []
        obtain ⟨k, hk⟩ := ih
          { (getConfigUpstreams x (getLbProtocol t.Protocol).1 t.UpstreamGroup.Upstreams l []).1 with
            targets :=
              (getConfigUpstreams x (getLbProtocol t.Protocol).1
                t.UpstreamGroup.Upstreams l []).1.targets ++
              [{ name := t.Name
                 protocol := (getLbProtocol t.Protocol).1
                 ip := t.Ip
                 port := t.Port
                 upstreamGroup :=
                   { name := t.UpstreamGroup.Name
                     distMode := dMode
                     upstreams := (getConfigUpstreams x (getLbProtocol t.Protocol).1
                       t.UpstreamGroup.Upstreams l []).2
                     failoverMode := ugFoModeInactive
                     previousFailoverMode := ugFoModeUnknown }
                 nftRuleInit := false }] }
        refine ⟨k + 1, ?_⟩
        rw [hk]
        dsimp only
        rw [h3, h1, List.take_succ_cons, List.map_cons, List.append_assoc]
        unfold getConfigTarget
        rw [hdm]
        simp

theorem getConfig_upstream_mem (x : Externals) (e : LbConfig) (up : upstream)
    (h : up ∈ (lb.fresh.getConfig x e).1.allUpstreams) :
    ∃ tc ∈ e.TargetsConfig, ∃ uc ∈ tc.UpstreamGroup.Upstreams,
      up = getConfigUpstream x (getLbProtocol tc.Protocol).1 uc := by
  have htargets : ∃ k, (lb.fresh.getConfig x e).1.targets
      = (e.TargetsConfig.take k).map (getConfigTarget x) := by
    unfold lb.getConfig
    cases het : getLbEngineType e.Engine with
    | mk et err =>
      cases err with
      | some err => exact ⟨0, by simp [lb.fresh]⟩
      | none =>
        obtain ⟨k, hk⟩ := getConfigTargets_targets x e.TargetsConfig { lb.fresh with et := et }
        exact ⟨k, by rw [hk]; simp [lb.fresh]⟩
  obtain ⟨k, hk⟩ := htargets
  unfold lb.allUpstreams at h
  rw [hk, List.mem_flatMap] at h
  obtain ⟨t, ht, hup⟩ := h
  obtain ⟨tc, htc, rfl⟩ := List.mem_map.1 ht
  have hup' : up ∈ tc.UpstreamGroup.Upstreams.map
      (getConfigUpstream x (getLbProtocol tc.Protocol).1) := hup
  obtain ⟨uc, huc, rfl⟩ := List.mem_map.1 hup'
  exact ⟨tc, List.mem_of_mem_take htc, uc, huc, rfl⟩

theorem getConfigUpstream_availability (x : Externals) (lbp : lbProto) (uc : UpstreamsConfig) :
    ((getConfigUpstream x lbp uc).available = true ↔
      (uc.HealthCheck = HealthCheckConfig.zero ∨ uc.HealthCheck.StartAvailable = true) ∧
      (((getHostType x uc.Host).1 = hostTypeIPv4 ∨ (getHostType x uc.Host).1 = hostTypeIPv6) ∨
        ((getHostType x uc.Host).1 = hostTypeFqdn ∧
          (resolveFqdn x (getConfigUpstream x lbp uc).host uc.Dns.Servers).2.2 = none))) ∧
    ((getConfigUpstream x lbp uc).healthCheck.active = true ↔
      uc.HealthCheck ≠ HealthCheckConfig.zero) ∧
    ((getHostType x uc.Host).1 = hostTypeFqdn →
      (resolveFqdn x (getConfigUpstream x lbp uc).host uc.Dns.Servers).2.2 ≠ none →
      (getConfigUpstream x lbp uc).address = none ∧
      (getConfigUpstream x lbp uc).dns.ttl
        = (if uc.Dns.Ttl ≠ 0 then uc.Dns.Ttl else x.defaultDnsTtl)) := by
  have hstart : (if decide (uc.HealthCheck ≠ HealthCheckConfig.zero) = true
        then uc.HealthCheck.StartAvailable else true) = true ↔
      (uc.HealthCheck = HealthCheckConfig.zero ∨ uc.HealthCheck.StartAvailable = true) := by
    by_cases hz : uc.HealthCheck = HealthCheckConfig.zero <;> simp [hz]
  refine ⟨?_, ?_, ?_⟩
  · unfold getConfigUpstream
    dsimp only
    by_cases hf : (getHostType x uc.Host).1 = hostTypeFqdn
    · have h4 : ¬ (getHostType x uc.Host).1 = hostTypeIPv4 := by
        rw [hf]
        decide
      have h6 : ¬ (getHostType x uc.Host).1 = hostTypeIPv6 := by
        rw [hf]
        decide
      rw [if_pos hf]
      by_cases hr : (resolveFqdn x
          (if (getHostType x uc.Host).1 = hostTypeFqdn ∧ HasSuffix uc.Host "." = false
            then uc.Host ++ "." else uc.Host) uc.Dns.Servers).2.2 = none
      · rw [if_neg (not_not.2 hr), hstart]
        exact ⟨fun h => ⟨h, Or.inr ⟨hf, hr⟩⟩, fun h => h.1⟩
      · rw [if_pos hr]
        constructor
        · intro h
          cases h
        · rintro ⟨-, (hl | hl) | ⟨-, hr'⟩⟩
          · exact absurd hl h4
          · exact absurd hl h6
          · exact absurd hr' hr
    · rw [if_neg hf]
      by_cases hl : (getHostType x uc.Host).1 = hostTypeIPv4 ∨
          (getHostType x uc.Host).1 = hostTypeIPv6
      · rw [if_pos hl, hstart]
        exact ⟨fun h => ⟨h, Or.inl hl⟩, fun h => h.1⟩
      · rw [if_neg hl]
        constructor
        · intro h
          cases h
        · rintro ⟨-, hl' | ⟨hf', -⟩⟩
          · exact absurd hl' hl
          · exact absurd hf' hf
  · show decide (uc.HealthCheck ≠ HealthCheckConfig.zero) = true ↔ _
    simp
  · intro hf hr
    unfold getConfigUpstream at hr ⊢
    dsimp only at hr ⊢
    rw [if_pos hf, if_pos hr, if_pos hf, if_pos hr]
    exact ⟨rfl, rfl⟩

/-- C18: the initial state `getConfig` gives an upstream. Every upstream of the
instance built by `getConfig` comes from an upstream entry of the configuration and
is available exactly when (its health check block is empty or `start_available` is
set) and (its host is an IP literal or it is an FQDN whose resolution succeeded); its
health check is active exactly when the block is not empty; and when the host is an
FQDN whose resolution fails its address is absent and its DNS TTL is the configured
TTL if that is not zero and the default DNS TTL otherwise. -/
theorem getConfig_initial_availability (x : Externals) (e : LbConfig) (up : upstream)
    (hup : up ∈ (lb.fresh.getConfig x e).1.allUpstreams) :
    ∃ tc ∈ e.TargetsConfig, ∃ uc ∈ tc.UpstreamGroup.Upstreams,
      up = getConfigUpstream x (getLbProtocol tc.Protocol).1 uc ∧
      (up.available = true ↔
        (uc.HealthCheck = HealthCheckConfig.zero ∨ uc.HealthCheck.StartAvailable = true) ∧
        (((getHostType x uc.Host).1 = hostTypeIPv4 ∨ (getHostType x uc.Host).1 = hostTypeIPv6) ∨
          ((getHostType x uc.Host).1 = hostTypeFqdn ∧
            (resolveFqdn x up.host uc.Dns.Servers).2.2 = none))) ∧
      (up.healthCheck.active = true ↔ uc.HealthCheck ≠ HealthCheckConfig.zero) ∧
      ((getHostType x uc.Host).1 = hostTypeFqdn →
        (resolveFqdn x up.host uc.Dns.Servers).2.2 ≠ none →
        up.address = none ∧
        up.dns.ttl = (if uc.Dns.Ttl ≠ 0 then uc.Dns.Ttl else x.defaultDnsTtl)) := by
  obtain ⟨tc, htc, uc, huc, rfl⟩ := getConfig_upstream_mem x e up hup
  exact ⟨tc, htc, uc, huc, rfl, getConfigUpstream_availability x _ uc⟩

/-- Witness of C18: the upstream built for `a.example.org`, which does not resolve,
is an upstream of the instance `getConfig` builds, so the statement applies to it. -/
theorem getConfig_initial_availability_witness :
    ∃ tc ∈ sampleFqdnEntry.TargetsConfig, ∃ uc ∈ tc.UpstreamGroup.Upstreams,
      sampleFqdnUpstream
        = getConfigUpstream sampleFqdnExternals (getLbProtocol tc.Protocol).1 uc ∧
      (sampleFqdnUpstream.available = true ↔
        (uc.HealthCheck = HealthCheckConfig.zero ∨ uc.HealthCheck.StartAvailable = true) ∧
        (((getHostType sampleFqdnExternals uc.Host).1 = hostTypeIPv4 ∨
            (getHostType sampleFqdnExternals uc.Host).1 = hostTypeIPv6) ∨
          ((getHostType sampleFqdnExternals uc.Host).1 = hostTypeFqdn ∧
            (resolveFqdn sampleFqdnExternals sampleFqdnUpstream.host uc.Dns.Servers).2.2
              = none))) ∧
      (sampleFqdnUpstream.healthCheck.active = true ↔
        uc.HealthCheck ≠ HealthCheckConfig.zero) ∧
      ((getHostType sampleFqdnExternals uc.Host).1 = hostTypeFqdn →
        (resolveFqdn sampleFqdnExternals sampleFqdnUpstream.host uc.Dns.Servers).2.2 ≠ none →
        sampleFqdnUpstream.address = none ∧
        sampleFqdnUpstream.dns.ttl
          = (if uc.Dns.Ttl ≠ 0 then uc.Dns.Ttl else sampleFqdnExternals.defaultDnsTtl)) :=
  getConfig_initial_availability sampleFqdnExternals sampleFqdnEntry sampleFqdnUpstream
    (by decide)

/-! ## Effective DNS TTL -/

theorem getUpstream_ledger (l : lb) (ips : List IP) (ti ui : Nat) :
    ({ l with upstreamIps := ips } : lb).getUpstream ti ui = l.getUpstream ti ui := rfl

theorem addUpstreamIps_getUpstream (l : lb) (nip : IP) (ti ui : Nat) :
    (l.addUpstreamIps nip).getUpstream ti ui = l.getUpstream ti ui := by
  unfold lb.addUpstreamIps
  split_ifs <;> rfl

theorem updateUpstream_getUpstream (l : lb) (ti ui : Nat) (u : upstream) (nua : IP)
    (engine : upstream → List IP → Option Error) (hu : l.getUpstream ti ui = some u) :
    ((l.updateUpstream ti ui nua engine).1).getUpstream ti ui
      = some { u with address := nua } := by
  obtain ⟨A, B, -, hset⟩ := allUpstreams_split l ti ui u hu
  obtain ⟨-, -, hget⟩ := hset { u with address := nua }
  rw [updateUpstream_fst l ti ui u nua engine hu]
  split_ifs
  · unfold lb.replaceUpstreamIps
    cases replaceUpstreamIpsLoop u.address nua
        (l.setUpstream ti ui { u with address := nua }).upstreamIps with
    | none =>
      dsimp only
      rw [addUpstreamIps_getUpstream, hget]
    | some uip =>
      dsimp only
      rw [getUpstream_ledger, hget]
  · rw [addUpstreamIps_getUpstream, hget]

theorem setUpstream_getUpstream (l : lb) (ti ui : Nat) (u u1 : upstream)
    (hu : l.getUpstream ti ui = some u) :
    (l.setUpstream ti ui u1).getUpstream ti ui = some u1 := by
  obtain ⟨A, B, -, hset⟩ := allUpstreams_split l ti ui u hu
  exact (hset u1).2.2

theorem dnsCheckTick_terminate (x : Externals) (engine : upstream → List IP → Option Error)
    (l : lb) (ti ui : Nat) (p : Nat) (hterm : l.terminate = true) :
    dnsCheckTick x engine l ti ui p = (l, p) := by
  unfold dnsCheckTick
  cases l.getUpstream ti ui with
  | none => rfl
  | some u => simp [hterm]

theorem dnsCheckTick_failure (x : Externals) (engine : upstream → List IP → Option Error)
    (l : lb) (ti ui : Nat) (p : Nat) (u : upstream)
    (hu : l.getUpstream ti ui = some u) (hterm : l.terminate = false)
    (hr : (resolveFqdn x u.host u.dns.addresses).2.2 ≠ none) :
    ∃ u1, (dnsCheckTick x engine l ti ui p).1.getUpstream ti ui = some u1 ∧
      u1.dns.confTtl = u.dns.confTtl ∧
      u1.dns.ttl = (if u.dns.ttl = 0 then x.defaultDnsTtl else u.dns.ttl) ∧
      (dnsCheckTick x engine l ti ui p).2 = u1.dns.ttl := by
  unfold dnsCheckTick
  rw [hu]
  dsimp only
  rw [if_neg (by simp [hterm]), if_pos hr]
  dsimp only
  refine ⟨_, setUpstream_getUpstream l ti ui u _ hu, ?_, ?_, rfl⟩
  · split_ifs <;> rfl
  · split_ifs with h0
    · rfl
    · rfl

theorem dnsCheckTick_success (x : Externals) (engine : upstream → List IP → Option Error)
    (l : lb) (ti ui : Nat) (p : Nat) (u : upstream)
    (hu : l.getUpstream ti ui = some u) (hterm : l.terminate = false)
    (hr : (resolveFqdn x u.host u.dns.addresses).2.2 = none) :
    ∃ u1, (dnsCheckTick x engine l ti ui p).1.getUpstream ti ui = some u1 ∧
      u1.dns.confTtl = u.dns.confTtl ∧
      (u.dns.confTtl = 0 →
        u1.dns.ttl = (if (resolveFqdn x u.host u.dns.addresses).2.1 ≠ 0
          then (resolveFqdn x u.host u.dns.addresses).2.1 else x.defaultDnsTtl) ∧
        (dnsCheckTick x engine l ti ui p).2 = u1.dns.ttl) ∧
      (u.dns.confTtl ≠ 0 →
        u1.dns.ttl = u.dns.ttl ∧ (dnsCheckTick x engine l ti ui p).2 = p) := by
  have hl1 : ∃ u2, (if IP.Equal u.address (resolveFqdn x u.host u.dns.addresses).1 = false then
        ((l.setUpstream ti ui
          (if u.healthCheck.active = false then { u with available := true } else u)).updateUpstream
            ti ui (resolveFqdn x u.host u.dns.addresses).1 engine).1
      else l).getUpstream ti ui = some u2 ∧ u2.dns = u.dns := by
    split_ifs with h1 h2
    · exact ⟨_, updateUpstream_getUpstream _ ti ui _ _ engine
        (setUpstream_getUpstream l ti ui u _ hu), rfl⟩
    · exact ⟨_, updateUpstream_getUpstream _ ti ui _ _ engine
        (setUpstream_getUpstream l ti ui u _ hu), rfl⟩
    · exact ⟨u, hu, rfl⟩
  obtain ⟨u2, hget2, hdns⟩ := hl1
  unfold dnsCheckTick
  rw [hu]
  dsimp only
  rw [if_neg (by simp [hterm]), if_neg (not_not.2 hr)]
  rw [hget2]
  dsimp only
  rw [hdns]
  by_cases hc : u.dns.confTtl = 0
  · rw [if_pos hc]
    refine ⟨_, setUpstream_getUpstream _ ti ui u2 _ hget2, rfl, fun _ => ⟨rfl, rfl⟩,
      fun h => absurd hc h⟩
  · rw [if_neg hc]
    refine ⟨u2, hget2, by rw [hdns], fun h => absurd h hc, fun _ => ⟨by rw [hdns], rfl⟩⟩

theorem initDnsCheck_spec (x : Externals) (u : upstream) :
    (initDnsCheck x u).1.dns.ttl =
      (if u.dns.confTtl ≠ 0 then u.dns.confTtl
        else if u.dns.ttl = 0 then x.defaultDnsTtl else u.dns.ttl) ∧
    (initDnsCheck x u).1.dns.confTtl = u.dns.confTtl ∧
    (initDnsCheck x u).2 = (initDnsCheck x u).1.dns.ttl := by
  unfold initDnsCheck
  by_cases hc : u.dns.confTtl ≠ 0
  · rw [if_pos hc, if_pos hc]
    exact ⟨rfl, rfl, rfl⟩
  · rw [if_neg hc, if_neg hc]
    dsimp only
    by_cases h0 : u.dns.ttl = 0
    · rw [if_pos h0, if_pos h0]
      exact ⟨rfl, rfl, rfl⟩
    · rw [if_neg h0, if_neg h0]
      exact ⟨rfl, rfl, rfl⟩

theorem dnsCheckTick_sound (x : Externals) (engine : upstream → List IP → Option Error)
    (l : lb) (ti ui p conf : Nat) (hdef : 0 < x.defaultDnsTtl)
    (h : dnsCheckSound l ti ui p conf) :
    dnsCheckSound (dnsCheckTick x engine l ti ui p).1 ti ui
      (dnsCheckTick x engine l ti ui p).2 conf := by
  obtain ⟨u, hu, hconf, hov, hp⟩ := h
  by_cases hterm : l.terminate = true
  · rw [dnsCheckTick_terminate x engine l ti ui p hterm]
    exact ⟨u, hu, hconf, hov, hp⟩
  · have hterm' : l.terminate = false := by simpa using hterm
    by_cases hr : (resolveFqdn x u.host u.dns.addresses).2.2 = none
    · obtain ⟨u1, hget, hc1, hno, hyes⟩ :=
        dnsCheckTick_success x engine l ti ui p u hu hterm' hr
      refine ⟨u1, hget, hc1.trans hconf, ?_, ?_⟩
      · intro hne
        rw [(hyes (by rw [hconf]; exact hne)).1]
        exact hov hne
      · by_cases hc : u.dns.confTtl = 0
        · obtain ⟨e1, e2⟩ := hno hc
          rw [e2, e1]
          split_ifs with h0
          · omega
          · exact hdef
        · rw [(hyes hc).2]
          exact hp
    · obtain ⟨u1, hget, hc1, httl, hper⟩ :=
        dnsCheckTick_failure x engine l ti ui p u hu hterm' hr
      refine ⟨u1, hget, hc1.trans hconf, ?_, ?_⟩
      · intro hne
        rw [httl]
        have := hov hne
        rw [if_neg (by omega)]
        exact this
      · rw [hper, httl]
        split_ifs with h0
        · exact hdef
        · omega

theorem dnsCheckRun_sound (engine : upstream → List IP → Option Error) (ti ui : Nat)
    (xs : List Externals) (l : lb) (p conf : Nat)
    (hxs : ∀ y ∈ xs, 0 < y.defaultDnsTtl) (h : dnsCheckSound l ti ui p conf) :
    dnsCheckSound (dnsCheckRun engine ti ui xs l p).1 ti ui
      (dnsCheckRun engine ti ui xs l p).2 conf := by
  induction xs generalizing l p with
  | nil => exact h
  | cons y ys ih =>
    simp only [dnsCheckRun]
    exact ih _ _ (fun z hz => hxs z (List.mem_cons_of_mem _ hz))
      (dnsCheckTick_sound y engine l ti ui p conf (hxs y (List.mem_cons_self _ _)) h)

theorem initDnsCheck_sound (x : Externals) (l : lb) (ti ui : Nat) (u : upstream)
    (hu : l.getUpstream ti ui = some u) (hdef : 0 < x.defaultDnsTtl) :
    dnsCheckSound (l.setUpstream ti ui (initDnsCheck x u).1) ti ui (initDnsCheck x u).2
      u.dns.confTtl := by
  obtain ⟨h1, h2, h3⟩ := initDnsCheck_spec x u
  refine ⟨_, setUpstream_getUpstream l ti ui u _ hu, h2, ?_, ?_⟩
  · intro hne
    rw [h1, if_pos hne]
  · rw [h3, h1]
    split_ifs with a b
    · omega
    · exact hdef
    · omega

/-- C19: the effective DNS TTL. `initDnsCheck` sets the effective TTL to the
configured override when there is one, and otherwise keeps it unless it is 0, in
which case it becomes the default; the ticker starts with that period. A tick of a
terminated instance changes nothing. Otherwise, after a failed resolution the TTL is
unchanged unless it was 0, in which case it becomes the default, and the ticker is
reset to it; after a successful resolution with no override the TTL is the response
TTL if that is not zero and the default otherwise, and the ticker is reset to it;
with an override the TTL and the ticker are left as they are. Hence after
`initDnsCheck` and any number of ticks the TTL equals the override when there is one
and, the default being positive, the ticker period is positive. -/
theorem dns_effective_ttl (x : Externals) (engine : upstream → List IP → Option Error)
    (l : lb) (ti ui p : Nat) (u : upstream) (xs : List Externals)
    (hu : l.getUpstream ti ui = some u) (hdef : 0 < x.defaultDnsTtl)
    (hxs : ∀ y ∈ xs, 0 < y.defaultDnsTtl) :
    ((initDnsCheck x u).1.dns.ttl =
      (if u.dns.confTtl ≠ 0 then u.dns.confTtl
        else if u.dns.ttl = 0 then x.defaultDnsTtl else u.dns.ttl) ∧
      (initDnsCheck x u).2 = (initDnsCheck x u).1.dns.ttl) ∧
    (l.terminate = true → dnsCheckTick x engine l ti ui p = (l, p)) ∧
    (l.terminate = false → (resolveFqdn x u.host u.dns.addresses).2.2 ≠ none →
      ∃ u1, (dnsCheckTick x engine l ti ui p).1.getUpstream ti ui = some u1 ∧
        u1.dns.confTtl = u.dns.confTtl ∧
        u1.dns.ttl = (if u.dns.ttl = 0 then x.defaultDnsTtl else u.dns.ttl) ∧
        (dnsCheckTick x engine l ti ui p).2 = u1.dns.ttl) ∧
    (l.terminate = false → (resolveFqdn x u.host u.dns.addresses).2.2 = none →
      ∃ u1, (dnsCheckTick x engine l ti ui p).1.getUpstream ti ui = some u1 ∧
        u1.dns.confTtl = u.dns.confTtl ∧
        (u.dns.confTtl = 0 →
          u1.dns.ttl = (if (resolveFqdn x u.host u.dns.addresses).2.1 ≠ 0
            then (resolveFqdn x u.host u.dns.addresses).2.1 else x.defaultDnsTtl) ∧
          (dnsCheckTick x engine l ti ui p).2 = u1.dns.ttl) ∧
        (u.dns.confTtl ≠ 0 →
          u1.dns.ttl = u.dns.ttl ∧ (dnsCheckTick x engine l ti ui p).2 = p)) ∧
    dnsCheckSound
      (dnsCheckRun engine ti ui xs (l.setUpstream ti ui (initDnsCheck x u).1)
        (initDnsCheck x u).2).1 ti ui
      (dnsCheckRun engine ti ui xs (l.setUpstream ti ui (initDnsCheck x u).1)
        (initDnsCheck x u).2).2 u.dns.confTtl := by
  obtain ⟨h1, -, h3⟩ := initDnsCheck_spec x u
  exact ⟨⟨h1, h3⟩, dnsCheckTick_terminate x engine l ti ui p,
    fun hterm hr => dnsCheckTick_failure x engine l ti ui p u hu hterm hr,
    fun hterm hr => dnsCheckTick_success x engine l ti ui p u hu hterm hr,
    dnsCheckRun_sound engine ti ui xs _ _ _ hxs (initDnsCheck_sound x l ti ui u hu hdef)⟩

/-- Witness of C19: for the unresolved upstream b of the sample instance, with no
override and TTL 0, the state after `initDnsCheck` and two failed ticks is sound. -/
theorem dns_effective_ttl_witness :
    dnsCheckSound
      (dnsCheckRun (fun _ _ => none) 0 1 [sampleExternals, sampleExternals]
        (sampleLb.setUpstream 0 1
          (initDnsCheck sampleExternals (sampleUpstream "b" none false)).1)
        (initDnsCheck sampleExternals (sampleUpstream "b" none false)).2).1 0 1
      (dnsCheckRun (fun _ _ => none) 0 1 [sampleExternals, sampleExternals]
        (sampleLb.setUpstream 0 1
          (initDnsCheck sampleExternals (sampleUpstream "b" none false)).1)
        (initDnsCheck sampleExternals (sampleUpstream "b" none false)).2).2
      (sampleUpstream "b" none false).dns.confTtl :=
  (dns_effective_ttl sampleExternals (fun _ _ => none) sampleLb 0 1 0
    (sampleUpstream "b" none false) [sampleExternals, sampleExternals] rfl (by decide)
    (by decide)).2.2.2.2

/-! ## Comparison of two sets of load balancers -/

theorem lbsCompareFind_some (o n : lb) (nlbs : List lb) (h : lbsCompareFind o nlbs = some n) :
    n ∈ nlbs ∧ o.et = n.et := by
  induction nlbs with
  | nil => cases h
  | cons m rest ih =>
    simp only [lbsCompareFind] at h
    split_ifs at h with hm
    · cases h
      exact ⟨List.mem_cons_self _ _, hm⟩
    · obtain ⟨h1, h2⟩ := ih h
      exact ⟨List.mem_cons_of_mem _ h1, h2⟩

theorem lbsCompareFind_none (o : lb) (nlbs : List lb) :
    lbsCompareFind o nlbs = none ↔ o.et ∉ nlbs.map (fun n => n.et) := by
  induction nlbs with
  | nil => simp [lbsCompareFind]
  | cons m rest ih =>
    simp only [lbsCompareFind, List.map_cons, List.mem_cons, not_or]
    split_ifs with hm
    · simp [hm]
    · rw [ih]
      exact ⟨fun h => ⟨hm, h⟩, fun h => h.2⟩

theorem et_injective_of_nodup (ls : List lb) (hnd : (ls.map (fun n => n.et)).Nodup)
    (a b : lb) (ha : a ∈ ls) (hb : b ∈ ls) (h : a.et = b.et) : a = b :=
  List.inj_on_of_nodup_map hnd ha hb h

theorem lbsCompareFind_unique (o n : lb) (nlbs : List lb)
    (hnd : (nlbs.map (fun n => n.et)).Nodup) (hn : n ∈ nlbs) (het : o.et = n.et) :
    lbsCompareFind o nlbs = some n := by
  cases hf : lbsCompareFind o nlbs with
  | none =>
    exfalso
    exact (lbsCompareFind_none o nlbs).1 hf (by rw [het]; exact List.mem_map_of_mem _ hn)
  | some m =>
    obtain ⟨hm, hem⟩ := lbsCompareFind_some o m nlbs hf
    rw [et_injective_of_nodup nlbs hnd m n hm hn (hem.symm.trans het)]

theorem lbsCompareOld_spec (nlbs olbs : List lb) (kept : lbEngineType → Option (List lb))
    (removed : List lb) (hnd : (olbs.map (fun o => o.et)).Nodup) :
    (lbsCompareOld nlbs olbs kept removed).2 =
      removed ++ olbs.filter (fun o => decide (o.et ∉ nlbs.map (fun n => n.et))) ∧
    (∀ e, e ∉ olbs.map (fun o => o.et) → (lbsCompareOld nlbs olbs kept removed).1 e = kept e) ∧
    (∀ o ∈ olbs, (lbsCompareOld nlbs olbs kept removed).1 o.et =
      match lbsCompareFind o nlbs with
      | some n => some [o, n]
      | none => kept o.et) := by
  induction olbs generalizing kept removed with
  | nil => simp [lbsCompareOld]
  | cons o rest ih =>
    rw [List.map_cons, List.nodup_cons] at hnd
    obtain ⟨hnot, hrest⟩ := hnd
    simp only [lbsCompareOld]
    cases hf : lbsCompareFind o nlbs with
    | some n =>
      dsimp only
      obtain ⟨i1, i2, i3⟩ := ih (fun e => if e = o.et then some [o, n] else kept e) removed hrest
      have hin : o.et ∈ nlbs.map (fun n => n.et) := by
        obtain ⟨hn, het⟩ := lbsCompareFind_some o n nlbs hf
        rw [het]
        exact List.mem_map_of_mem _ hn
      refine ⟨?_, ?_, ?_⟩
      · rw [i1, List.filter_cons_of_neg (by simpa using hin)]
      · intro e he
        rw [List.map_cons, List.mem_cons, not_or] at he
        rw [i2 e he.2, if_neg he.1]
      · intro o' ho'
        rcases List.mem_cons.1 ho' with rfl | ho'
        · rw [i2 _ hnot, if_pos rfl, hf]
        · have hne : o'.et ≠ o.et := by
            intro heq
            exact hnot (by rw [← heq]; exact List.mem_map_of_mem _ ho')
          rw [i3 o' ho']
          cases lbsCompareFind o' nlbs with
          | none =>
            dsimp only
            rw [if_neg hne]
          | some m => rfl
    | none =>
      dsimp only
      obtain ⟨i1, i2, i3⟩ := ih kept (removed ++ [o]) hrest
      have hout : o.et ∉ nlbs.map (fun n => n.et) := (lbsCompareFind_none o nlbs).1 hf
      refine ⟨?_, ?_, ?_⟩
      · rw [i1, List.filter_cons_of_pos (by simpa using hout), List.append_assoc]
        rfl
      · intro e he
        rw [List.map_cons, List.mem_cons, not_or] at he
        exact i2 e he.2
      · intro o' ho'
        rcases List.mem_cons.1 ho' with rfl | ho'
        · rw [i2 _ hnot, hf]
        · exact i3 o' ho'

theorem lbsCompareNew_spec (kept : lbEngineType → Option (List lb)) (nlbs added : List lb) :
    lbsCompareNew kept nlbs added = added ++ nlbs.filter (fun n => (kept n.et).isNone) := by
  induction nlbs generalizing added with
  | nil => simp [lbsCompareNew]
  | cons n rest ih =>
    simp only [lbsCompareNew]
    split_ifs with h
    · rw [ih]
      simp [List.filter_cons, h]
    · rw [ih]
      simp [List.filter_cons, h]

theorem lbsCompare_kept (olbs nlbs : List lb) (ho : (olbs.map (fun o => o.et)).Nodup)
    (hn : (nlbs.map (fun n => n.et)).Nodup) :
    (∀ e, ((lbsCompare olbs nlbs).1 e).isSome = true ↔
      e ∈ olbs.map (fun o => o.et) ∧ e ∈ nlbs.map (fun n => n.et)) ∧
    (∀ o ∈ olbs, ∀ n ∈ nlbs, o.et = n.et → (lbsCompare olbs nlbs).1 o.et = some [o, n]) := by
  obtain ⟨-, k2, k3⟩ := lbsCompareOld_spec nlbs olbs (fun _ => none) [] ho
  constructor
  · intro e
    by_cases he : e ∈ olbs.map (fun o => o.et)
    · obtain ⟨o, hoin, rfl⟩ := List.mem_map.1 he
      show ((lbsCompareOld nlbs olbs (fun _ => none) []).1 o.et).isSome = true ↔ _
      rw [k3 o hoin]
      cases hf : lbsCompareFind o nlbs with
      | none =>
        have := (lbsCompareFind_none o nlbs).1 hf
        simp [this]
      | some n =>
        obtain ⟨hnin, het⟩ := lbsCompareFind_some o n nlbs hf
        have hmem : o.et ∈ nlbs.map (fun n => n.et) := by
          rw [het]
          exact List.mem_map_of_mem _ hnin
        simp only [Option.isSome_some, true_iff]
        exact ⟨he, hmem⟩
    · show ((lbsCompareOld nlbs olbs (fun _ => none) []).1 e).isSome = true ↔ _
      rw [k2 e he]
      simp [he]
  · intro o hoin n hnin het
    show (lbsCompareOld nlbs olbs (fun _ => none) []).1 o.et = _
    rw [k3 o hoin, lbsCompareFind_unique o n nlbs hn hnin het]

/-- C20: for lists of old and new load balancers with pairwise distinct engine types
each, `lbsCompare` returns a map `kept` whose keys are exactly the engine types in
both lists, with the pair (old, new) of that type as value; `added` is the new load
balancers whose type is not among the old ones, in their order; `removed` is the old
load balancers whose type is not among the new ones, in their order. So an old load
balancer is removed exactly when it is not kept, and a new one is added exactly when
it is not kept. -/
theorem lbsCompare_spec (olbs nlbs : List lb) (ho : (olbs.map (fun o => o.et)).Nodup)
    (hn : (nlbs.map (fun n => n.et)).Nodup) :
    (∀ e, ((lbsCompare olbs nlbs).1 e).isSome = true ↔
      e ∈ olbs.map (fun o => o.et) ∧ e ∈ nlbs.map (fun n => n.et)) ∧
    (∀ o ∈ olbs, ∀ n ∈ nlbs, o.et = n.et → (lbsCompare olbs nlbs).1 o.et = some [o, n]) ∧
    (lbsCompare olbs nlbs).2.1 =
      nlbs.filter (fun n => decide (n.et ∉ olbs.map (fun o => o.et))) ∧
    (lbsCompare olbs nlbs).2.2 =
      olbs.filter (fun o => decide (o.et ∉ nlbs.map (fun n => n.et))) ∧
    (∀ o ∈ olbs,
      (o ∈ (lbsCompare olbs nlbs).2.2 ↔ (lbsCompare olbs nlbs).1 o.et = none) ∧
      (o ∉ (lbsCompare olbs nlbs).2.2 ↔
        ∃ n ∈ nlbs, (lbsCompare olbs nlbs).1 o.et = some [o, n])) ∧
    (∀ n ∈ nlbs,
      (n ∈ (lbsCompare olbs nlbs).2.1 ↔ (lbsCompare olbs nlbs).1 n.et = none) ∧
      (n ∉ (lbsCompare olbs nlbs).2.1 ↔
        ∃ o ∈ olbs, (lbsCompare olbs nlbs).1 n.et = some [o, n])) := by
  obtain ⟨hkeys, hpair⟩ := lbsCompare_kept olbs nlbs ho hn
  have hremoved : (lbsCompare olbs nlbs).2.2 =
      olbs.filter (fun o => decide (o.et ∉ nlbs.map (fun n => n.et))) := by
    show (lbsCompareOld nlbs olbs (fun _ => none) []).2 = _
    rw [(lbsCompareOld_spec nlbs olbs (fun _ => none) [] ho).1]
    rfl
  have hnone : ∀ e, (lbsCompare olbs nlbs).1 e = none ↔
      ¬ (e ∈ olbs.map (fun o => o.et) ∧ e ∈ nlbs.map (fun n => n.et)) := by
    intro e
    rw [← hkeys e]
    cases (lbsCompare olbs nlbs).1 e <;> simp
  have hadded : (lbsCompare olbs nlbs).2.1 =
      nlbs.filter (fun n => decide (n.et ∉ olbs.map (fun o => o.et))) := by
    show lbsCompareNew (lbsCompare olbs nlbs).1 nlbs [] = _
    rw [lbsCompareNew_spec, List.nil_append]
    apply List.filter_congr
    intro n hnin
    have hmem : n.et ∈ nlbs.map (fun n => n.et) := List.mem_map_of_mem _ hnin
    by_cases hin : n.et ∈ olbs.map (fun o => o.et)
    · have hsome := (hkeys n.et).2 ⟨hin, hmem⟩
      cases hk : (lbsCompare olbs nlbs).1 n.et with
      | none =>
        rw [hk] at hsome
        cases hsome
      | some v => simp [hin]
    · have := (hnone n.et).2 (fun h => hin h.1)
      rw [this]
      simp [hin]
  refine ⟨hkeys, hpair, hadded, hremoved, ?_, ?_⟩
  · intro o hoin
    have hoet : o.et ∈ olbs.map (fun o => o.et) := List.mem_map_of_mem _ hoin
    have hrem : o ∈ (lbsCompare olbs nlbs).2.2 ↔ (lbsCompare olbs nlbs).1 o.et = none := by
      rw [hremoved, List.mem_filter, hnone]
      simp [hoin, hoet]
    refine ⟨hrem, ?_⟩
    rw [hrem, hnone, not_not]
    constructor
    · rintro ⟨-, hmem⟩
      obtain ⟨n, hnin, het⟩ := List.mem_map.1 hmem
      exact ⟨n, hnin, hpair o hoin n hnin het.symm⟩
    · rintro ⟨n, hnin, hk⟩
      have : ((lbsCompare olbs nlbs).1 o.et).isSome = true := by
        rw [hk]
        rfl
      exact (hkeys o.et).1 this
  · intro n hnin
    have hnet : n.et ∈ nlbs.map (fun n => n.et) := List.mem_map_of_mem _ hnin
    have hadd : n ∈ (lbsCompare olbs nlbs).2.1 ↔ (lbsCompare olbs nlbs).1 n.et = none := by
      rw [hadded, List.mem_filter, hnone]
      simp [hnin, hnet]
    refine ⟨hadd, ?_⟩
    rw [hadd, hnone, not_not]
    constructor
    · rintro ⟨hmem, -⟩
      obtain ⟨o, hoin, het⟩ := List.mem_map.1 hmem
      have := hpair o hoin n hnin het
      rw [het] at this
      exact ⟨o, hoin, this⟩
    · rintro ⟨o, hoin, hk⟩
      have : ((lbsCompare olbs nlbs).1 n.et).isSome = true := by
        rw [hk]
        rfl
      exact (hkeys n.et).1 this

/-- Witness of C20: old = [nft], new = [nft (reconfigured), test]: the nft pair is
kept, the test load balancer is added and nothing is removed. -/
theorem lbsCompare_spec_witness :
    (lbsCompare [sampleLbOf lbEngineNft [ip1]]
        [sampleLbOf lbEngineNft [ip2], sampleLbOf lbEngineTest []]).2.1
      = [sampleLbOf lbEngineTest []] ∧
    (lbsCompare [sampleLbOf lbEngineNft [ip1]]
        [sampleLbOf lbEngineNft [ip2], sampleLbOf lbEngineTest []]).2.2 = [] :=
  have h := lbsCompare_spec [sampleLbOf lbEngineNft [ip1]]
    [sampleLbOf lbEngineNft [ip2], sampleLbOf lbEngineTest []] (by decide) (by decide)
  ⟨h.2.2.1.trans (by decide), h.2.2.2.1.trans (by decide)⟩

/-! ## Protocol codec and failover mode table -/

/-- C21 at its failing input: `lbProto.String` has no case for `lbProtoHttp`, so the
text of the defined value http is "unknown", which `getLbProtocol` does not recognise:
the round trip of http ends in `lbProtoUnknown` with an error wrapping `errLbProto`,
although `getLbProtocol` maps the name "http" to `lbProtoHttp`. The round trip holds for
tcp, udp and sctp, and every string other than the four names is mapped to
`lbProtoUnknown` with an error wrapping `errLbProto`. -/
theorem getLbProtocol_string_http :
    lbProto.String lbProtoHttp = "unknown" ∧
    getLbProtocol (lbProto.String lbProtoHttp)
      = (lbProtoUnknown, some [Sentinel.errLbProto]) ∧
    getLbProtocol "http" = (lbProtoHttp, none) ∧
    getLbProtocol (lbProto.String lbProtoTcp) = (lbProtoTcp, none) ∧
    getLbProtocol (lbProto.String lbProtoUdp) = (lbProtoUdp, none) ∧
    getLbProtocol (lbProto.String lbProtoSctp) = (lbProtoSctp, none) ∧
    (∀ s : String, s ≠ "tcp" ∧ s ≠ "udp" ∧ s ≠ "sctp" ∧ s ≠ "http" →
      (getLbProtocol s).1 = lbProtoUnknown ∧
        errorsIs (getLbProtocol s).2 Sentinel.errLbProto = true) := by
  refine ⟨by decide, by decide, by decide, by decide, by decide, by decide, ?_⟩
  rintro s ⟨h1, h2, h3, h4⟩
  simp [getLbProtocol, h1, h2, h3, h4, errorsIs]

/-- C27: `nextMode` maps Inactive to Active1, Active1 to Active2, Active2 to Active1
and Down to Active1, each with a nil error; every other value (Unknown or out of range)
gives `ugFoModeUnknown` with an error wrapping `errUgFM`; a result with a nil error is
Active1 or Active2 and differs from the input. -/
theorem nextMode_table (m : ugFoMode) :
    nextMode ugFoModeInactive = (ugFoModeActive1, none) ∧
    nextMode ugFoModeActive1 = (ugFoModeActive2, none) ∧
    nextMode ugFoModeActive2 = (ugFoModeActive1, none) ∧
    nextMode ugFoModeDown = (ugFoModeActive1, none) ∧
    ((m ≠ ugFoModeInactive ∧ m ≠ ugFoModeActive1 ∧ m ≠ ugFoModeActive2 ∧ m ≠ ugFoModeDown) →
      (nextMode m).1 = ugFoModeUnknown ∧ (nextMode m).2 ≠ none ∧
        errorsIs (nextMode m).2 Sentinel.errUgFM = true) ∧
    ((nextMode m).2 = none →
      ((nextMode m).1 = ugFoModeActive1 ∨ (nextMode m).1 = ugFoModeActive2) ∧
        (nextMode m).1 ≠ m) := by
  refine ⟨rfl, rfl, rfl, rfl, ?_, ?_⟩
  · rintro ⟨h1, h2, h3, h4⟩
    match m, h1, h2, h3, h4 with
    | 0, _, _, _, _ => decide
    | 1, h1, _, _, _ => exact absurd rfl h1
    | 2, _, h2, _, _ => exact absurd rfl h2
    | 3, _, _, h3, _ => exact absurd rfl h3
    | 4, _, _, _, h4 => exact absurd rfl h4
    | n + 5, _, _, _, _ => simp [nextMode, errorsIs, ugFoModeUnknown]
  · intro h
    match m, h with
    | 0, h => simp [nextMode] at h
    | 1, _ => decide
    | 2, _ => decide
    | 3, _ => decide
    | 4, _ => decide
    | n + 5, h => simp [nextMode] at h


/-- C27 at the out-of-range value 7 and at Down: 7 gives Unknown with an error, Down
gives Active1 without one. -/
theorem nextMode_table_witness :
    ((nextMode 7).1 = ugFoModeUnknown ∧ (nextMode 7).2 ≠ none ∧
      errorsIs (nextMode 7).2 Sentinel.errUgFM = true) ∧
    (((nextMode ugFoModeDown).1 = ugFoModeActive1 ∨ (nextMode ugFoModeDown).1 = ugFoModeActive2) ∧
      (nextMode ugFoModeDown).1 ≠ ugFoModeDown) :=
  ⟨(nextMode_table 7).2.2.2.2.1 (by decide), (nextMode_table ugFoModeDown).2.2.2.2.2 rfl⟩

/-! ## Ledger operations -/

theorem replaceUpstreamIpsLoop_set (oip nip : IP) (led : List IP) :
    ∀ (i : Nat) (a : IP), led[i]? = some a → IP.Equal a oip = true →
      (∀ j b, j < i → led[j]? = some b → IP.Equal b oip = false) →
      replaceUpstreamIpsLoop oip nip led = some (led.set i nip) := by
  induction led with
  | nil =>
    intro i a h
    simp at h
  | cons x rest ih =>
    intro i a h heq hfirst
    cases i with
    | zero =>
      simp only [List.getElem?_cons_zero, Option.some.injEq] at h
      subst h
      simp [replaceUpstreamIpsLoop, heq]
    | succ k =>
      have hx : IP.Equal x oip = false := hfirst 0 x (Nat.succ_pos k) (by simp)
      have hk : rest[k]? = some a := by simpa using h
      have hrest := ih k a hk heq (fun j b hj hb => hfirst (j + 1) b (Nat.succ_lt_succ hj)
        (by simpa using hb))
      simp [replaceUpstreamIpsLoop, hx, hrest]

/-- C26: `replaceUpstreamIps oip nip` on a ledger whose first entry equal to `oip`
(`net.IP.Equal`) is at position `i` puts `nip` at position `i`, keeps the length and
every other position, and returns nil; on a ledger without an entry equal to `oip` it
returns an error wrapping `errReplUpstreamIp` and leaves the instance as it was.
`addUpstreamIps` of the nil address leaves the instance as it was, and of any other
address appends it at the end of the ledger. -/
theorem replaceUpstreamIps_spec (l : lb) (oip nip : IP) :
    (∀ (i : Nat) (a : IP), l.upstreamIps[i]? = some a → IP.Equal a oip = true →
      (∀ j b, j < i → l.upstreamIps[j]? = some b → IP.Equal b oip = false) →
      l.replaceUpstreamIps oip nip = ({ l with upstreamIps := l.upstreamIps.set i nip }, none) ∧
      (l.replaceUpstreamIps oip nip).1.upstreamIps[i]? = some nip ∧
      (l.replaceUpstreamIps oip nip).1.upstreamIps.length = l.upstreamIps.length ∧
      (∀ j, j ≠ i →
        (l.replaceUpstreamIps oip nip).1.upstreamIps[j]? = l.upstreamIps[j]?)) ∧
    ((∀ a ∈ l.upstreamIps, IP.Equal a oip = false) →
      l.replaceUpstreamIps oip nip = (l, some [Sentinel.errReplUpstreamIp]) ∧
      errorsIs (l.replaceUpstreamIps oip nip).2 Sentinel.errReplUpstreamIp = true) ∧
    l.addUpstreamIps none = l ∧
    (nip ≠ none → l.addUpstreamIps nip = { l with upstreamIps := l.upstreamIps ++ [nip] }) := by
  refine ⟨?_, ?_, ?_, ?_⟩
  · intro i a h heq hfirst
    have hloop := replaceUpstreamIpsLoop_set oip nip l.upstreamIps i a h heq hfirst
    have hres : l.replaceUpstreamIps oip nip
        = ({ l with upstreamIps := l.upstreamIps.set i nip }, none) := by
      unfold lb.replaceUpstreamIps
      rw [hloop]
    have hi : i < l.upstreamIps.length := (List.getElem?_eq_some.1 h).1
    refine ⟨hres, ?_, ?_, ?_⟩
    · rw [hres]
      simp [List.getElem?_set_self hi]
    · rw [hres]
      simp
    · intro j hj
      rw [hres]
      simp [List.getElem?_set_ne (Ne.symm hj)]
  · intro hnone
    have hloop := replaceUpstreamIpsLoop_none oip nip l.upstreamIps hnone
    have hres : l.replaceUpstreamIps oip nip = (l, some [Sentinel.errReplUpstreamIp]) := by
      unfold lb.replaceUpstreamIps
      rw [hloop]
    exact ⟨hres, by rw [hres]; rfl⟩
  · simp [lb.addUpstreamIps]
  · intro h
    simp [lb.addUpstreamIps, h]

/-- C26 on the ledger [10.0.0.1, 10.0.0.2, 10.0.0.1]: replacing 10.0.0.1 by 10.0.0.3
changes position 0 only; replacing 10.0.0.3, which is not there, fails. -/
theorem replaceUpstreamIps_spec_witness :
    (sampleLbOf lbEngineTest [ip1, ip2, ip1]).replaceUpstreamIps ip1 ip3
      = (sampleLbOf lbEngineTest [ip3, ip2, ip1], none) ∧
    (sampleLbOf lbEngineTest [ip1, ip2, ip1]).replaceUpstreamIps ip3 ip1
      = (sampleLbOf lbEngineTest [ip1, ip2, ip1], some [Sentinel.errReplUpstreamIp]) ∧
    (sampleLbOf lbEngineTest [ip1]).addUpstreamIps ip2 = sampleLbOf lbEngineTest [ip1, ip2] :=
  ⟨((replaceUpstreamIps_spec (sampleLbOf lbEngineTest [ip1, ip2, ip1]) ip1 ip3).1 0 ip1 rfl
      (by decide) (fun j b hj _ => absurd hj (Nat.not_lt_zero j))).1,
    ((replaceUpstreamIps_spec (sampleLbOf lbEngineTest [ip1, ip2, ip1]) ip3 ip1).2.1
      (by decide)).1,
    (replaceUpstreamIps_spec (sampleLbOf lbEngineTest [ip1]) ip1 ip2).2.2.2 (by decide)⟩


/-! ## Unique addresses -/

theorem IP.Equal_refl (a : IP) : IP.Equal a a = true :=
  (IP.Equal_iff_canon a a).2 rfl

theorem IP.Equal_symm {a b : IP} (h : IP.Equal a b = true) : IP.Equal b a = true :=
  (IP.Equal_iff_canon b a).2 ((IP.Equal_iff_canon a b).1 h).symm

theorem IP.Equal_trans {a b c : IP} (h1 : IP.Equal a b = true) (h2 : IP.Equal b c = true) :
    IP.Equal a c = true :=
  (IP.Equal_iff_canon a c).2
    (((IP.Equal_iff_canon a b).1 h1).trans ((IP.Equal_iff_canon b c).1 h2))

theorem findUniqueNetIpLoop_eq (l : List IP) :
    ∀ unipl seen, sameAddresses unipl seen →
      findUniqueNetIpLoop l unipl = unipl ++ firstOccurrencesFrom seen l := by
  induction l with
  | nil =>
    intro unipl seen _
    simp [findUniqueNetIpLoop, firstOccurrencesFrom]
  | cons a rest ih =>
    intro unipl seen hs
    by_cases ha : unipl.any (fun ip => IP.Equal ip a) = true
    · have ha' : seen.any (fun ip => IP.Equal ip a) = true := by rw [← hs a]; exact ha
      have hs' : sameAddresses unipl (seen ++ [a]) := by
        intro x
        rw [List.any_append, ← hs x]
        by_cases hax : IP.Equal a x = true
        · obtain ⟨u, hu, hua⟩ := List.any_eq_true.1 ha
          have : unipl.any (fun ip => IP.Equal ip x) = true :=
            List.any_eq_true.2 ⟨u, hu, IP.Equal_trans hua hax⟩
          simp [this]
        · simp [hax]
      simp only [findUniqueNetIpLoop, firstOccurrencesFrom, ha, ha', if_true]
      exact ih unipl (seen ++ [a]) hs'
    · have ha' : ¬ seen.any (fun ip => IP.Equal ip a) = true := by rw [← hs a]; exact ha
      have hs' : sameAddresses (unipl ++ [a]) (seen ++ [a]) := by
        intro x
        rw [List.any_append, List.any_append, hs x]
      simp only [findUniqueNetIpLoop, firstOccurrencesFrom, ha, ha', if_false]
      rw [ih (unipl ++ [a]) (seen ++ [a]) hs']
      simp

theorem findUniqueNetIp_eq_firstOccurrences (l : List IP) :
    findUniqueNetIp l = firstOccurrences l := by
  unfold findUniqueNetIp firstOccurrences
  rw [findUniqueNetIpLoop_eq l [] [] (fun _ => rfl)]
  rfl

theorem firstOccurrencesFrom_mem (l : List IP) :
    ∀ seen u, u ∈ firstOccurrencesFrom seen l →
      u ∈ l ∧ seen.any (fun ip => IP.Equal ip u) = false := by
  induction l with
  | nil =>
    intro seen u h
    simp [firstOccurrencesFrom] at h
  | cons a rest ih =>
    intro seen u h
    unfold firstOccurrencesFrom at h
    have hrest : ∀ v, v ∈ firstOccurrencesFrom (seen ++ [a]) rest →
        v ∈ a :: rest ∧ seen.any (fun ip => IP.Equal ip v) = false := by
      intro v hv
      obtain ⟨h1, h2⟩ := ih (seen ++ [a]) v hv
      rw [List.any_append, Bool.or_eq_false_iff] at h2
      exact ⟨List.mem_cons_of_mem _ h1, h2.1⟩
    split at h
    · exact hrest u h
    · rename_i hna
      rcases List.mem_cons.1 h with rfl | hmem
      · exact ⟨List.mem_cons_self _ _, by simpa using hna⟩
      · exact hrest u hmem

theorem firstOccurrencesFrom_pairwise (l : List IP) :
    ∀ seen, (firstOccurrencesFrom seen l).Pairwise (fun a b => IP.Equal a b = false) := by
  induction l with
  | nil =>
    intro seen
    simp [firstOccurrencesFrom]
  | cons a rest ih =>
    intro seen
    unfold firstOccurrencesFrom
    split
    · exact ih (seen ++ [a])
    · refine List.Pairwise.cons ?_ (ih (seen ++ [a]))
      intro u hu
      have h2 := (firstOccurrencesFrom_mem rest (seen ++ [a]) u hu).2
      rw [List.any_append, Bool.or_eq_false_iff] at h2
      simpa using h2.2

theorem firstOccurrencesFrom_sublist (l : List IP) :
    ∀ seen, (firstOccurrencesFrom seen l).Sublist l := by
  induction l with
  | nil =>
    intro seen
    simp [firstOccurrencesFrom]
  | cons a rest ih =>
    intro seen
    unfold firstOccurrencesFrom
    split
    · exact (ih (seen ++ [a])).cons a
    · exact (ih (seen ++ [a])).cons_cons a

theorem firstOccurrencesFrom_covers (l : List IP) :
    ∀ seen x, (∃ y ∈ l, IP.Equal y x = true) →
      seen.any (fun ip => IP.Equal ip x) = true ∨
        ∃ u ∈ firstOccurrencesFrom seen l, IP.Equal u x = true := by
  induction l with
  | nil =>
    rintro seen x ⟨y, hy, _⟩
    cases hy
  | cons a rest ih =>
    rintro seen x ⟨y, hy, hyx⟩
    have key : (seen ++ [a]).any (fun ip => IP.Equal ip x) = true ∨
        ∃ u ∈ firstOccurrencesFrom (seen ++ [a]) rest, IP.Equal u x = true := by
      rcases List.mem_cons.1 hy with rfl | hmem
      · left
        rw [List.any_append]
        simp [hyx]
      · exact ih (seen ++ [a]) x ⟨y, hmem, hyx⟩
    unfold firstOccurrencesFrom
    by_cases hsa : seen.any (fun ip => IP.Equal ip a) = true
    · rw [if_pos hsa]
      rcases key with hk | hk
      · rw [List.any_append, Bool.or_eq_true] at hk
        rcases hk with hk | hk
        · exact Or.inl hk
        · left
          obtain ⟨s, hs, hsa'⟩ := List.any_eq_true.1 hsa
          have hax : IP.Equal a x = true := by simpa using hk
          exact List.any_eq_true.2 ⟨s, hs, IP.Equal_trans hsa' hax⟩
      · exact Or.inr hk
    · rw [if_neg hsa]
      rcases key with hk | hk
      · rw [List.any_append, Bool.or_eq_true] at hk
        rcases hk with hk | hk
        · exact Or.inl hk
        · right
          have hax : IP.Equal a x = true := by simpa using hk
          exact ⟨a, List.mem_cons_self _ _, hax⟩
      · obtain ⟨u, hu, hux⟩ := hk
        exact Or.inr ⟨u, List.mem_cons_of_mem _ hu, hux⟩

theorem findUniqueNetIp_any (l : List IP) (x : IP) :
    (findUniqueNetIp l).any (fun ip => IP.Equal ip x) = l.any (fun ip => IP.Equal ip x) := by
  rw [Bool.eq_iff_iff, List.any_eq_true, List.any_eq_true, findUniqueNetIp_eq_firstOccurrences]
  constructor
  · rintro ⟨u, hu, hux⟩
    exact ⟨u, (firstOccurrencesFrom_mem l [] u hu).1, hux⟩
  · intro h
    rcases firstOccurrencesFrom_covers l [] x h with hk | hk
    · simp at hk
    · exact hk

theorem findUniqueNetIpLoop_append (l : List IP) (x : IP) :
    ∀ unipl, findUniqueNetIpLoop (l ++ [x]) unipl =
      if (findUniqueNetIpLoop l unipl).any (fun ip => IP.Equal ip x)
      then findUniqueNetIpLoop l unipl else findUniqueNetIpLoop l unipl ++ [x] := by
  induction l with
  | nil =>
    intro unipl
    simp [findUniqueNetIpLoop]
  | cons a rest ih =>
    intro unipl
    by_cases ha : unipl.any (fun ip => IP.Equal ip a) = true
    · simp only [List.cons_append, findUniqueNetIpLoop, ha, if_true]
      exact ih unipl
    · simp only [List.cons_append, findUniqueNetIpLoop, ha, if_false]
      exact ih (unipl ++ [a])

/-- C24: `findUniqueNetIp (l ++ [x])` is `findUniqueNetIp l` when some element of `l`
is equal to `x` (`net.IP.Equal`) and `findUniqueNetIp l ++ [x]` otherwise. The result
holds no two equal addresses, holds an address equal to `y` exactly when the input
does, is a sublist of the input, and is the list of first occurrences: an element is
kept exactly when no element before it in the input is equal to it. -/
theorem findUniqueNetIp_dedup_law (l : List IP) (x : IP) :
    ((∃ y ∈ l, IP.Equal y x = true) → findUniqueNetIp (l ++ [x]) = findUniqueNetIp l) ∧
    ((∀ y ∈ l, IP.Equal y x = false) →
      findUniqueNetIp (l ++ [x]) = findUniqueNetIp l ++ [x]) ∧
    (findUniqueNetIp l).Pairwise (fun a b => IP.Equal a b = false) ∧
    (∀ y, (∃ u ∈ findUniqueNetIp l, IP.Equal u y = true) ↔ (∃ z ∈ l, IP.Equal z y = true)) ∧
    (findUniqueNetIp l).Sublist l ∧
    findUniqueNetIp l = firstOccurrences l := by
  have hlaw : findUniqueNetIp (l ++ [x]) =
      if l.any (fun ip => IP.Equal ip x) then findUniqueNetIp l
      else findUniqueNetIp l ++ [x] := by
    rw [← findUniqueNetIp_any l x]
    exact findUniqueNetIpLoop_append l x []
  refine ⟨?_, ?_, ?_, ?_, ?_, findUniqueNetIp_eq_firstOccurrences l⟩
  · intro h
    rw [hlaw, if_pos (List.any_eq_true.2 h)]
  · intro h
    have hf : ¬ l.any (fun ip => IP.Equal ip x) = true := by
      rw [List.any_eq_true]
      rintro ⟨y, hy, hyx⟩
      rw [h y hy] at hyx
      cases hyx
    rw [hlaw, if_neg hf]
  · rw [findUniqueNetIp_eq_firstOccurrences]
    exact firstOccurrencesFrom_pairwise l []
  · intro y
    rw [← List.any_eq_true, ← List.any_eq_true, findUniqueNetIp_any]
  · rw [findUniqueNetIp_eq_firstOccurrences]
    exact firstOccurrencesFrom_sublist l []

/-- C24 on [10.0.0.1, 10.0.0.2]: adding 10.0.0.1 again, in its 16-byte form, changes
nothing; adding 10.0.0.3 appends it. -/
theorem findUniqueNetIp_dedup_law_witness :
    findUniqueNetIp ([ip1, ip2] ++ [some (v4InV6Prefix ++ [10, 0, 0, 1])])
      = findUniqueNetIp [ip1, ip2] ∧
    findUniqueNetIp ([ip1, ip2] ++ [ip3]) = findUniqueNetIp [ip1, ip2] ++ [ip3] ∧
    findUniqueNetIp [ip1, ip2] = [ip1, ip2] :=
  ⟨(findUniqueNetIp_dedup_law [ip1, ip2] (some (v4InV6Prefix ++ [10, 0, 0, 1]))).1
      ⟨ip1, by decide, by decide⟩,
    (findUniqueNetIp_dedup_law [ip1, ip2] ip3).2.1 (by decide), by decide⟩

/-! ## Duplicate addresses -/

theorem sameEquivalence_equal : sameEquivalence IP.Equal :=
  ⟨IP.Equal_refl, fun _ _ h => IP.Equal_symm h, fun _ _ _ h1 h2 => IP.Equal_trans h1 h2⟩

theorem sameEquivalence_text (str : IP → String) : sameEquivalence (sameText str) := by
  refine ⟨?_, ?_, ?_⟩
  · intro a
    simp [sameText]
  · intro a b h
    simp only [sameText, decide_eq_true_eq] at h ⊢
    exact h.symm
  · intro a b c h1 h2
    simp only [sameText, decide_eq_true_eq] at h1 h2 ⊢
    exact h1.trans h2

theorem same_congr {same : IP → IP → Bool} (he : sameEquivalence same) {a x : IP}
    (hax : same a x = true) (ip : IP) : same ip a = same ip x := by
  rw [Bool.eq_iff_iff]
  exact ⟨fun h => he.trans _ _ _ h hax, fun h => he.trans _ _ _ h (he.symm _ _ hax)⟩

theorem countP_same_congr {same : IP → IP → Bool} (he : sameEquivalence same) {a x : IP}
    (hax : same a x = true) (l : List IP) :
    l.countP (fun ip => same ip a) = l.countP (fun ip => same ip x) := by
  congr 1
  funext ip
  exact same_congr he hax ip

theorem countP_cons_same (same : IP → IP → Bool) (a x : IP) (l : List IP) :
    (a :: l).countP (fun ip => same ip x)
      = l.countP (fun ip => same ip x) + (if same a x = true then 1 else 0) := by
  simp [List.countP_cons]

theorem countP_snoc_same (same : IP → IP → Bool) (a x : IP) (l : List IP) :
    (l ++ [a]).countP (fun ip => same ip x)
      = l.countP (fun ip => same ip x) + (if same a x = true then 1 else 0) := by
  rw [List.countP_append]
  simp [List.countP_cons]

theorem countP_append_same (same : IP → IP → Bool) (x : IP) (l r : List IP) :
    (l ++ r).countP (fun ip => same ip x)
      = l.countP (fun ip => same ip x) + r.countP (fun ip => same ip x) :=
  List.countP_append _ _ _

theorem findDuplicateNetIpLoop_eq (str : IP → String) (l : List IP) :
    ∀ dnipl (occurrenceCount : String → Nat) seen,
      (∀ key, occurrenceCount key = seen.countP (fun ip => decide (str ip = key))) →
      findDuplicateNetIpLoop str l dnipl occurrenceCount
        = dnipl ++ secondOccurrencesFrom (sameText str) seen l := by
  induction l with
  | nil =>
    intro dnipl oc seen _
    simp [findDuplicateNetIpLoop, secondOccurrencesFrom]
  | cons a rest ih =>
    intro dnipl oc seen hoc
    have hnext : ∀ key, (fun key => if key = str a then oc key + 1 else oc key) key
        = (seen ++ [a]).countP (fun ip => decide (str ip = key)) := by
      intro key
      rw [List.countP_append, ← hoc key]
      by_cases hk : key = str a
      · subst hk
        simp [List.countP_cons]
      · have hk' : ¬ str a = key := fun h => hk h.symm
        simp [List.countP_cons, hk, hk']
    have hcount : seen.countP (fun ip => sameText str ip a) = oc (str a) := by
      rw [hoc (str a)]
      rfl
    unfold findDuplicateNetIpLoop secondOccurrencesFrom
    simp only [if_true, hcount]
    by_cases h2 : oc (str a) = 1
    · have h2' : oc (str a) + 1 = 2 := by omega
      rw [if_pos h2', if_pos h2, ih (dnipl ++ [a]) _ (seen ++ [a]) hnext]
      simp
    · have h2' : ¬ oc (str a) + 1 = 2 := by omega
      rw [if_neg h2', if_neg h2, ih dnipl _ (seen ++ [a]) hnext]

theorem findDuplicateNetIp_eq_text (str : IP → String) (l : List IP) :
    findDuplicateNetIp str l = secondOccurrencesFrom (sameText str) [] l := by
  unfold findDuplicateNetIp
  rw [findDuplicateNetIpLoop_eq str l [] (fun _ => 0) [] (fun _ => rfl)]
  rfl

theorem secondOccurrencesFrom_mem {same : IP → IP → Bool} (he : sameEquivalence same)
    (l : List IP) :
    ∀ seen x, (∃ d ∈ secondOccurrencesFrom same seen l, same d x = true) ↔
      (seen.countP (fun ip => same ip x) ≤ 1 ∧
        2 ≤ (seen ++ l).countP (fun ip => same ip x)) := by
  induction l with
  | nil =>
    intro seen x
    simp only [secondOccurrencesFrom, List.not_mem_nil, false_and, exists_false,
      List.append_nil, false_iff]
    omega
  | cons a rest ih =>
    intro seen x
    have hih := ih (seen ++ [a]) x
    have hT : (seen ++ a :: rest).countP (fun ip => same ip x)
        = (seen ++ [a] ++ rest).countP (fun ip => same ip x) := by simp
    rw [hT]
    have hsa := countP_snoc_same same a x seen
    have hge : (seen ++ [a]).countP (fun ip => same ip x)
        ≤ (seen ++ [a] ++ rest).countP (fun ip => same ip x) := by
      rw [countP_append_same same x (seen ++ [a]) rest]
      omega
    unfold secondOccurrencesFrom
    by_cases hax : same a x = true
    · rw [countP_same_congr he hax seen]
      rw [if_pos hax] at hsa
      by_cases hc : seen.countP (fun ip => same ip x) = 1
      · rw [if_pos hc]
        constructor
        · intro _
          omega
        · intro _
          exact ⟨a, List.mem_cons_self _ _, hax⟩
      · rw [if_neg hc, hih]
        omega
    · rw [if_neg hax] at hsa
      have hrest : (∃ d ∈ secondOccurrencesFrom same (seen ++ [a]) rest, same d x = true) ↔
          (seen.countP (fun ip => same ip x) ≤ 1 ∧
            2 ≤ (seen ++ [a] ++ rest).countP (fun ip => same ip x)) := by
        rw [hih, hsa]
        simp
      split
      · rw [← hrest]
        constructor
        · rintro ⟨d, hd, hdx⟩
          rcases List.mem_cons.1 hd with rfl | hmem
          · exact absurd hdx hax
          · exact ⟨d, hmem, hdx⟩
        · rintro ⟨d, hd, hdx⟩
          exact ⟨d, List.mem_cons_of_mem _ hd, hdx⟩
      · exact hrest

theorem secondOccurrencesFrom_pairwise {same : IP → IP → Bool} (he : sameEquivalence same)
    (l : List IP) :
    ∀ seen, (secondOccurrencesFrom same seen l).Pairwise (fun a b => same a b = false) := by
  induction l with
  | nil =>
    intro seen
    simp [secondOccurrencesFrom]
  | cons a rest ih =>
    intro seen
    unfold secondOccurrencesFrom
    split
    · rename_i hc
      refine List.Pairwise.cons ?_ (ih (seen ++ [a]))
      intro d hd
      cases hsd : same a d with
      | false => rfl
      | true =>
        exfalso
        have hmem := (secondOccurrencesFrom_mem he rest (seen ++ [a]) d).1
          ⟨d, hd, he.refl d⟩
        rw [countP_same_congr he hsd seen] at hc
        have hsa := countP_snoc_same same a d seen
        rw [if_pos hsd] at hsa
        have := hmem.1
        omega
    · exact ih (seen ++ [a])

theorem secondOccurrencesFrom_sublist (same : IP → IP → Bool) (l : List IP) :
    ∀ seen, (secondOccurrencesFrom same seen l).Sublist l := by
  induction l with
  | nil =>
    intro seen
    simp [secondOccurrencesFrom]
  | cons a rest ih =>
    intro seen
    unfold secondOccurrencesFrom
    split
    · exact (ih (seen ++ [a])).cons_cons a
    · exact (ih (seen ++ [a])).cons a

theorem pairwise_iff_countP_le_one {same : IP → IP → Bool} (he : sameEquivalence same)
    (l : List IP) :
    l.Pairwise (fun a b => same a b = false) ↔
      ∀ x, l.countP (fun ip => same ip x) ≤ 1 := by
  induction l with
  | nil => simp
  | cons a rest ih =>
    rw [List.pairwise_cons, ih]
    constructor
    · rintro ⟨h1, h2⟩ x
      rw [countP_cons_same]
      by_cases hax : same a x = true
      · have h0 : rest.countP (fun ip => same ip x) = 0 := by
          rw [List.countP_eq_zero]
          intro b hb hbx
          have hab : same a b = true := he.trans _ _ _ hax (he.symm _ _ hbx)
          rw [h1 b hb] at hab
          cases hab
        rw [h0, if_pos hax]
      · have := h2 x
        rw [if_neg hax]
        omega
    · intro h
      constructor
      · intro b hb
        cases hab : same a b with
        | false => rfl
        | true =>
          exfalso
          have h1 := h b
          rw [countP_cons_same, if_pos hab] at h1
          have hpos : 0 < rest.countP (fun ip => same ip b) :=
            List.countP_pos_iff.2 ⟨b, hb, he.refl b⟩
          omega
      · intro x
        have h1 := h x
        rw [countP_cons_same] at h1
        omega

theorem secondOccurrencesFrom_eq_nil {same : IP → IP → Bool} (he : sameEquivalence same)
    (l : List IP) :
    secondOccurrencesFrom same [] l = [] ↔ l.Pairwise (fun a b => same a b = false) := by
  rw [pairwise_iff_countP_le_one he]
  constructor
  · intro h x
    by_contra hx
    have := (secondOccurrencesFrom_mem he l [] x).2 ⟨by simp, by simpa using Nat.lt_of_not_le hx⟩
    rw [h] at this
    simp at this
  · intro h
    cases hd : secondOccurrencesFrom same [] l with
    | nil => rfl
    | cons d ds =>
      exfalso
      have := (secondOccurrencesFrom_mem he l [] d).1
        ⟨d, by rw [hd]; exact List.mem_cons_self _ _, he.refl d⟩
      have h1 := h d
      simp at this
      omega

theorem sameText_eq_equal (str : IP → String)
    (hstr : ∀ a b, str a = str b ↔ IP.Equal a b = true) : sameText str = IP.Equal := by
  funext a b
  rw [Bool.eq_iff_iff]
  simp only [sameText, decide_eq_true_eq]
  exact hstr a b

theorem unaryBytes_head (n m : Nat) (A B : List Char)
    (h : List.replicate n 'x' ++ '.' :: A = List.replicate m 'x' ++ '.' :: B) :
    n = m ∧ A = B := by
  induction n generalizing m with
  | zero =>
    cases m with
    | zero =>
      simp only [List.replicate_zero, List.nil_append, List.cons.injEq, true_and] at h
      exact ⟨rfl, h⟩
    | succ k =>
      simp only [List.replicate_zero, List.nil_append, List.replicate_succ, List.cons_append,
        List.cons.injEq] at h
      exact absurd h.1 (by decide)
  | succ j ih =>
    cases m with
    | zero =>
      simp only [List.replicate_zero, List.nil_append, List.replicate_succ, List.cons_append,
        List.cons.injEq] at h
      exact absurd h.1 (by decide)
    | succ k =>
      simp only [List.replicate_succ, List.cons_append, List.cons.injEq, true_and] at h
      obtain ⟨h1, h2⟩ := ih k h
      exact ⟨by rw [h1], h2⟩

theorem unaryBytes_injective : ∀ a b : List Nat, unaryBytes a = unaryBytes b → a = b := by
  intro a
  induction a with
  | nil =>
    intro b h
    cases b with
    | nil => rfl
    | cons m tb =>
      have := congrArg List.length h
      simp [unaryBytes] at this
      omega
  | cons n ta ih =>
    intro b h
    cases b with
    | nil =>
      have := congrArg List.length h
      simp [unaryBytes] at this
    | cons m tb =>
      obtain ⟨h1, h2⟩ := unaryBytes_head n m _ _ h
      rw [h1, ih tb h2]

theorem sampleText_equal (a b : IP) : sampleText a = sampleText b ↔ IP.Equal a b = true := by
  rw [IP.Equal_iff_canon]
  constructor
  · intro h
    have h1 : unaryBytes (IP.canon a) = unaryBytes (IP.canon b) :=
      congrArg String.data h
    exact unaryBytes_injective _ _ h1
  · intro h
    unfold sampleText
    rw [h]

/-- C25: with a text form `net.IP.String` that is the same exactly for equal addresses
(`net.IP.Equal`), `findDuplicateNetIp l` is the list of the second occurrences of `l` in
input order: an element is kept exactly when one element before it is equal to it.
Hence no two elements of the result are equal, an address equal to `x` is in the result
exactly when at least two elements of `l` are equal to `x`, the result is a sublist of
`l`, and the result is empty exactly when no two elements of `l` are equal. -/
theorem findDuplicateNetIp_spec (str : IP → String)
    (hstr : ∀ a b, str a = str b ↔ IP.Equal a b = true) (l : List IP) :
    findDuplicateNetIp str l = secondOccurrences l ∧
    (findDuplicateNetIp str l).Pairwise (fun a b => IP.Equal a b = false) ∧
    (∀ x, (∃ d ∈ findDuplicateNetIp str l, IP.Equal d x = true) ↔
      2 ≤ l.countP (fun ip => IP.Equal ip x)) ∧
    (findDuplicateNetIp str l).Sublist l ∧
    (findDuplicateNetIp str l = [] ↔ l.Pairwise (fun a b => IP.Equal a b = false)) := by
  have heq : findDuplicateNetIp str l = secondOccurrences l := by
    rw [findDuplicateNetIp_eq_text, sameText_eq_equal str hstr]
    rfl
  rw [heq]
  unfold secondOccurrences
  refine ⟨rfl, secondOccurrencesFrom_pairwise sameEquivalence_equal l [], ?_,
    secondOccurrencesFrom_sublist IP.Equal l [], secondOccurrencesFrom_eq_nil sameEquivalence_equal l⟩
  intro x
  rw [secondOccurrencesFrom_mem sameEquivalence_equal l [] x]
  simp

/-- C25 on [10.0.0.1, 10.0.0.2, 10.0.0.1, 10.0.0.2, 10.0.0.1] with the sample text
form: the duplicates are 10.0.0.1 and 10.0.0.2, once each, in the order of their second
occurrences. -/
theorem findDuplicateNetIp_spec_witness :
    findDuplicateNetIp sampleText [ip1, ip2, ip1, ip2, ip1] = [ip1, ip2] :=
  (findDuplicateNetIp_spec sampleText sampleText_equal [ip1, ip2, ip1, ip2, ip1]).1.trans
    (by decide)

/-! ## Reachable failover modes -/

theorem validModes_lt {ug : upstreamGroup} (h : validModes ug) :
    ug.failoverMode < numUgFoModes ∧ ug.failoverMode ≠ ugFoModeUnknown ∧
      (nextMode ug.failoverMode).2 = none := by
  rcases h.1 with h1 | h1 | h1 | h1 <;> rw [h1] <;> decide

theorem failoverStep_validModes (t : target) (h : validModes t.upstreamGroup) :
    validModes (failoverStep t) := by
  have hlt := (validModes_lt h).1
  unfold failoverStep
  dsimp only
  split
  · exact ⟨Or.inr (Or.inr (Or.inr rfl)), hlt⟩
  · split
    · exact ⟨Or.inl rfl, hlt⟩
    · refine ⟨?_, hlt⟩
      rcases h.1 with h1 | h1 | h1 | h1 <;> simp only [h1] <;> decide

theorem updateTarget_validModes (o : ByteOrder) (k : netlink) (t : target)
    (h : validModes t.upstreamGroup) : validModes (updateTarget o k t).1.upstreamGroup := by
  unfold updateTarget
  split
  · exact h
  · dsimp only
    split
    · exact failoverStep_validModes t h
    · exact failoverStep_validModes t h

theorem updateTargetRun_validModes (o : ByteOrder) (steps : List (List Bool × netlink)) :
    ∀ t : target, validModes t.upstreamGroup →
      validModes (updateTargetRun o steps t).upstreamGroup := by
  induction steps with
  | nil =>
    intro t h
    exact h
  | cons s rest ih =>
    intro t h
    obtain ⟨flags, k⟩ := s
    unfold updateTargetRun
    exact ih _ (updateTarget_validModes o k _ h)

theorem getConfig_fresh_targets (x : Externals) (e : LbConfig) :
    ∃ k, (lb.fresh.getConfig x e).1.targets
      = (e.TargetsConfig.take k).map (getConfigTarget x) := by
  unfold lb.getConfig
  cases het : getLbEngineType e.Engine with
  | mk et err =>
    cases err with
    | some err => exact ⟨0, by simp [lb.fresh]⟩
    | none =>
      obtain ⟨k, hk⟩ := getConfigTargets_targets x e.TargetsConfig { lb.fresh with et := et }
      exact ⟨k, by rw [hk]; simp [lb.fresh]⟩

/-- C29: for a target `getConfig` builds (its group starts in mode Inactive) and every
finite sequence of `updateTarget` calls, whatever the availability of the upstreams
before each call and whatever the netlink outcome of each call, the failover mode of
the group is one of Inactive, Active1, Active2 and Down and is not Unknown, `nextMode`
of it has a nil error, and `failoverMode` and `previousFailoverMode` are both below
`numUgFoModes`. -/
theorem failoverMode_reachable (x : Externals) (o : ByteOrder) (lbc : LbConfig) (t : target)
    (ht : t ∈ (lb.fresh.getConfig x lbc).1.targets) (steps : List (List Bool × netlink)) :
    t.upstreamGroup.failoverMode = ugFoModeInactive ∧
    ((updateTargetRun o steps t).upstreamGroup.failoverMode = ugFoModeInactive ∨
      (updateTargetRun o steps t).upstreamGroup.failoverMode = ugFoModeActive1 ∨
      (updateTargetRun o steps t).upstreamGroup.failoverMode = ugFoModeActive2 ∨
      (updateTargetRun o steps t).upstreamGroup.failoverMode = ugFoModeDown) ∧
    (updateTargetRun o steps t).upstreamGroup.failoverMode ≠ ugFoModeUnknown ∧
    (nextMode (updateTargetRun o steps t).upstreamGroup.failoverMode).2 = none ∧
    (updateTargetRun o steps t).upstreamGroup.failoverMode < numUgFoModes ∧
    (updateTargetRun o steps t).upstreamGroup.previousFailoverMode < numUgFoModes := by
  obtain ⟨k, hk⟩ := getConfig_fresh_targets x lbc
  rw [hk] at ht
  obtain ⟨tc, -, rfl⟩ := List.mem_map.1 ht
  have h0 : validModes (getConfigTarget x tc).upstreamGroup :=
    ⟨Or.inl rfl, show ugFoModeUnknown < numUgFoModes by decide⟩
  have h := updateTargetRun_validModes o steps _ h0
  obtain ⟨h1, h2, h3⟩ := validModes_lt h
  exact ⟨rfl, h.1, h2, h3, h1, h.2⟩

/-- C29 on the first target of the sample nftables entry along the sample run: the
run ends in mode Active1 coming from Down. -/
theorem failoverMode_reachable_witness :
    (updateTargetRun ByteOrder.bigEndian sampleSteps sampleBuiltTarget).upstreamGroup.failoverMode
      = ugFoModeActive1 ∧
    (updateTargetRun ByteOrder.bigEndian sampleSteps
      sampleBuiltTarget).upstreamGroup.previousFailoverMode = ugFoModeDown ∧
    (nextMode (updateTargetRun ByteOrder.bigEndian sampleSteps
      sampleBuiltTarget).upstreamGroup.failoverMode).2 = none ∧
    (updateTargetRun ByteOrder.bigEndian sampleSteps
      sampleBuiltTarget).upstreamGroup.previousFailoverMode < numUgFoModes :=
  ⟨by decide, by decide,
    (failoverMode_reachable sampleExternals ByteOrder.bigEndian sampleAcceptedEntry
      sampleBuiltTarget (by decide) sampleSteps).2.2.2.1,
    (failoverMode_reachable sampleExternals ByteOrder.bigEndian sampleAcceptedEntry
      sampleBuiltTarget (by decide) sampleSteps).2.2.2.2.2⟩

/-! ## Upstream update of the nftables engine -/

theorem addMasquerade_error (k : netlink) (rs : nftRules) (ip : IP) :
    ((addMasquerade k rs ip).2 = none ↔ (k.newOk = true ∧ k.flushOk = true)) ∧
    ((addMasquerade k rs ip).2 ≠ none → (addMasquerade k rs ip).1 = rs) := by
  unfold addMasquerade
  cases hn : k.newOk <;> cases hf : k.flushOk <;> simp
  split <;> simp

theorem updateUpstreamChain_error (k : netlink) (rs : nftRules) (u : upstream) :
    ((updateUpstreamChain k rs u).2 = none ↔ (k.newOk = true ∧ k.flushOk = true)) ∧
    (updateUpstreamChain k rs u).1.postrouting = rs.postrouting := by
  unfold updateUpstreamChain
  cases hn : k.newOk <;> cases hf : k.flushOk <;> simp
  split <;> simp

theorem cleanMasquerade_error (str : IP → String) (k : netlink) (pr : List masqRule)
    (lip : List IP) :
    (cleanMasquerade str k pr lip).2 = none ↔ (k.newOk = true ∧ k.flushOk = true) := by
  unfold cleanMasquerade
  cases hn : k.newOk <;> cases hf : k.flushOk <;> simp

/-- C28: when `addMasquerade` fails, `updateUpstream` makes no other call and returns
an error wrapping `errNftUpdateUpstream`; when it succeeds, `updateUpstreamChain` and
`cleanMasquerade` are called in that order, the error of `updateUpstream` is nil
exactly when `cleanMasquerade` returns nil, a non-nil error wraps
`errNftUpdateUpstream`, and the error is the same whatever the outcome of
`updateUpstreamChain`: when only `updateUpstreamChain` fails, nil is returned. -/
theorem updateUpstream_error_propagation (str : IP → String) (k1 k2 k3 : netlink)
    (rs : nftRules) (u : upstream) (auip : List IP) :
    ((addMasquerade k1 rs u.address).2 ≠ none →
      (nft.updateUpstream str k1 k2 k3 rs u auip).2.1 = [nftCall.addMasquerade] ∧
      (nft.updateUpstream str k1 k2 k3 rs u auip).2.2 ≠ none ∧
      errorsIs (nft.updateUpstream str k1 k2 k3 rs u auip).2.2 Sentinel.errNftUpdateUpstream
        = true) ∧
    ((addMasquerade k1 rs u.address).2 = none →
      (nft.updateUpstream str k1 k2 k3 rs u auip).2.1
        = [nftCall.addMasquerade, nftCall.updateUpstreamChain, nftCall.cleanMasquerade] ∧
      ((nft.updateUpstream str k1 k2 k3 rs u auip).2.2 = none ↔
        (cleanMasquerade str k3
          (updateUpstreamChain k2 (addMasquerade k1 rs u.address).1 u).1.postrouting
          auip).2 = none) ∧
      ((nft.updateUpstream str k1 k2 k3 rs u auip).2.2 ≠ none →
        errorsIs (nft.updateUpstream str k1 k2 k3 rs u auip).2.2
          Sentinel.errNftUpdateUpstream = true) ∧
      (∀ k2' : netlink, (nft.updateUpstream str k1 k2' k3 rs u auip).2.2
        = (nft.updateUpstream str k1 k2 k3 rs u auip).2.2) ∧
      ((updateUpstreamChain k2 (addMasquerade k1 rs u.address).1 u).2 ≠ none →
        (cleanMasquerade str k3
          (updateUpstreamChain k2 (addMasquerade k1 rs u.address).1 u).1.postrouting
          auip).2 = none →
        (nft.updateUpstream str k1 k2 k3 rs u auip).2.2 = none)) := by
  have hshape : ∀ k2' : netlink, (addMasquerade k1 rs u.address).2 = none →
      (nft.updateUpstream str k1 k2' k3 rs u auip).2.1
        = [nftCall.addMasquerade, nftCall.updateUpstreamChain, nftCall.cleanMasquerade] ∧
      (nft.updateUpstream str k1 k2' k3 rs u auip).2.2
        = (cleanMasquerade str k3
            (updateUpstreamChain k2' (addMasquerade k1 rs u.address).1 u).1.postrouting
            auip).2.map (fun err => Sentinel.errNftUpdateUpstream :: err) := by
    intro k2' h
    unfold nft.updateUpstream
    cases ha : addMasquerade k1 rs u.address with
    | mk rs1 e1 =>
      rw [ha] at h
      cases e1 with
      | some e => cases h
      | none =>
        dsimp only
        cases hc : (cleanMasquerade str k3 (updateUpstreamChain k2' rs1 u).1.postrouting auip).2
          <;> simp
  have hk3 : ∀ k2' : netlink,
      (cleanMasquerade str k3
        (updateUpstreamChain k2' (addMasquerade k1 rs u.address).1 u).1.postrouting auip).2 = none
      ↔ (k3.newOk = true ∧ k3.flushOk = true) := fun k2' => cleanMasquerade_error str k3 _ auip
  constructor
  · intro h
    unfold nft.updateUpstream
    cases ha : addMasquerade k1 rs u.address with
    | mk rs1 e1 =>
      rw [ha] at h
      cases e1 with
      | none => exact absurd rfl h
      | some e => simp [errorsIs]
  · intro h
    obtain ⟨hcalls, herr⟩ := hshape k2 h
    refine ⟨hcalls, ?_, ?_, ?_, ?_⟩
    · rw [herr]
      simp
    · intro hne
      rw [herr] at hne ⊢
      cases hc : (cleanMasquerade str k3
          (updateUpstreamChain k2 (addMasquerade k1 rs u.address).1 u).1.postrouting auip).2 with
      | none => rw [hc] at hne; exact absurd rfl hne
      | some e => simp [errorsIs]
    · intro k2'
      rw [herr, (hshape k2' h).2]
      have h1 := hk3 k2
      have h2 := hk3 k2'
      unfold cleanMasquerade at h1 h2 ⊢
      cases hn : k3.newOk <;> cases hf : k3.flushOk <;> simp
    · intro _ hc
      rw [herr, hc]
      rfl

/-- C28 at concrete outcomes on the sample rules: with `addMasquerade` failing only
that call is made; with only `updateUpstreamChain` failing all three calls are made
and nil is returned. -/
theorem updateUpstream_error_propagation_witness :
    ((nft.updateUpstream sampleText ⟨false, true⟩ ⟨true, true⟩ ⟨true, true⟩ sampleRules
        (sampleUpstream "a" ip2 true) [ip1, ip2]).2.1 = [nftCall.addMasquerade] ∧
      (nft.updateUpstream sampleText ⟨false, true⟩ ⟨true, true⟩ ⟨true, true⟩ sampleRules
        (sampleUpstream "a" ip2 true) [ip1, ip2]).2.2 ≠ none ∧
      errorsIs (nft.updateUpstream sampleText ⟨false, true⟩ ⟨true, true⟩ ⟨true, true⟩
        sampleRules (sampleUpstream "a" ip2 true) [ip1, ip2]).2.2
        Sentinel.errNftUpdateUpstream = true) ∧
    (nft.updateUpstream sampleText ⟨true, true⟩ ⟨true, false⟩ ⟨true, true⟩ sampleRules
      (sampleUpstream "a" ip2 true) [ip1, ip2]).2.2 = none :=
  ⟨(updateUpstream_error_propagation sampleText ⟨false, true⟩ ⟨true, true⟩ ⟨true, true⟩
      sampleRules (sampleUpstream "a" ip2 true) [ip1, ip2]).1 (by decide),
    (updateUpstream_error_propagation sampleText ⟨true, true⟩ ⟨true, false⟩ ⟨true, true⟩
      sampleRules (sampleUpstream "a" ip2 true) [ip1, ip2]).2 (by decide) |>.2.2.2.2
      (by decide) (by decide)⟩

/-! ## Clean up with the deduplicated ledger -/

theorem IP.Equal_comm (a b : IP) : IP.Equal a b = IP.Equal b a := by
  rw [Bool.eq_iff_iff]
  exact ⟨IP.Equal_symm, IP.Equal_symm⟩

theorem firstOccurrencesFrom_of_pairwise (l : List IP) :
    ∀ seen, (∀ s ∈ seen, ∀ a ∈ l, IP.Equal s a = false) →
      l.Pairwise (fun a b => IP.Equal a b = false) → firstOccurrencesFrom seen l = l := by
  induction l with
  | nil =>
    intro seen _ _
    rfl
  | cons a rest ih =>
    intro seen hseen hp
    obtain ⟨ha, hrest⟩ := List.pairwise_cons.1 hp
    have hany : ¬ seen.any (fun ip => IP.Equal ip a) = true := by
      rw [List.any_eq_true]
      rintro ⟨s, hs, hsa⟩
      rw [hseen s hs a (List.mem_cons_self _ _)] at hsa
      cases hsa
    unfold firstOccurrencesFrom
    rw [if_neg hany, ih (seen ++ [a]) ?_ hrest]
    intro s hs b hb
    rcases List.mem_append.1 hs with h | h
    · exact hseen s h b (List.mem_cons_of_mem _ hb)
    · rw [List.mem_singleton.1 h]
      exact ha b hb

theorem findUniqueNetIp_idempotent (l : List IP) :
    findUniqueNetIp (findUniqueNetIp l) = findUniqueNetIp l := by
  have hp : (findUniqueNetIp l).Pairwise (fun a b => IP.Equal a b = false) := by
    rw [findUniqueNetIp_eq_firstOccurrences]
    exact firstOccurrencesFrom_pairwise l []
  rw [findUniqueNetIp_eq_firstOccurrences (findUniqueNetIp l)]
  exact firstOccurrencesFrom_of_pairwise _ [] (fun s hs => by cases hs) hp

theorem findDuplicateNetIp_findUniqueNetIp_nil (str : IP → String)
    (hstr : ∀ a b, str a = str b → IP.Equal a b = true) (l : List IP) :
    findDuplicateNetIp str (findUniqueNetIp l) = [] := by
  rw [findDuplicateNetIp_eq_text, secondOccurrencesFrom_eq_nil (sameEquivalence_text str)]
  have hp : (findUniqueNetIp l).Pairwise (fun a b => IP.Equal a b = false) := by
    rw [findUniqueNetIp_eq_firstOccurrences]
    exact firstOccurrencesFrom_pairwise l []
  refine hp.imp ?_
  intro a b hab
  cases hs : sameText str a b with
  | false => rfl
  | true =>
    have : str a = str b := by simpa [sameText] using hs
    rw [hstr a b this] at hab
    cases hab

theorem delUnnecessaryLoop_eq_filter (lip : List IP) (pr : List masqRule) :
    delUnnecessaryLoop lip pr
      = pr.filter (fun rule => !(lip.any (fun ip => IP.Equal rule.Data ip))) := by
  induction pr with
  | nil => rfl
  | cons rule rest ih =>
    unfold delUnnecessaryLoop
    by_cases h : lip.any (fun ip => IP.Equal rule.Data ip) = true
    · rw [if_pos h, ih]
      simp [List.filter_cons, h]
    · rw [if_neg h, ih]
      simp [List.filter_cons, h]

theorem any_equal_findUniqueNetIp (l : List IP) (x : IP) :
    (findUniqueNetIp l).any (fun ip => IP.Equal x ip) = l.any (fun ip => IP.Equal x ip) := by
  have h := findUniqueNetIp_any l x
  have hc : (fun ip => IP.Equal x ip) = (fun ip => IP.Equal ip x) := by
    funext ip
    exact IP.Equal_comm x ip
  rw [hc]
  exact h

theorem updateUpstream_engine_call (li : lb) (ti ui : Nat) (nua : IP)
    (engine : upstream → List IP → Option Error) (u : upstream)
    (hu : li.getUpstream ti ui = some u) :
    (li.updateUpstream ti ui nua engine).2
      = (engine { u with address := nua }
          (findUniqueNetIp (li.updateUpstream ti ui nua engine).1.upstreamIps)).map
          (fun err => Sentinel.errLbEngineUpstreamUpdate :: err) := by
  unfold lb.updateUpstream
  rw [hu]
  dsimp only
  split <;> rename_i h <;> (dsimp only; rw [h]; rfl)

/-- C30: with a text form `net.IP.String` that differs for addresses that are not
equal, `findDuplicateNetIp (findUniqueNetIp l)` is empty and `findUniqueNetIp` is
idempotent. `lb.updateUpstream` calls the engine with `findUniqueNetIp` of the ledger
it has just updated; with that argument the duplicate pass of `cleanMasquerade`
passes no rule to `DelRule`, and the rules passed to `DelRule` are exactly the rules
of the chain whose address is equal to no address of the ledger; so it is for the
`cleanMasquerade` step of the `updateUpstream` of the nftables engine. -/
theorem cleanMasquerade_deduplicated_ledger (str : IP → String)
    (hstr : ∀ a b, str a = str b → IP.Equal a b = true) (l : List IP)
    (pr : List masqRule) :
    findDuplicateNetIp str (findUniqueNetIp l) = [] ∧
    findUniqueNetIp (findUniqueNetIp l) = findUniqueNetIp l ∧
    (∀ (li : lb) (ti ui : Nat) (nua : IP) (engine : upstream → List IP → Option Error)
      (u : upstream), li.getUpstream ti ui = some u →
      (li.updateUpstream ti ui nua engine).2
        = (engine { u with address := nua }
            (findUniqueNetIp (li.updateUpstream ti ui nua engine).1.upstreamIps)).map
            (fun err => Sentinel.errLbEngineUpstreamUpdate :: err)) ∧
    delDuplicateLoop pr (findDuplicateNetIp str (findUniqueNetIp l)) = [] ∧
    cleanMasqueradeFunc str pr (findUniqueNetIp l)
      = pr.filter (fun rule => !(l.any (fun ip => IP.Equal rule.Data ip))) ∧
    (∀ (k1 k2 : netlink) (rs : nftRules) (u : upstream),
      (addMasquerade k1 rs u.address).2 = none →
      (nft.updateUpstream str k1 k2 ⟨true, true⟩ rs u (findUniqueNetIp l)).1.postrouting
        = applyDelRules (addMasquerade k1 rs u.address).1.postrouting
            ((addMasquerade k1 rs u.address).1.postrouting.filter
              (fun rule => !(l.any (fun ip => IP.Equal rule.Data ip))))) := by
  have hnil := findDuplicateNetIp_findUniqueNetIp_nil str hstr l
  have hclean : ∀ pr : List masqRule, cleanMasqueradeFunc str pr (findUniqueNetIp l)
      = pr.filter (fun rule => !(l.any (fun ip => IP.Equal rule.Data ip))) := by
    intro pr
    unfold cleanMasqueradeFunc
    rw [hnil, delUnnecessaryLoop_eq_filter]
    simp only [delDuplicateLoop, List.append_nil]
    congr 1
    funext rule
    rw [any_equal_findUniqueNetIp]
  refine ⟨hnil, findUniqueNetIp_idempotent l, ?_, ?_, hclean pr, ?_⟩
  · intro li ti ui nua engine u hu
    exact updateUpstream_engine_call li ti ui nua engine u hu
  · rw [hnil]
    rfl
  · intro k1 k2 rs u h
    unfold nft.updateUpstream
    cases ha : addMasquerade k1 rs u.address with
    | mk rs1 e1 =>
      rw [ha] at h
      cases e1 with
      | some e => cases h
      | none =>
        have hpr := (updateUpstreamChain_error k2 rs1 u).2
        have hc : cleanMasquerade str ⟨true, true⟩ (updateUpstreamChain k2 rs1 u).1.postrouting
            (findUniqueNetIp l)
            = (applyDelRules rs1.postrouting (rs1.postrouting.filter
                (fun rule => !(l.any (fun ip => IP.Equal rule.Data ip)))), none) := by
          rw [hpr]
          unfold cleanMasquerade
          simp only [Bool.true_eq_false, if_false]
          rw [hclean]
        dsimp only
        rw [hc]

/-- C30 on the ledger [10.0.0.1, 10.0.0.2, 10.0.0.1] and a chain with rules for
10.0.0.1 (twice) and 10.0.0.3: only the rule for 10.0.0.3 is passed to `DelRule`. -/
theorem cleanMasquerade_deduplicated_ledger_witness :
    cleanMasqueradeFunc sampleText [⟨1, ip1⟩, ⟨2, ip3⟩, ⟨3, ip1⟩]
      (findUniqueNetIp [ip1, ip2, ip1]) = [⟨2, ip3⟩] :=
  (cleanMasquerade_deduplicated_ledger sampleText (fun a b => (sampleText_equal a b).1)
    [ip1, ip2, ip1] [⟨1, ip1⟩, ⟨2, ip3⟩, ⟨3, ip1⟩]).2.2.2.2.1.trans (by decide)

/-! ## The matcher decides the language of the pattern -/

theorem repRests_iff (step : List Char → List (List Char)) (L : List Char → Prop)
    (hstep : ∀ inp t, t ∈ step inp ↔ ∃ w, inp = w ++ t ∧ L w) :
    ∀ (max min : Nat) (inp t : List Char), t ∈ repRests step min max inp ↔
      ∃ ws : List (List Char), inp = ws.flatten ++ t ∧ min ≤ ws.length ∧ ws.length ≤ max ∧
        ∀ x ∈ ws, L x := by
  intro max
  induction max with
  | zero =>
    intro min inp t
    cases min with
    | zero =>
      simp only [repRests, List.mem_singleton]
      constructor
      · rintro rfl
        exact ⟨[], by simp, Nat.le_refl _, Nat.le_refl _, by simp⟩
      · rintro ⟨ws, h1, -, h3, -⟩
        have : ws = [] := List.eq_nil_of_length_eq_zero (Nat.le_zero.1 h3)
        subst this
        simpa using h1.symm
    | succ m =>
      simp only [repRests, List.not_mem_nil, false_iff]
      rintro ⟨ws, -, h2, h3, -⟩
      omega
  | succ k ih =>
    intro min inp t
    have hcons : (∃ mid ∈ step inp, ∃ ws : List (List Char), mid = ws.flatten ++ t ∧
        (min - 1) ≤ ws.length ∧ ws.length ≤ k ∧ ∀ x ∈ ws, L x) ↔
        ∃ ws : List (List Char), inp = ws.flatten ++ t ∧ ws ≠ [] ∧ min ≤ ws.length ∧
          ws.length ≤ k + 1 ∧ ∀ x ∈ ws, L x := by
      constructor
      · rintro ⟨mid, hmid, ws, h1, h2, h3, h4⟩
        obtain ⟨w, hw, hL⟩ := (hstep inp mid).1 hmid
        refine ⟨w :: ws, ?_, by simp, ?_, ?_, ?_⟩
        · rw [hw, h1]
          simp
        · simp only [List.length_cons]
          omega
        · simp only [List.length_cons]
          omega
        · intro x hx
          rcases List.mem_cons.1 hx with rfl | hx
          · exact hL
          · exact h4 x hx
      · rintro ⟨ws, h1, hne, h2, h3, h4⟩
        cases ws with
        | nil => exact absurd rfl hne
        | cons w ws =>
          refine ⟨ws.flatten ++ t, (hstep inp _).2 ⟨w, ?_, h4 w (List.mem_cons_self _ _)⟩,
            ws, rfl, ?_, ?_, fun x hx => h4 x (List.mem_cons_of_mem _ hx)⟩
          · rw [h1]
            simp
          · simp only [List.length_cons] at h2
            omega
          · simp only [List.length_cons] at h3
            omega
    cases min with
    | zero =>
      simp only [repRests, List.mem_cons, List.mem_flatMap]
      have hih : (∃ mid ∈ step inp, t ∈ repRests step 0 k mid) ↔
          ∃ mid ∈ step inp, ∃ ws : List (List Char), mid = ws.flatten ++ t ∧
            (0 - 1) ≤ ws.length ∧ ws.length ≤ k ∧ ∀ x ∈ ws, L x := by
        constructor
        · rintro ⟨mid, hmid, h⟩
          exact ⟨mid, hmid, (ih 0 mid t).1 h⟩
        · rintro ⟨mid, hmid, h⟩
          exact ⟨mid, hmid, (ih 0 mid t).2 h⟩
      rw [hih, hcons]
      constructor
      · rintro (rfl | ⟨ws, h1, -, h2, h3, h4⟩)
        · exact ⟨[], by simp, Nat.le_refl _, Nat.zero_le _, by simp⟩
        · exact ⟨ws, h1, h2, h3, h4⟩
      · rintro ⟨ws, h1, h2, h3, h4⟩
        by_cases hne : ws = []
        · subst hne
          left
          simpa using h1.symm
        · exact Or.inr ⟨ws, h1, hne, h2, h3, h4⟩
    | succ m =>
      simp only [repRests, List.mem_flatMap]
      have hih : (∃ mid ∈ step inp, t ∈ repRests step m k mid) ↔
          ∃ mid ∈ step inp, ∃ ws : List (List Char), mid = ws.flatten ++ t ∧
            (m + 1 - 1) ≤ ws.length ∧ ws.length ≤ k ∧ ∀ x ∈ ws, L x := by
        constructor
        · rintro ⟨mid, hmid, h⟩
          exact ⟨mid, hmid, (ih m mid t).1 h⟩
        · rintro ⟨mid, hmid, h⟩
          exact ⟨mid, hmid, (ih m mid t).2 h⟩
      rw [hih, hcons]
      constructor
      · rintro ⟨ws, h1, -, h2, h3, h4⟩
        exact ⟨ws, h1, h2, h3, h4⟩
      · rintro ⟨ws, h1, h2, h3, h4⟩
        refine ⟨ws, h1, ?_, h2, h3, h4⟩
        rintro rfl
        simp at h2

theorem starRests_iff_fuel (step : List Char → List (List Char)) (L : List Char → Prop)
    (hstep : ∀ inp t, t ∈ step inp ↔ ∃ w, inp = w ++ t ∧ L w) :
    ∀ (fuel : Nat) (inp t : List Char), t ∈ starRests step fuel inp ↔
      ∃ ws : List (List Char), inp = ws.flatten ++ t ∧ ws.length ≤ fuel ∧
        ∀ x ∈ ws, L x ∧ x ≠ [] := by
  intro fuel
  induction fuel with
  | zero =>
    intro inp t
    simp only [starRests, List.mem_singleton]
    constructor
    · rintro rfl
      exact ⟨[], by simp, Nat.le_refl _, by simp⟩
    · rintro ⟨ws, h1, h2, -⟩
      have : ws = [] := List.eq_nil_of_length_eq_zero (Nat.le_zero.1 h2)
      subst this
      simpa using h1.symm
  | succ k ih =>
    intro inp t
    simp only [starRests, List.mem_cons, List.mem_flatMap, List.mem_filter, decide_eq_true_eq]
    constructor
    · rintro (rfl | ⟨mid, ⟨hmid, hlen⟩, h⟩)
      · exact ⟨[], by simp, Nat.zero_le _, by simp⟩
      · obtain ⟨ws, h1, h2, h3⟩ := (ih mid t).1 h
        obtain ⟨w, hw, hL⟩ := (hstep inp mid).1 hmid
        refine ⟨w :: ws, ?_, ?_, ?_⟩
        · rw [hw, h1]
          simp
        · simp only [List.length_cons]
          omega
        · intro x hx
          rcases List.mem_cons.1 hx with rfl | hx
          · refine ⟨hL, ?_⟩
            rintro rfl
            rw [hw] at hlen
            simp at hlen
          · exact h3 x hx
    · rintro ⟨ws, h1, h2, h3⟩
      cases ws with
      | nil =>
        left
        simpa using h1.symm
      | cons w ws =>
        right
        have hw := h3 w (List.mem_cons_self _ _)
        refine ⟨ws.flatten ++ t, ⟨(hstep inp _).2 ⟨w, ?_, hw.1⟩, ?_⟩, (ih _ t).2
          ⟨ws, rfl, ?_, fun x hx => h3 x (List.mem_cons_of_mem _ hx)⟩⟩
        · rw [h1]
          simp
        · rw [h1]
          have : 0 < w.length := List.length_pos.2 hw.2
          simp only [List.flatten_cons, List.append_assoc, List.length_append]
          omega
        · simp only [List.length_cons] at h2
          omega

theorem length_le_length_flatten (ws : List (List Char)) (h : ∀ x ∈ ws, x ≠ []) :
    ws.length ≤ ws.flatten.length := by
  induction ws with
  | nil => simp
  | cons w ws ih =>
    have hw : 0 < w.length := List.length_pos.2 (h w (List.mem_cons_self _ _))
    have := ih (fun x hx => h x (List.mem_cons_of_mem _ hx))
    simp only [List.length_cons, List.flatten_cons, List.length_append]
    omega

theorem flatten_filter_nonempty (ws : List (List Char)) :
    (ws.filter (fun x => !x.isEmpty)).flatten = ws.flatten := by
  induction ws with
  | nil => rfl
  | cons w ws ih =>
    cases w with
    | nil => simpa [List.filter_cons] using ih
    | cons c w => simp [List.filter_cons, ih]

theorem starRests_iff (step : List Char → List (List Char)) (L : List Char → Prop)
    (hstep : ∀ inp t, t ∈ step inp ↔ ∃ w, inp = w ++ t ∧ L w) (inp t : List Char) :
    t ∈ starRests step inp.length inp ↔
      ∃ ws : List (List Char), inp = ws.flatten ++ t ∧ ∀ x ∈ ws, L x := by
  rw [starRests_iff_fuel step L hstep]
  constructor
  · rintro ⟨ws, h1, -, h3⟩
    exact ⟨ws, h1, fun x hx => (h3 x hx).1⟩
  · rintro ⟨ws, h1, h3⟩
    have hne : ∀ x ∈ ws.filter (fun x => !x.isEmpty), x ≠ [] := by
      intro x hx
      have := (List.mem_filter.1 hx).2
      rintro rfl
      simp at this
    refine ⟨ws.filter (fun x => !x.isEmpty), ?_, ?_, ?_⟩
    · rw [flatten_filter_nonempty]
      exact h1
    · have h4 := length_le_length_flatten _ hne
      rw [flatten_filter_nonempty] at h4
      rw [h1, List.length_append]
      omega
    · intro x hx
      exact ⟨h3 x (List.mem_filter.1 hx).1, hne x hx⟩

theorem Regex.rests_iff (r : Regex) :
    ∀ inp t : List Char, t ∈ r.rests inp ↔ ∃ w, inp = w ++ t ∧ r.lang w := by
  induction r with
  | cls ranges =>
    intro inp t
    cases inp with
    | nil =>
      simp only [Regex.rests, Regex.lang, List.not_mem_nil, false_iff]
      rintro ⟨w, h1, c, rfl, -⟩
      simp at h1
    | cons c rest =>
      simp only [Regex.rests, Regex.lang]
      constructor
      · intro h
        split at h
        · rename_i hc
          rw [List.mem_singleton] at h
          subst h
          exact ⟨[c], rfl, c, rfl, hc⟩
        · cases h
      · rintro ⟨w, h1, d, rfl, hd⟩
        simp only [List.singleton_append, List.cons.injEq] at h1
        obtain ⟨rfl, rfl⟩ := h1
        rw [if_pos hd]
        exact List.mem_singleton_self _
  | seq r s ihr ihs =>
    intro inp t
    simp only [Regex.rests, Regex.lang, List.mem_flatMap]
    constructor
    · rintro ⟨mid, hmid, ht⟩
      obtain ⟨u, hu, hLu⟩ := (ihr inp mid).1 hmid
      obtain ⟨v, hv, hLv⟩ := (ihs mid t).1 ht
      exact ⟨u ++ v, by rw [hu, hv, List.append_assoc], u, v, rfl, hLu, hLv⟩
    · rintro ⟨w, h1, u, v, rfl, hLu, hLv⟩
      exact ⟨v ++ t, (ihr inp _).2 ⟨u, by rw [h1, List.append_assoc], hLu⟩,
        (ihs _ t).2 ⟨v, rfl, hLv⟩⟩
  | rep r min max ih =>
    intro inp t
    simp only [Regex.rests, Regex.lang]
    rw [repRests_iff r.rests r.lang ih]
    constructor
    · rintro ⟨ws, h1, h2, h3, h4⟩
      exact ⟨ws.flatten, h1, ws, rfl, h2, h3, h4⟩
    · rintro ⟨w, h1, ws, rfl, h2, h3, h4⟩
      exact ⟨ws, h1, h2, h3, h4⟩
  | star r ih =>
    intro inp t
    simp only [Regex.rests, Regex.lang]
    rw [starRests_iff r.rests r.lang ih]
    constructor
    · rintro ⟨ws, h1, h4⟩
      exact ⟨ws.flatten, h1, ws, rfl, h4⟩
    · rintro ⟨w, h1, ws, rfl, h4⟩
      exact ⟨ws, h1, h4⟩

theorem Regex.MatchString_iff (re : Regex) (s : String) :
    re.MatchString s = true ↔ re.lang s.data := by
  unfold Regex.MatchString
  rw [List.any_eq_true]
  constructor
  · rintro ⟨t, ht, hnil⟩
    have : t = [] := List.isEmpty_iff.1 hnil
    subst this
    obtain ⟨w, hw, hL⟩ := (re.rests_iff s.data []).1 ht
    rw [List.append_nil] at hw
    rw [hw]
    exact hL
  · intro h
    exact ⟨[], (re.rests_iff s.data []).2 ⟨s.data, by simp, h⟩, rfl⟩

/-! ## The language of the FQDN pattern -/

theorem inClass_alnum (c : Char) :
    inClass classAlnum c = true ↔ (asciiLetter c ∨ asciiDigit c) := by
  simp only [inClass, classAlnum, asciiLetter, asciiDigit, List.any_cons, List.any_nil,
    Bool.or_false, Bool.or_eq_true, decide_eq_true_eq]
  tauto

theorem inClass_alnumHyphen (c : Char) : inClass classAlnumHyphen c = true ↔ hostChar c := by
  have hh : ('-'.toNat ≤ c.toNat ∧ c.toNat ≤ '-'.toNat) ↔ c = '-' := by
    constructor
    · rintro ⟨h1, h2⟩
      exact Char.ext (UInt32.ext (Nat.le_antisymm h2 h1))
    · rintro rfl
      exact ⟨Nat.le_refl _, Nat.le_refl _⟩
  simp only [inClass, classAlnumHyphen, hostChar, asciiLetter, asciiDigit, List.any_cons,
    List.any_nil, Bool.or_false, Bool.or_eq_true, decide_eq_true_eq, hh]
  tauto

theorem inClass_alpha (c : Char) : inClass classAlpha c = true ↔ asciiLetter c := by
  simp only [inClass, classAlpha, asciiLetter, List.any_cons, List.any_nil,
    Bool.or_false, Bool.or_eq_true, decide_eq_true_eq]

theorem inClass_dot (c : Char) : inClass [('.', '.')] c = true ↔ c = '.' := by
  simp only [inClass, List.any_cons, List.any_nil, Bool.or_false, decide_eq_true_eq]
  constructor
  · rintro ⟨h1, h2⟩
    exact Char.ext (UInt32.ext (Nat.le_antisymm h2 h1))
  · rintro rfl
    exact ⟨Nat.le_refl _, Nat.le_refl _⟩

theorem lang_rep_cls (ranges : List (Char × Char)) (min max : Nat) (w : List Char) :
    (Regex.rep (Regex.cls ranges) min max).lang w ↔
      (min ≤ w.length ∧ w.length ≤ max ∧ ∀ c ∈ w, inClass ranges c = true) := by
  simp only [Regex.lang]
  constructor
  · rintro ⟨ws, rfl, h2, h3, h4⟩
    have hall : ws.flatten.length = ws.length ∧ ∀ c ∈ ws.flatten, inClass ranges c = true := by
      clear h2 h3
      induction ws with
      | nil => simp
      | cons x ws ih =>
        obtain ⟨c, rfl, hc⟩ := h4 x (List.mem_cons_self _ _)
        obtain ⟨i1, i2⟩ := ih (fun y hy => h4 y (List.mem_cons_of_mem _ hy))
        constructor
        · simp [i1]
        · intro d hd
          simp only [List.flatten_cons, List.singleton_append, List.mem_cons] at hd
          rcases hd with rfl | hd
          · exact hc
          · exact i2 d hd
    rw [hall.1]
    exact ⟨h2, h3, hall.2⟩
  · rintro ⟨h2, h3, h4⟩
    refine ⟨w.map (fun c => [c]), ?_, by simpa using h2, by simpa using h3, ?_⟩
    · clear h2 h3 h4
      induction w with
      | nil => rfl
      | cons c w ih => simp [← ih]
    · intro x hx
      obtain ⟨c, hc, rfl⟩ := List.mem_map.1 hx
      exact ⟨c, rfl, h4 c hc⟩

theorem lang_regexLabel (l : List Char) : regexLabel.lang l ↔ patternLabel l := by
  unfold regexLabel patternLabel
  simp only [Regex.lang.eq_2, lang_rep_cls]
  constructor
  · rintro ⟨u, v, rfl, ⟨h1, h2, h3⟩, -, h5, h6⟩
    match u, h1, h2, h3 with
    | [c], _, _, h3 =>
      exact ⟨c, v, rfl, (inClass_alnum c).1 (h3 c (List.mem_singleton_self _)), h5,
        fun d hd => (inClass_alnumHyphen d).1 (h6 d hd)⟩
    | [], h1, _, _ => simp at h1
    | _ :: _ :: _, _, h2, _ => simp at h2
  · rintro ⟨c, rest, rfl, hc, hlen, hrest⟩
    refine ⟨[c], rest, rfl, ⟨by simp, by simp, ?_⟩, Nat.zero_le _, hlen,
      fun d hd => (inClass_alnumHyphen d).2 (hrest d hd)⟩
    intro d hd
    rw [List.mem_singleton.1 hd]
    exact (inClass_alnum c).2 hc

theorem lang_regexDot (w : List Char) : regexDot.lang w ↔ w = ['.'] := by
  unfold regexDot
  simp only [Regex.lang]
  constructor
  · rintro ⟨c, rfl, hc⟩
    rw [(inClass_dot c).1 hc]
  · rintro rfl
    exact ⟨'.', rfl, (inClass_dot '.').2 rfl⟩

theorem lang_regexTld (w : List Char) : regexTld.lang w ↔ ∃ l, w = '.' :: l ∧ patternTld l := by
  unfold regexTld patternTld
  simp only [Regex.lang.eq_2, lang_rep_cls, lang_regexDot]
  constructor
  · rintro ⟨d, x, rfl, rfl, u, v, rfl, ⟨h1, h2, h3⟩, -, h5, h6⟩
    match u, h1, h2, h3 with
    | [c], _, _, h3 =>
      exact ⟨c :: v, rfl, c, v, rfl, (inClass_alpha c).1 (h3 c (List.mem_singleton_self _)), h5,
        fun d hd => (inClass_alnum d).1 (h6 d hd)⟩
    | [], h1, _, _ => simp at h1
    | _ :: _ :: _, _, h2, _ => simp at h2
  · rintro ⟨l, rfl, c, rest, rfl, hc, hlen, hrest⟩
    refine ⟨['.'], c :: rest, rfl, rfl, [c], rest, rfl, ⟨by simp, by simp, ?_⟩, Nat.zero_le _,
      hlen, fun d hd => (inClass_alnum d).2 (hrest d hd)⟩
    intro d hd
    rw [List.mem_singleton.1 hd]
    exact (inClass_alpha c).2 hc

theorem lang_dotLabel (w : List Char) :
    (Regex.seq regexDot regexLabel).lang w ↔ ∃ l, w = '.' :: l ∧ patternLabel l := by
  simp only [Regex.lang.eq_2, lang_regexDot, lang_regexLabel]
  constructor
  · rintro ⟨d, l, rfl, rfl, hl⟩
    exact ⟨l, rfl, hl⟩
  · rintro ⟨l, rfl, hl⟩
    exact ⟨['.'], l, rfl, rfl, hl⟩

theorem lang_optDot (w : List Char) :
    (Regex.rep regexDot 0 1).lang w ↔ (w = [] ∨ w = ['.']) := by
  simp only [Regex.lang.eq_3, lang_regexDot]
  constructor
  · rintro ⟨ws, rfl, -, h3, h4⟩
    match ws, h3, h4 with
    | [], _, _ => exact Or.inl rfl
    | [x], _, h4 =>
      right
      rw [h4 x (List.mem_singleton_self _)]
      rfl
    | _ :: _ :: _, h3, _ => simp at h3
  · rintro (rfl | rfl)
    · exact ⟨[], rfl, Nat.le_refl _, Nat.zero_le _, by simp⟩
    · exact ⟨[['.']], rfl, Nat.zero_le _, Nat.le_refl _, by simp⟩

theorem lang_starDotLabel (w : List Char) :
    (Regex.star (Regex.seq regexDot regexLabel)).lang w ↔
      ∃ mids : List (List Char), w = (mids.map (fun l => '.' :: l)).flatten ∧
        ∀ m ∈ mids, patternLabel m := by
  simp only [Regex.lang.eq_4, lang_dotLabel]
  constructor
  · rintro ⟨ws, rfl, h⟩
    induction ws with
    | nil => exact ⟨[], rfl, by simp⟩
    | cons x ws ih =>
      obtain ⟨l, rfl, hl⟩ := h x (List.mem_cons_self _ _)
      obtain ⟨mids, h1, h2⟩ := ih (fun y hy => h y (List.mem_cons_of_mem _ hy))
      refine ⟨l :: mids, ?_, ?_⟩
      · simp only [List.flatten_cons, List.map_cons, h1]
      · intro m hm
        rcases List.mem_cons.1 hm with rfl | hm
        · exact hl
        · exact h2 m hm
  · rintro ⟨mids, rfl, h⟩
    refine ⟨mids.map (fun l => '.' :: l), rfl, ?_⟩
    intro x hx
    obtain ⟨l, hl, rfl⟩ := List.mem_map.1 hx
    exact ⟨l, rfl, h l hl⟩

theorem dotJoin_cons_append (first last : List Char) (mids : List (List Char)) :
    dotJoin (first :: mids ++ [last])
      = first ++ ((mids.map (fun l => '.' :: l)).flatten ++ '.' :: last) := by
  induction mids generalizing first with
  | nil => simp [dotJoin]
  | cons m mids ih =>
    have := ih m
    simp only [List.cons_append] at this ⊢
    simp only [dotJoin, this, List.map_cons, List.flatten_cons, List.cons_append,
      List.append_assoc]

theorem lang_fqdnRegex (w : List Char) :
    fqdnRegexRFC1123.lang w ↔ fqdnOf patternLabel patternTld w := by
  unfold fqdnRegexRFC1123 fqdnOf
  simp only [Regex.lang.eq_2, lang_regexLabel, lang_starDotLabel, lang_regexTld, lang_optDot]
  constructor
  · rintro ⟨first, x, rfl, hfirst, y, z, rfl, ⟨mids, rfl, hmids⟩, t, dot, rfl, ⟨last, rfl, hlast⟩,
      hdot⟩
    refine ⟨first :: mids, last, dot, by simp, ?_, ?_, hlast, hdot⟩
    · rw [dotJoin_cons_append]
      simp only [List.append_assoc, List.cons_append]
    · intro l hl
      rcases List.mem_cons.1 hl with rfl | hl
      · exact hfirst
      · exact hmids l hl
  · rintro ⟨labels, last, dot, hne, rfl, hlabels, hlast, hdot⟩
    cases labels with
    | nil => exact absurd rfl hne
    | cons first mids =>
      refine ⟨first, (mids.map (fun l => '.' :: l)).flatten ++ (('.' :: last) ++ dot), ?_,
        hlabels first (List.mem_cons_self _ _), (mids.map (fun l => '.' :: l)).flatten,
        ('.' :: last) ++ dot, rfl, ⟨mids, rfl, fun m hm => hlabels m (List.mem_cons_of_mem _ hm)⟩,
        '.' :: last, dot, rfl, ⟨last, rfl, hlast⟩, hdot⟩
      rw [dotJoin_cons_append]
      simp only [List.append_assoc, List.cons_append]

/-- The strings `isFqdn` accepts with the pattern of the sources: at least two labels
joined by dots, each a letter or digit followed by at most 62 letters, digits or
hyphens, the last a letter followed by at most 62 letters or digits, with at most one
trailing dot. -/
theorem isFqdn_iff (x : Externals) (s : String) :
    isFqdn x.withRegex s = true ↔ fqdnOf patternLabel patternTld s.data := by
  unfold isFqdn Externals.withRegex
  dsimp only
  rw [Regex.MatchString_iff, lang_fqdnRegex]

/-! ## Labels of a text -/

theorem splitDots_ne_nil (w : List Char) : splitDots w ≠ [] := by
  cases w with
  | nil => simp [splitDots]
  | cons c rest =>
    unfold splitDots
    split
    · simp
    · split <;> simp

theorem splitDots_cons (c : Char) (rest : List Char) :
    splitDots (c :: rest) =
      if c = '.' then [] :: splitDots rest
      else
        match splitDots rest with
        | l :: ls => (c :: l) :: ls
        | [] => [[c]] := by
  rw [splitDots]

theorem splitDots_append_dot (a b : List Char) :
    splitDots (a ++ '.' :: b) = splitDots a ++ splitDots b := by
  induction a with
  | nil =>
    rw [List.nil_append, splitDots_cons, if_pos rfl]
    rfl
  | cons c a ih =>
    have e : (c :: a) ++ '.' :: b = c :: (a ++ '.' :: b) := rfl
    rw [e, splitDots_cons, splitDots_cons c a, ih]
    by_cases hc : c = '.'
    · rw [if_pos hc, if_pos hc]
      rfl
    · rw [if_neg hc, if_neg hc]
      cases hs : splitDots a with
      | nil => exact absurd hs (splitDots_ne_nil a)
      | cons l ls => rfl

theorem splitDots_dotfree (a : List Char) (h : ∀ c ∈ a, c ≠ '.') : splitDots a = [a] := by
  induction a with
  | nil => rfl
  | cons c a ih =>
    have hc : c ≠ '.' := h c (List.mem_cons_self _ _)
    simp only [splitDots, hc, if_false, ih (fun d hd => h d (List.mem_cons_of_mem _ hd))]

theorem splitDots_dotJoin (labels : List (List Char)) (hne : labels ≠ [])
    (h : ∀ l ∈ labels, ∀ c ∈ l, c ≠ '.') : splitDots (dotJoin labels) = labels := by
  induction labels with
  | nil => exact absurd rfl hne
  | cons l rest ih =>
    cases rest with
    | nil =>
      simp only [dotJoin]
      exact splitDots_dotfree l (h l (List.mem_cons_self _ _))
    | cons m rest =>
      simp only [dotJoin]
      rw [splitDots_append_dot, splitDots_dotfree l (h l (List.mem_cons_self _ _)),
        ih (by simp) (fun x hx => h x (List.mem_cons_of_mem _ hx))]
      rfl

theorem splitDots_dotJoin_dot (labels : List (List Char)) (hne : labels ≠ [])
    (h : ∀ l ∈ labels, ∀ c ∈ l, c ≠ '.') (dot : List Char) (hdot : dot = [] ∨ dot = ['.']) :
    ∃ E : List (List Char), splitDots (dotJoin labels ++ dot) = labels ++ E ∧
      (E = [] ∨ E = [[]]) := by
  rcases hdot with rfl | rfl
  · exact ⟨[], by rw [List.append_nil, List.append_nil, splitDots_dotJoin labels hne h],
      Or.inl rfl⟩
  · refine ⟨[[]], ?_, Or.inr rfl⟩
    rw [splitDots_append_dot, splitDots_dotJoin labels hne h]
    rfl

theorem hostChar_ne_dot {c : Char} (h : hostChar c) : c ≠ '.' := by
  rintro rfl
  revert h
  simp only [hostChar, asciiLetter, asciiDigit]
  decide

theorem hostChar_ne_colon {c : Char} (h : hostChar c) : c ≠ ':' := by
  rintro rfl
  revert h
  simp only [hostChar, asciiLetter, asciiDigit]
  decide

theorem not_letter_and_digit {c : Char} (h1 : asciiLetter c) (h2 : asciiDigit c) : False := by
  have ha : 'a'.toNat = 97 := rfl
  have hz : 'z'.toNat = 122 := rfl
  have hA : 'A'.toNat = 65 := rfl
  have hZ : 'Z'.toNat = 90 := rfl
  have h0 : '0'.toNat = 48 := rfl
  have h9 : '9'.toNat = 57 := rfl
  unfold asciiLetter at h1
  unfold asciiDigit at h2
  rw [ha, hz, hA, hZ] at h1
  rw [h0, h9] at h2
  omega

theorem patternLabel_chars {l : List Char} (h : patternLabel l) :
    l ≠ [] ∧ ∀ c ∈ l, hostChar c := by
  obtain ⟨c, rest, rfl, hc, -, hrest⟩ := h
  refine ⟨by simp, ?_⟩
  intro d hd
  rcases List.mem_cons.1 hd with rfl | hd
  · rcases hc with hc | hc
    · exact Or.inl hc
    · exact Or.inr (Or.inl hc)
  · exact hrest d hd

theorem patternTld_chars {l : List Char} (h : patternTld l) :
    l ≠ [] ∧ ∀ c ∈ l, hostChar c := by
  obtain ⟨c, rest, rfl, hc, -, hrest⟩ := h
  refine ⟨by simp, ?_⟩
  intro d hd
  rcases List.mem_cons.1 hd with rfl | hd
  · exact Or.inl hc
  · rcases hrest d hd with h | h
    · exact Or.inl h
    · exact Or.inr (Or.inl h)

/-- The labels of an accepted text: the labels of the pattern, followed by an empty
label when the text ends with a dot. -/
theorem fqdnOf_splitDots {w : List Char} (h : fqdnOf patternLabel patternTld w) :
    ∃ (labels : List (List Char)) (last : List Char) (E : List (List Char)),
      labels ≠ [] ∧ splitDots w = labels ++ [last] ++ E ∧ (∀ l ∈ labels, patternLabel l) ∧
        patternTld last ∧ (E = [] ∨ E = [[]]) := by
  obtain ⟨labels, last, dot, hne, rfl, hlabels, hlast, hdot⟩ := h
  have hfree : ∀ l ∈ labels ++ [last], ∀ c ∈ l, c ≠ '.' := by
    intro l hl c hc
    rcases List.mem_append.1 hl with hl | hl
    · exact hostChar_ne_dot ((patternLabel_chars (hlabels l hl)).2 c hc)
    · rw [List.mem_singleton.1 hl] at hc
      exact hostChar_ne_dot ((patternTld_chars hlast).2 c hc)
  obtain ⟨E, hE, hE'⟩ := splitDots_dotJoin_dot (labels ++ [last]) (by simp) hfree dot hdot
  exact ⟨labels, last, E, hne, hE, hlabels, hlast, hE'⟩

theorem mem_dotJoin (labels : List (List Char)) (c : Char) (h : c ∈ dotJoin labels) :
    c = '.' ∨ ∃ l ∈ labels, c ∈ l := by
  induction labels with
  | nil => simp [dotJoin] at h
  | cons l rest ih =>
    cases rest with
    | nil =>
      simp only [dotJoin] at h
      exact Or.inr ⟨l, List.mem_cons_self _ _, h⟩
    | cons m rest =>
      simp only [dotJoin, List.mem_append, List.mem_cons] at h
      rcases h with h | h | h
      · exact Or.inr ⟨l, List.mem_cons_self _ _, h⟩
      · exact Or.inl h
      · rcases ih h with h | ⟨x, hx, hc⟩
        · exact Or.inl h
        · exact Or.inr ⟨x, List.mem_cons_of_mem _ hx, hc⟩

theorem fqdnOf_chars {w : List Char} (h : fqdnOf patternLabel patternTld w) :
    (∀ c ∈ w, hostChar c ∨ c = '.') ∧ ∃ c ∈ w, asciiLetter c := by
  obtain ⟨labels, last, dot, hne, rfl, hlabels, hlast, hdot⟩ := h
  constructor
  · intro c hc
    rcases List.mem_append.1 hc with hc | hc
    · rcases mem_dotJoin _ c hc with h | ⟨l, hl, hcl⟩
      · exact Or.inr h
      · rcases List.mem_append.1 hl with hl | hl
        · exact Or.inl ((patternLabel_chars (hlabels l hl)).2 c hcl)
        · rw [List.mem_singleton.1 hl] at hcl
          exact Or.inl ((patternTld_chars hlast).2 c hcl)
    · rcases hdot with rfl | rfl
      · cases hc
      · exact Or.inr (List.mem_singleton.1 hc)
  · obtain ⟨c, rest, rfl, hc, -, -⟩ := hlast
    refine ⟨c, ?_, hc⟩
    cases labels with
    | nil => exact absurd rfl hne
    | cons first mids =>
      rw [dotJoin_cons_append]
      simp

theorem patternLabel_rfc {l : List Char} (h : patternLabel l) :
    1 ≤ l.length ∧ l.length ≤ 63 ∧ (∀ c ∈ l, hostChar c) ∧ l.head? ≠ some '-' := by
  have hchars := (patternLabel_chars h).2
  obtain ⟨c, rest, rfl, hc, hlen, -⟩ := h
  refine ⟨by simp, by simp only [List.length_cons]; omega, hchars, ?_⟩
  simp only [List.head?_cons, ne_eq, Option.some.injEq]
  rintro rfl
  revert hc
  simp only [asciiLetter, asciiDigit]
  decide

theorem letterOrDigit_ne_hyphen {c : Char} (h : asciiLetter c ∨ asciiDigit c) : c ≠ '-' := by
  rintro rfl
  revert h
  simp only [asciiLetter, asciiDigit]
  decide

theorem patternTld_rfc {l : List Char} (h : patternTld l) :
    rfc1123Label l ∧ ∃ c rest, l = c :: rest ∧ asciiLetter c := by
  have hchars := (patternTld_chars h).2
  obtain ⟨c, rest, rfl, hc, hlen, hrest⟩ := h
  refine ⟨⟨by simp, by simp only [List.length_cons]; omega, hchars, ?_, ?_⟩, c, rest, rfl, hc⟩
  · simp only [List.head?_cons, ne_eq, Option.some.injEq]
    exact letterOrDigit_ne_hyphen (Or.inl hc)
  · intro hlast
    have hmem : '-' ∈ c :: rest := List.mem_of_getLast?_eq_some hlast
    rcases List.mem_cons.1 hmem with h | h
    · exact letterOrDigit_ne_hyphen (Or.inl hc) h.symm
    · exact letterOrDigit_ne_hyphen (hrest _ h) rfl

theorem not_rfc1123Fqdn_trailing_hyphen : ¬ rfc1123Fqdn "a-.com".data := by
  rintro ⟨labels, last, dot, hne, hs, hlabels, hlast, hdot⟩
  have hfree : ∀ l ∈ labels ++ [last], ∀ c ∈ l, c ≠ '.' := by
    intro l hl c hc
    rcases List.mem_append.1 hl with hl | hl
    · exact hostChar_ne_dot ((hlabels l hl).2.2.1 c hc)
    · rw [List.mem_singleton.1 hl] at hc
      exact hostChar_ne_dot (hlast.1.2.2.1 c hc)
  obtain ⟨E, hE, -⟩ := splitDots_dotJoin_dot (labels ++ [last]) (by simp) hfree dot hdot
  rw [← hs] at hE
  have hsplit : splitDots "a-.com".data = [['a', '-'], ['c', 'o', 'm']] := by decide
  rw [hsplit] at hE
  cases labels with
  | nil => exact absurd rfl hne
  | cons first mids =>
    simp only [List.cons_append, List.cons.injEq] at hE
    have h1 := hlabels first (List.mem_cons_self _ _)
    rw [← hE.1] at h1
    exact h1.2.2.2.2 (by decide)

theorem isFqdn_false_of_not (x : Externals) (s : String)
    (h : ¬ fqdnOf patternLabel patternTld s.data) : isFqdn x.withRegex s = false := by
  cases hb : isFqdn x.withRegex s with
  | false => rfl
  | true => exact absurd ((isFqdn_iff x s).1 hb) h

theorem fqdnOf_dropLast_nonempty {w : List Char} (h : fqdnOf patternLabel patternTld w) :
    ∀ l ∈ (splitDots w).dropLast, l ≠ [] := by
  obtain ⟨labels, last, E, -, hsplit, hlabels, hlast, hE⟩ := fqdnOf_splitDots h
  rw [hsplit]
  intro l hl
  rcases hE with rfl | rfl
  · rw [List.append_nil, List.dropLast_concat] at hl
    exact (patternLabel_chars (hlabels l hl)).1
  · rw [List.dropLast_concat] at hl
    rcases List.mem_append.1 hl with hl | hl
    · exact (patternLabel_chars (hlabels l hl)).1
    · rw [List.mem_singleton.1 hl]
      exact (patternTld_chars hlast).1

theorem nil_mem_dropLast_cons (b : List Char) (P : List (List Char)) :
    [] ∈ (P ++ [] :: splitDots b).dropLast := by
  cases hs : splitDots b with
  | nil => exact absurd hs (splitDots_ne_nil b)
  | cons q qs =>
    rw [List.dropLast_append_of_ne_nil _ (by simp)]
    simp [List.dropLast]

theorem fqdnOf_last_label {w : List Char} (h : fqdnOf patternLabel patternTld w)
    (X : List (List Char)) (tl : List Char) (E : List (List Char))
    (hs : splitDots w = X ++ [tl] ++ E) (hE : E = [] ∨ E = [[]]) (htl : tl ≠ []) :
    patternTld tl := by
  obtain ⟨labels, last, F, -, hsplit, -, hlast, hF⟩ := fqdnOf_splitDots h
  rw [hs] at hsplit
  have hlast_ne := (patternTld_chars hlast).1
  rcases hE with rfl | rfl <;> rcases hF with rfl | rfl
  · rw [List.append_nil, List.append_nil] at hsplit
    have := (List.append_inj' hsplit rfl).2
    rw [List.cons.injEq] at this
    rw [this.1]
    exact hlast
  · rw [List.append_nil] at hsplit
    have := (List.append_inj' hsplit rfl).2
    rw [List.cons.injEq] at this
    exact absurd this.1 htl
  · rw [List.append_nil] at hsplit
    have := (List.append_inj' hsplit rfl).2
    rw [List.cons.injEq] at this
    exact absurd this.1.symm hlast_ne
  · have h1 := (List.append_inj' hsplit rfl).1
    have := (List.append_inj' h1 rfl).2
    rw [List.cons.injEq] at this
    rw [this.1]
    exact hlast

/-- C23 at its failing input: `isFqdn` accepts "a-.com", whose first label "a-" ends
with a hyphen, so an accepted string need not be an RFC 1123 host name. What the code
accepts is exactly: at least two labels joined by single dots, each label before the
last a letter or digit followed by at most 62 letters, digits or hyphens, the last
label a letter followed by at most 62 letters or digits, and at most one trailing dot.
So every label has 1 to 63 characters of the label alphabet and does not begin with a
hyphen, the last label is an RFC 1123 label that begins with a letter, and a string
with a character outside the alphabet, with an empty label or with a last label that
begins with a digit is rejected. -/
theorem isFqdn_label_trailing_hyphen (x : Externals) :
    isFqdn x.withRegex "a-.com" = true ∧
    ¬ rfc1123Fqdn "a-.com".data ∧
    (∀ s : String, isFqdn x.withRegex s = true ↔ fqdnOf patternLabel patternTld s.data) ∧
    (∀ l, patternLabel l →
      1 ≤ l.length ∧ l.length ≤ 63 ∧ (∀ c ∈ l, hostChar c) ∧ l.head? ≠ some '-') ∧
    (∀ l, patternTld l → rfc1123Label l ∧ ∃ c rest, l = c :: rest ∧ asciiLetter c) ∧
    (∀ s : String, (∃ c ∈ s.data, ¬ hostChar c ∧ c ≠ '.') → isFqdn x.withRegex s = false) ∧
    (∀ (s : String) (a b : List Char),
      (s.data = '.' :: b ∨ s.data = a ++ '.' :: '.' :: b) → isFqdn x.withRegex s = false) ∧
    (∀ (s : String) (a rest : List Char) (d : Char), asciiDigit d → (∀ c ∈ rest, c ≠ '.') →
      (s.data = a ++ '.' :: d :: rest ∨ s.data = a ++ '.' :: (d :: rest ++ ['.'])) →
      isFqdn x.withRegex s = false) := by
  refine ⟨?_, not_rfc1123Fqdn_trailing_hyphen, isFqdn_iff x, fun l h => patternLabel_rfc h,
    fun l h => patternTld_rfc h, ?_, ?_, ?_⟩
  · show fqdnRegexRFC1123.MatchString "a-.com" = true
    decide
  · rintro s ⟨c, hc, hnot, hdot⟩
    apply isFqdn_false_of_not
    intro h
    rcases (fqdnOf_chars h).1 c hc with h1 | h1
    · exact hnot h1
    · exact hdot h1
  · intro s a b hs
    apply isFqdn_false_of_not
    intro h
    have hne := fqdnOf_dropLast_nonempty h
    rcases hs with hs | hs
    · have hsplit : splitDots s.data = [] ++ [] :: splitDots b := by
        rw [hs, splitDots_cons, if_pos rfl]
        rfl
      have hmem := nil_mem_dropLast_cons b []
      rw [← hsplit] at hmem
      exact hne [] hmem rfl
    · have hsplit : splitDots s.data = splitDots a ++ [] :: splitDots b := by
        rw [hs, splitDots_append_dot, splitDots_cons, if_pos rfl]
      have hmem := nil_mem_dropLast_cons b (splitDots a)
      rw [← hsplit] at hmem
      exact hne [] hmem rfl
  · intro s a rest d hd hrest hs
    apply isFqdn_false_of_not
    intro h
    have hfree : ∀ c ∈ d :: rest, c ≠ '.' := by
      intro c hc
      rcases List.mem_cons.1 hc with rfl | hc
      · rintro rfl
        revert hd
        simp only [asciiDigit]
        decide
      · exact hrest c hc
    have htld : patternTld (d :: rest) := by
      rcases hs with hs | hs
      · refine fqdnOf_last_label h (splitDots a) (d :: rest) [] ?_ (Or.inl rfl) (by simp)
        rw [hs, splitDots_append_dot, splitDots_dotfree _ hfree, List.append_nil]
      · refine fqdnOf_last_label h (splitDots a) (d :: rest) [[]] ?_ (Or.inr rfl) (by simp)
        rw [hs, splitDots_append_dot, splitDots_append_dot, splitDots_dotfree _ hfree,
          List.append_assoc]
        rfl
    obtain ⟨c, r, hcr, hc, -, -⟩ := htld
    rw [List.cons.injEq] at hcr
    rw [← hcr.1] at hc
    exact not_letter_and_digit hc hd

/-! ## Host classification -/

theorem ipLiteral_not_fqdn (x : Externals) (s : String) (h : ipLiteral s) :
    isFqdn x.withRegex s = false := by
  apply isFqdn_false_of_not
  intro hf
  obtain ⟨hchars, c, hc, hletter⟩ := fqdnOf_chars hf
  rcases h with h | h
  · rcases hchars ':' h with h1 | h1
    · exact hostChar_ne_colon h1 rfl
    · exact absurd h1 (by decide)
  · rcases h c hc with h1 | h1
    · exact not_letter_and_digit hletter h1
    · rw [h1] at hletter
      revert hletter
      simp only [asciiLetter]
      decide

theorem sampleExternals_ipLiteral (s : String) (h : sampleExternals.ParseIP s ≠ none) :
    ipLiteral s := by
  by_cases h1 : s = "10.0.0.1"
  · subst h1
    right
    simp only [asciiDigit]
    decide
  · by_cases h2 : s = "10.0.0.2"
    · subst h2
      right
      simp only [asciiDigit]
      decide
    · by_cases h3 : s = "10.0.0.3"
      · subst h3
        right
        simp only [asciiDigit]
        decide
      · exfalso
        apply h
        simp [sampleExternals, h1, h2, h3]

/-- C22: with the pattern of the sources and a literal parser that accepts only IP
literals, `getHostType` returns one of IPv4, IPv6, FQDN and Unknown for every string;
the error is non-nil exactly when the class is Unknown and then wraps `errHostType`;
no string both parses as a literal and matches the FQDN pattern; each class is decided
by its own recogniser (FQDN exactly when the pattern matches), and making the FQDN
check first gives the same result. -/
theorem getHostType_total_classification (x : Externals)
    (hlit : ∀ s, x.ParseIP s ≠ none → ipLiteral s) (host : String) :
    ((getHostType x.withRegex host).1 = hostTypeIPv4 ∨
      (getHostType x.withRegex host).1 = hostTypeIPv6 ∨
      (getHostType x.withRegex host).1 = hostTypeFqdn ∨
      (getHostType x.withRegex host).1 = hostTypeUnknown) ∧
    ((getHostType x.withRegex host).2 ≠ none ↔
      (getHostType x.withRegex host).1 = hostTypeUnknown) ∧
    ((getHostType x.withRegex host).1 = hostTypeUnknown →
      errorsIs (getHostType x.withRegex host).2 Sentinel.errHostType = true) ∧
    ¬ (x.ParseIP host ≠ none ∧ isFqdn x.withRegex host = true) ∧
    ((getHostType x.withRegex host).1 = hostTypeIPv4 ↔
      (x.ParseIP host ≠ none ∧ IP.To4 (x.ParseIP host) ≠ none)) ∧
    ((getHostType x.withRegex host).1 = hostTypeIPv6 ↔
      (x.ParseIP host ≠ none ∧ IP.To4 (x.ParseIP host) = none ∧
        IP.To16 (x.ParseIP host) ≠ none)) ∧
    ((getHostType x.withRegex host).1 = hostTypeFqdn ↔ isFqdn x.withRegex host = true) ∧
    getHostTypeFqdnFirst x.withRegex host = getHostType x.withRegex host := by
  have hexcl : x.ParseIP host ≠ none → isFqdn x.withRegex host = false :=
    fun h => ipLiteral_not_fqdn x host (hlit host h)
  have hp : x.withRegex.ParseIP host = x.ParseIP host := rfl
  by_cases h4 : x.ParseIP host ≠ none ∧ IP.To4 (x.ParseIP host) ≠ none
  · have hf := hexcl h4.1
    have hg : getHostType x.withRegex host = (hostTypeIPv4, none) := by
      unfold getHostType
      simp only [hp]
      rw [if_pos h4]
    have hgf : getHostTypeFqdnFirst x.withRegex host = (hostTypeIPv4, none) := by
      unfold getHostTypeFqdnFirst
      simp only [hp, hf]
      rw [if_neg (by decide), if_pos h4]
    rw [hg, hgf]
    refine ⟨by decide, by decide, by decide, ?_, ?_, ?_, ?_, rfl⟩
    · rw [hf]
      simp
    · exact ⟨fun _ => h4, fun _ => rfl⟩
    · constructor
      · intro h
        exact absurd h (by decide)
      · rintro ⟨-, c, -⟩
        exact absurd c h4.2
    · rw [hf]
      decide
  · by_cases h6 : x.ParseIP host ≠ none ∧ IP.To16 (x.ParseIP host) ≠ none
    · have hf := hexcl h6.1
      have h4' : IP.To4 (x.ParseIP host) = none := by
        by_contra hne
        exact h4 ⟨h6.1, hne⟩
      have hg : getHostType x.withRegex host = (hostTypeIPv6, none) := by
        unfold getHostType
        simp only [hp]
        rw [if_neg h4, if_pos h6]
      have hgf : getHostTypeFqdnFirst x.withRegex host = (hostTypeIPv6, none) := by
        unfold getHostTypeFqdnFirst
        simp only [hp, hf]
        rw [if_neg (by decide), if_neg h4, if_pos h6]
      rw [hg, hgf]
      refine ⟨by decide, by decide, by decide, ?_, ?_, ?_, ?_, rfl⟩
      · rw [hf]
        simp
      · constructor
        · intro h
          exact absurd h (by decide)
        · intro h
          exact absurd h h4
      · exact ⟨fun _ => ⟨h6.1, h4', h6.2⟩, fun _ => rfl⟩
      · rw [hf]
        decide
    · by_cases hf : isFqdn x.withRegex host = true
      · have hnone : x.ParseIP host = none := by
          by_contra hne
          rw [hexcl hne] at hf
          cases hf
        have hg : getHostType x.withRegex host = (hostTypeFqdn, none) := by
          unfold getHostType
          simp only [hp]
          rw [if_neg h4, if_neg h6, if_pos hf]
        have hgf : getHostTypeFqdnFirst x.withRegex host = (hostTypeFqdn, none) := by
          unfold getHostTypeFqdnFirst
          rw [if_pos hf]
        rw [hg, hgf]
        refine ⟨by decide, by decide, by decide, ?_, ?_, ?_, ?_, rfl⟩
        · rintro ⟨a, -⟩
          exact a hnone
        · constructor
          · intro h
            exact absurd h (by decide)
          · intro h
            exact absurd h h4
        · constructor
          · intro h
            exact absurd h (by decide)
          · rintro ⟨a, -, -⟩
            exact absurd hnone a
        · exact ⟨fun _ => hf, fun _ => rfl⟩
      · have hf' : isFqdn x.withRegex host = false := by simpa using hf
        have hg : getHostType x.withRegex host
            = (hostTypeUnknown, some [Sentinel.errHostType]) := by
          unfold getHostType
          simp only [hp]
          rw [if_neg h4, if_neg h6, if_neg hf]
        have hgf : getHostTypeFqdnFirst x.withRegex host
            = (hostTypeUnknown, some [Sentinel.errHostType]) := by
          unfold getHostTypeFqdnFirst
          simp only [hp]
          rw [if_neg hf, if_neg h4, if_neg h6]
        rw [hg, hgf]
        refine ⟨by decide, by decide, by decide, ?_, ?_, ?_, ?_, rfl⟩
        · rintro ⟨-, b⟩
          exact hf b
        · constructor
          · intro h
            exact absurd h (by decide)
          · intro h
            exact absurd h h4
        · constructor
          · intro h
            exact absurd h (by decide)
          · rintro ⟨a, -, c⟩
            exact absurd ⟨a, c⟩ h6
        · constructor
          · intro h
            exact absurd h (by decide)
          · intro h
            exact absurd h hf

/-- C22 on the sample parser, which knows three IPv4 literals: "10.0.0.1" is IPv4 and
not an FQDN, "example.com" is an FQDN, "11..12.1." is Unknown with an error. -/
theorem getHostType_total_classification_witness :
    (getHostType sampleExternals.withRegex "10.0.0.1").1 = hostTypeIPv4 ∧
    isFqdn sampleExternals.withRegex "10.0.0.1" = false ∧
    (getHostType sampleExternals.withRegex "example.com").1 = hostTypeFqdn ∧
    ((getHostType sampleExternals.withRegex "11..12.1.").2 ≠ none ↔
      (getHostType sampleExternals.withRegex "11..12.1.").1 = hostTypeUnknown) ∧
    (getHostType sampleExternals.withRegex "11..12.1.").1 = hostTypeUnknown :=
  ⟨(getHostType_total_classification sampleExternals sampleExternals_ipLiteral
      "10.0.0.1").2.2.2.2.1.2 (by decide),
    by decide,
    (getHostType_total_classification sampleExternals sampleExternals_ipLiteral
      "example.com").2.2.2.2.2.2.1.2 (by decide),
    (getHostType_total_classification sampleExternals sampleExternals_ipLiteral
      "11..12.1.").2.1,
    by decide⟩

end Lobby
